import Mathlib

/-!
# go-ollama-api: the authenticate → enforce-quota → proxy pipeline

A shallow embedding of `internal/api/api.go` and `internal/models/models.go`.

* Handlers are state-passing functions: the package-level `rateLimits` map is
  threaded explicitly, and every call that leaves the package (the
  `DBInterface` methods, `http.Post`, `next.ServeHTTP`) is recorded in a trace.
* Everything the handlers consult outside the repository (the `encoding/json`
  decoders, the clock, the upstream server) is a field of `World`; the answers
  the credential store gives during one request are a `DBInterface` value.
* `JSON` is `json.Decoder.Decode` into the two structs of the handlers, and
  `clientDo` is the request loop of `http.Post` with its redirect policy; the
  worlds of the tests and of the counterexamples are built from them.
* `time.Time` is an integer number of nanoseconds on one time line and
  `time.Duration` is a saturating 64-bit count of nanoseconds, as in Go.
* Go `int` values are `Int`; the only arithmetic on them is `Tokens--`, guarded
  by `Tokens > 0`, which cannot overflow.
* Concurrent requests are a step relation (`stepGoroutine`) over the shared
  quota map, `rateMutex` and the row of the credential in the store, related
  to the sequential handlers by `goroutine_alone_refines_middleware`.
-/

namespace OllamaGateway

/-! ## internal/models -/

/-- The record `models.APIKey` of the credential store. -/
structure APIKey where
  Key : String
  CreatedAt : Int
  LastUsed : Int
  Tokens : Int
  RateLimit : Int
  Active : Bool
  Description : Option String
deriving DecidableEq, Repr

/-- The struct `models.GenerateRequest`; its JSON tags are `model`, `prompt`,
`stream`, `images,omitempty`, `raw`, `apikey`. -/
structure GenerateRequest where
  Model : String
  Prompt : String
  Stream : Bool
  Images : List String
  Raw : Bool
  APIKey : String
deriving DecidableEq, Repr

/-- JSON values this program writes. -/
inductive JSONValue where
  | str (s : String)
  | bool (b : Bool)
  | strs (xs : List String)
  | time (t : Int)
deriving DecidableEq, Repr

/-- A JSON object as `encoding/json` emits it for a struct: the members in
declaration order. -/
abbrev JSONObject := List (String × JSONValue)

/-- The struct `models.APIResponse`; `Data` is the `interface{}` field, `none`
being the nil interface. -/
structure APIResponse where
  Error : String := ""
  Status : String := ""
  Timestamp : Int
  Data : Option JSONValue := none
deriving DecidableEq, Repr

/-- What `json.Encoder.Encode` writes for a `models.APIResponse` under its
tags: `error`, `status` and `data` carry `omitempty` and vanish when empty;
`timestamp` is a struct (`time.Time`), which `omitempty` never drops. -/
def APIResponse.encode (a : APIResponse) : JSONObject :=
  (if a.Error = "" then [] else [("error", JSONValue.str a.Error)]) ++
  (if a.Status = "" then [] else [("status", JSONValue.str a.Status)]) ++
  [("timestamp", JSONValue.time a.Timestamp)] ++
  (match a.Data with
   | none => []
   | some d => [("data", d)])

/-! ## net/http, time, config -/

def StatusOK : Nat := 200
def StatusBadRequest : Nat := 400
def StatusForbidden : Nat := 403
def StatusTooManyRequests : Nat := 429
def StatusInternalServerError : Nat := 500

/-- The constant `time.Minute`, in nanoseconds. -/
def Minute : Int := 60 * 1000000000

/-- The largest `time.Duration`, `1<<63 - 1`. -/
def maxDuration : Int := 9223372036854775807

/-- The smallest `time.Duration`, `-1 << 63`. -/
def minDuration : Int := -9223372036854775808

/-- The method `Time.Sub`: the duration `t - u`, saturated to the range of
`time.Duration`. -/
def Sub (t u : Int) : Int :=
  if t - u > maxDuration then maxDuration
  else if t - u < minDuration then minDuration
  else t - u

/-- The body a handler writes to its `http.ResponseWriter`. -/
inductive Body where
  | text (msg : String)
  | json (o : JSONObject)
  | raw (bytes : String)
deriving DecidableEq, Repr

/-- The calls a handler makes on its `http.ResponseWriter`: the status code,
the `Content-Type` header and the body. -/
structure Response where
  Status : Nat
  ContentType : String
  Body : Body
deriving DecidableEq, Repr

/-- The function `http.Error`: a plain-text reply, the message followed by a
newline. -/
def httpError (msg : String) (code : Nat) : Response :=
  { Status := code, ContentType := "text/plain; charset=utf-8", Body := Body.text (msg ++ "\n") }

/-- An inbound `*http.Request`: method, `r.URL.Path`, the parsed query string
and the bytes of `r.Body`. -/
structure Request where
  Method : String
  Path : String
  Query : List (String × String)
  Body : String
deriving DecidableEq, Repr

/-- The method `url.Values.Get`: the first value under the name, or the empty
string. -/
def Request.queryGet (r : Request) (name : String) : String :=
  match r.Query.find? (fun kv => kv.1 = name) with
  | some kv => kv.2
  | none => ""

/-- Modelled from the spec: the package `internal/config` is not among the
sources; its `Config` carries the listening port and the upstream base URL. -/
structure Config where
  Port : Nat
  OllamaURL : String
deriving DecidableEq, Repr

/-- The `*http.Response` that `http.Post` returns, as far as the handler reads
it: status code and body bytes. -/
structure UpstreamResponse where
  StatusCode : Nat
  Body : String
deriving DecidableEq, Repr

/-! ## The environment of one request -/

/-- Modelled from the spec: the interface `db.DBInterface` is not among the
sources; these are the three methods the handlers call on it, with the answer
each gives during the request at hand (`lookup`, `persistUsage`, `logUsage`). -/
structure DBInterface where
  GetAPIKey : String → Except String (Option APIKey)
  UpdateAPIKeyUsage : String → Int → Except String Unit
  LogAPIUsage : String → Except String Unit

/-- The two uses of `json.NewDecoder(r.Body).Decode`: into the middleware's
anonymous struct with the single field `apikey`, and into
`models.GenerateRequest`. `none` is a decoding error. -/
structure JSONDecoder where
  decodeAPIKey : String → Option String
  decodeGenerateRequest : String → Option GenerateRequest

/-- What a request finds outside the repository: the JSON decoder, the value
of `time.Now()` and the outcome of the call `http.Post(url, contentType, body)`
as a whole: the response the call returns, which is the answer to the last
request it sent (`httpPost` follows redirects), or its error. -/
structure World where
  json : JSONDecoder
  now : Int
  post : String → String → JSONObject → Except String UpstreamResponse

/-- A call that leaves the package. -/
inductive Event where
  | GetAPIKey (key : String)
  | UpdateAPIKeyUsage (key : String) (tokens : Int)
  | LogAPIUsage (key : String)
  | Post (url : String) (contentType : String) (body : JSONObject)
  | ServeNext (r : Request)
deriving DecidableEq, Repr

/-! ## internal/api -/

/-- The struct `RateLimitInfo`. -/
structure RateLimitInfo where
  Tokens : Int
  LastUsed : Int
  RateLimit : Int
deriving DecidableEq, Repr

/-- The package variable `rateLimits`, a `map[string]*RateLimitInfo`. Every
pointer in it is allocated by the middleware for one key, so no two keys
share an entry and the map is a partial function into the entries. -/
abbrev RateLimits := String → Option RateLimitInfo

/-- The outcome of serving one request: the reply, the quota map afterwards
and the outside calls made, in order. -/
structure Result where
  resp : Response
  rateLimits : RateLimits
  trace : List Event

/-- An `http.Handler` of this package. -/
abbrev Handler := World → Request → RateLimits → Result

/-- The function `rateLimitMiddleware`: API key validation and rate
limiting. -/
def rateLimitMiddleware (next : Handler) (db : DBInterface) : Handler :=
  fun w r rateLimits =>
    -- Skip rate limiting for health check endpoint
    if r.Path = "/health" then
      let res := next w r rateLimits
      { res with trace := Event.ServeNext r :: res.trace }
    else
      match w.json.decodeAPIKey r.Body with
      | none => ⟨httpError "Invalid request body" StatusBadRequest, rateLimits, []⟩
      | some reqAPIKey =>
        -- Reset body for next handler
        let r := { r with Body := "\x7b\"apikey\":\"" ++ reqAPIKey ++ "\"\x7d" }
        if reqAPIKey = "" then
          ⟨httpError "API key is required" StatusBadRequest, rateLimits, []⟩
        else
          match db.GetAPIKey reqAPIKey with
          | .error _ =>
            ⟨httpError "Internal server error" StatusInternalServerError, rateLimits,
              [Event.GetAPIKey reqAPIKey]⟩
          | .ok none =>
            ⟨httpError "Invalid API key" StatusForbidden, rateLimits,
              [Event.GetAPIKey reqAPIKey]⟩
          | .ok (some apiKey) =>
            if !apiKey.Active then
              ⟨httpError "API key is deactivated" StatusForbidden, rateLimits,
                [Event.GetAPIKey reqAPIKey]⟩
            else
              -- rateMutex.Lock()
              let info : RateLimitInfo :=
                match rateLimits reqAPIKey with
                | some info => info
                | none =>
                  { Tokens := apiKey.Tokens, LastUsed := apiKey.LastUsed,
                    RateLimit := apiKey.RateLimit }
              let currentTime := w.now
              let info : RateLimitInfo :=
                if Sub currentTime info.LastUsed ≥ Minute then
                  { info with Tokens := info.RateLimit }
                else info
              if info.Tokens > 0 then
                let info : RateLimitInfo :=
                  { info with Tokens := info.Tokens - 1, LastUsed := currentTime }
                let rateLimits := Function.update rateLimits reqAPIKey (some info)
                -- rateMutex.Unlock()
                let _err := db.UpdateAPIKeyUsage reqAPIKey info.Tokens -- only logged
                let res := next w r rateLimits
                { res with
                  trace := Event.GetAPIKey reqAPIKey ::
                    Event.UpdateAPIKeyUsage reqAPIKey info.Tokens ::
                    Event.ServeNext r :: res.trace }
              else
                -- rateMutex.Unlock()
                ⟨httpError "Rate limit exceeded. Try again later." StatusTooManyRequests,
                  Function.update rateLimits reqAPIKey (some info),
                  [Event.GetAPIKey reqAPIKey]⟩

/-- The function `healthCheckHandler`. -/
def healthCheckHandler (db : DBInterface) : Handler :=
  fun w r rateLimits =>
    let apiKey := r.queryGet "apikey"
    if apiKey = "" then
      ⟨httpError "API key is required" StatusBadRequest, rateLimits, []⟩
    else
      match db.GetAPIKey apiKey with
      | .error _ =>
        ⟨httpError "Internal server error" StatusInternalServerError, rateLimits,
          [Event.GetAPIKey apiKey]⟩
      | .ok none =>
        ⟨httpError "Invalid API key" StatusForbidden, rateLimits, [Event.GetAPIKey apiKey]⟩
      | .ok (some _) =>
        let response : APIResponse := { Status := "API is healthy", Timestamp := w.now }
        ⟨{ Status := StatusOK, ContentType := "application/json",
           Body := Body.json response.encode },
          rateLimits, [Event.GetAPIKey apiKey]⟩

/-- The anonymous struct `ollamaReq` of `generateHandler`; its JSON tags are
`model`, `prompt`, `stream`, `images,omitempty`, `raw`. -/
structure OllamaReq where
  Model : String
  Prompt : String
  Stream : Bool
  Images : List String
  Raw : Bool
deriving DecidableEq, Repr

/-- The call `json.Marshal(ollamaReq)`: the members in declaration order under
their tags, `images` dropped when the slice is empty. Marshalling strings,
booleans and string slices has no failing case. -/
def OllamaReq.marshal (o : OllamaReq) : Except String JSONObject :=
  .ok ([("model", JSONValue.str o.Model), ("prompt", JSONValue.str o.Prompt),
        ("stream", JSONValue.bool o.Stream)] ++
       (if o.Images.isEmpty then [] else [("images", JSONValue.strs o.Images)]) ++
       [("raw", JSONValue.bool o.Raw)])

/-- The function `generateHandler`: the proxy to the upstream engine. -/
def generateHandler (db : DBInterface) (cfg : Config) : Handler :=
  fun w r rateLimits =>
    match w.json.decodeGenerateRequest r.Body with
    | none => ⟨httpError "Invalid request body" StatusBadRequest, rateLimits, []⟩
    | some req =>
      -- Create request to Ollama API
      let ollamaReq : OllamaReq :=
        { Model := req.Model, Prompt := req.Prompt, Stream := req.Stream,
          Images := req.Images, Raw := req.Raw }
      match ollamaReq.marshal with
      | .error _ =>
        ⟨httpError "Error preparing request" StatusInternalServerError, rateLimits, []⟩
      | .ok ollamaBody =>
        let url := cfg.OllamaURL ++ "/api/generate"
        match w.post url "application/json" ollamaBody with
        | .error _ =>
          ⟨httpError "Error making request to Ollama API" StatusInternalServerError,
            rateLimits, [Event.Post url "application/json" ollamaBody]⟩
        | .ok ollamaResp =>
          -- Log API usage
          let _err := db.LogAPIUsage req.APIKey -- only logged
          -- Forward Ollama response
          ⟨{ Status := ollamaResp.StatusCode, ContentType := "application/json",
             Body := Body.raw ollamaResp.Body },
            rateLimits,
            [Event.Post url "application/json" ollamaBody, Event.LogAPIUsage req.APIKey]⟩

/-- The chain `SetupRoutes` installs for `GET /health`. -/
def healthRoute (db : DBInterface) : Handler :=
  rateLimitMiddleware (healthCheckHandler db) db

/-- The chain `SetupRoutes` installs for `POST /generate`. -/
def generateRoute (db : DBInterface) (cfg : Config) : Handler :=
  rateLimitMiddleware (generateHandler db cfg) db

/-! ## Serving a sequence of requests -/

/-- One request as it arrives: the request, and the answers the store and the
outside world give while it is served. -/
structure Arrival where
  db : DBInterface
  world : World
  req : Request

/-- Serve the arrivals one after the other, each on the quota map the previous
one left. -/
def serveAll (h : DBInterface → Handler) : RateLimits → List Arrival → List Result
  | _, [] => []
  | s, a :: rest =>
    let res := h a.db a.world a.req s
    res :: serveAll h res.rateLimits rest

/-- The quota map after serving the arrivals. -/
def finalRateLimits (h : DBInterface → Handler) : RateLimits → List Arrival → RateLimits
  | s, [] => s
  | s, a :: rest => finalRateLimits h (h a.db a.world a.req s).rateLimits rest

/-- Whether the event is a call of `next.ServeHTTP`. -/
def Event.isServeNext : Event → Bool
  | Event.ServeNext _ => true
  | _ => false

/-- Whether the event is a call of `db.GetAPIKey`. -/
def Event.isGetAPIKey : Event → Bool
  | Event.GetAPIKey _ => true
  | _ => false

/-- Whether the event is a call of `db.UpdateAPIKeyUsage`. -/
def Event.isUpdateAPIKeyUsage : Event → Bool
  | Event.UpdateAPIKeyUsage _ _ => true
  | _ => false

/-- Whether the event is a call of `http.Post`. -/
def Event.isPost : Event → Bool
  | Event.Post _ _ _ => true
  | _ => false

/-- The middleware let the request through: `next.ServeHTTP` was called. -/
def Result.allowed (res : Result) : Bool := res.trace.any Event.isServeNext

/-- The entry the quota check starts from: the one in the map, or a fresh one
from the record (lines 82-90). -/
def entryFor (rateLimits : RateLimits) (key : String) (apiKey : APIKey) : RateLimitInfo :=
  match rateLimits key with
  | some info => info
  | none => { Tokens := apiKey.Tokens, LastUsed := apiKey.LastUsed, RateLimit := apiKey.RateLimit }

/-- The window reset (lines 92-95). -/
def refill (currentTime : Int) (info : RateLimitInfo) : RateLimitInfo :=
  if Sub currentTime info.LastUsed ≥ Minute then { info with Tokens := info.RateLimit } else info

/-- The request as the middleware hands it to `next` (line 59). -/
def resetBody (r : Request) (key : String) : Request :=
  { r with Body := "\x7b\"apikey\":\"" ++ key ++ "\"\x7d" }

/-- The arrival is a `POST /generate` carrying the key, and the store answers
the lookup with an active record. -/
def Arrival.forActiveKey (a : Arrival) (key : String) : Prop :=
  a.req.Method = "POST" ∧ a.req.Path = "/generate" ∧
  a.world.json.decodeAPIKey a.req.Body = some key ∧
  ∃ apiKey, a.db.GetAPIKey key = .ok (some apiKey) ∧ apiKey.Active = true

/-! ## The decoder of `encoding/json`

`JSON` models `json.Decoder.Decode` into the two structs the handlers decode
into, on a body of valid UTF-8: white space is skipped, the first JSON value
is scanned to its end with the grammar and the nesting limit of the package's
scanner, and the bytes after it are not read; an object fills the struct
field by field (names matched without regard to case, later members
overwriting earlier ones, `null` leaving a field alone, unknown names
skipped), `null` leaves the struct at its zero value, and any other value, or
a member value of the wrong type, is an error. -/

namespace JSON

/-- The function `isSpace` of the scanner. -/
def isSpace (c : Char) : Bool := c = ' ' || c = '\t' || c = '\r' || c = '\n'

/-- Drop leading white space. -/
def skipSpace : List Char → List Char
  | [] => []
  | c :: cs => if isSpace c then skipSpace cs else c :: cs

/-- The value of a hexadecimal digit. -/
def hexVal (c : Char) : Option Nat :=
  if '0' ≤ c ∧ c ≤ '9' then some (c.toNat - 48)
  else if 'a' ≤ c ∧ c ≤ 'f' then some (c.toNat - 87)
  else if 'A' ≤ c ∧ c ≤ 'F' then some (c.toNat - 55)
  else none

/-- The function `getu4`: the code unit of four hexadecimal digits. -/
def getu4 (a b c d : Char) : Option Nat :=
  match hexVal a, hexVal b, hexVal c, hexVal d with
  | some x, some y, some z, some w => some (((x * 16 + y) * 16 + z) * 16 + w)
  | _, _, _, _ => none

/-- Put a character in front of an unquoted tail. -/
def consChar (c : Char) : Option (List Char × List Char) → Option (List Char × List Char)
  | some (s, rest) => some (c :: s, rest)
  | none => none

/-- One escape sequence, after its backslash: the character it stands for,
and what follows it. An unpaired surrogate escape becomes U+FFFD. -/
def unescape : List Char → Option (Char × List Char)
  | '"' :: r => some ('"', r)
  | '\\' :: r => some ('\\', r)
  | '/' :: r => some ('/', r)
  | 'b' :: r => some (Char.ofNat 8, r)
  | 'f' :: r => some (Char.ofNat 12, r)
  | 'n' :: r => some ('\n', r)
  | 'r' :: r => some ('\r', r)
  | 't' :: r => some ('\t', r)
  | 'u' :: a :: b :: c :: d :: r =>
    match getu4 a b c d with
    | none => none
    | some rr =>
      if 0xD800 ≤ rr ∧ rr < 0xE000 then
        match r with
        | '\\' :: 'u' :: e :: f :: g :: h :: r2 =>
          match getu4 e f g h with
          | some rr1 =>
            if rr < 0xDC00 ∧ 0xDC00 ≤ rr1 ∧ rr1 < 0xE000 then
              some (Char.ofNat ((rr - 0xD800) * 1024 + (rr1 - 0xDC00) + 0x10000), r2)
            else some (Char.ofNat 0xFFFD, r)
          | none => none
        | _ => some (Char.ofNat 0xFFFD, r)
      else some (Char.ofNat rr, r)
  | _ => none

/-- A character that stands for itself inside a JSON string: not the quote,
not the backslash, not a control character. -/
def plain (c : Char) : Bool := c != '"' && c != '\\' && decide (0x20 ≤ c.toNat)

/-- The function `unquote`, after the opening quote: the characters of the
string up to its closing quote, escapes resolved, and what follows. Control
characters are refused. The first argument bounds the number of characters
read. -/
def unquote : Nat → List Char → Option (List Char × List Char)
  | 0, _ => none
  | _ + 1, [] => none
  | n + 1, c :: rest =>
    if c = '"' then some ([], rest)
    else if c = '\\' then
      match unescape rest with
      | some (ch, r) => consChar ch (unquote n r)
      | none => none
    else if c.toNat < 0x20 then none
    else consChar c (unquote n rest)

/-- Whether the character is a decimal digit. -/
def isDigit (c : Char) : Bool := decide ('0' ≤ c) && decide (c ≤ '9')

/-- Drop leading digits. -/
def skipDigits : List Char → List Char
  | [] => []
  | c :: cs => if isDigit c then skipDigits cs else c :: cs

/-- The exponent of a number, if any. -/
def skipExponent (cs : List Char) : Option (List Char) :=
  match cs with
  | e :: r =>
    if e = 'e' ∨ e = 'E' then
      match r with
      | s :: d :: r2 =>
        if s = '+' ∨ s = '-' then (if isDigit d then some (skipDigits r2) else none)
        else if isDigit s then some (skipDigits (d :: r2))
        else none
      | [d] => if isDigit d then some [] else none
      | [] => none
    else some cs
  | [] => some []

/-- The fraction of a number, if any. -/
def skipFraction (cs : List Char) : Option (List Char) :=
  match cs with
  | '.' :: d :: r => if isDigit d then some (skipDigits r) else none
  | '.' :: [] => none
  | _ => some cs

/-- A number, after its optional minus sign: `0` or a digit string without
leading zero, then an optional fraction and an optional exponent. -/
def skipUnsigned (cs : List Char) : Option (List Char) :=
  match cs with
  | [] => none
  | c :: r =>
    if c = '0' then (skipFraction r).bind skipExponent
    else if isDigit c then (skipFraction (skipDigits r)).bind skipExponent
    else none

/-- A number: what follows it. -/
def skipNumber (cs : List Char) : Option (List Char) :=
  match cs with
  | '-' :: r => skipUnsigned r
  | _ => skipUnsigned cs

/-- An open array or object. -/
inductive Frame where
  | array
  | object
deriving DecidableEq, Repr

/-- What the scanner expects next. -/
inductive Expect where
  | value
  | valueOrEnd
  | key
  | keyOrEnd
  | afterValue
deriving DecidableEq, Repr

/-- The constant `maxNestingDepth` of the scanner. -/
def maxNestingDepth : Nat := 10000

/-- The scanner, as a skipper: read one complete JSON value (of any kind and
any nesting up to `maxNestingDepth`) and return what follows it, or `none` on
a syntax error or at a premature end. `depth` counts the containers already
open around the value, `stack` the ones opened inside it. -/
def skip (depth : Nat) : Nat → Expect → List Frame → List Char → Option (List Char)
  | 0, _, _, _ => none
  | n + 1, Expect.afterValue, stack, cs =>
    match stack with
    | [] => some cs
    | Frame.array :: st =>
      match skipSpace cs with
      | ',' :: r => skip depth n Expect.value (Frame.array :: st) r
      | ']' :: r => skip depth n Expect.afterValue st r
      | _ => none
    | Frame.object :: st =>
      match skipSpace cs with
      | ',' :: r => skip depth n Expect.key (Frame.object :: st) r
      | '}' :: r => skip depth n Expect.afterValue st r
      | _ => none
  | n + 1, Expect.valueOrEnd, stack, cs =>
    match skipSpace cs, stack with
    | ']' :: r, _ :: st => skip depth n Expect.afterValue st r
    | r, _ => skip depth n Expect.value stack r
  | n + 1, Expect.keyOrEnd, stack, cs =>
    match skipSpace cs, stack with
    | '}' :: r, _ :: st => skip depth n Expect.afterValue st r
    | r, _ => skip depth n Expect.key stack r
  | n + 1, Expect.key, stack, cs =>
    match skipSpace cs with
    | '"' :: r =>
      match unquote (r.length + 1) r with
      | some (_, r1) =>
        match skipSpace r1 with
        | ':' :: r2 => skip depth n Expect.value stack r2
        | _ => none
      | none => none
    | _ => none
  | n + 1, Expect.value, stack, cs =>
    match skipSpace cs with
    | '{' :: r =>
      if depth + stack.length + 1 ≤ maxNestingDepth then
        skip depth n Expect.keyOrEnd (Frame.object :: stack) r
      else none
    | '[' :: r =>
      if depth + stack.length + 1 ≤ maxNestingDepth then
        skip depth n Expect.valueOrEnd (Frame.array :: stack) r
      else none
    | '"' :: r =>
      match unquote (r.length + 1) r with
      | some (_, r1) => skip depth n Expect.afterValue stack r1
      | none => none
    | 't' :: 'r' :: 'u' :: 'e' :: r => skip depth n Expect.afterValue stack r
    | 'f' :: 'a' :: 'l' :: 's' :: 'e' :: r => skip depth n Expect.afterValue stack r
    | 'n' :: 'u' :: 'l' :: 'l' :: r => skip depth n Expect.afterValue stack r
    | c :: r =>
      if c = '-' ∨ isDigit c then
        match skipNumber (c :: r) with
        | some r1 => skip depth n Expect.afterValue stack r1
        | none => none
      else none
    | [] => none

/-- One complete JSON value at the head of the text: what follows it. -/
def skipValue (depth : Nat) (cs : List Char) : Option (List Char) :=
  skip depth (2 * cs.length + 2) Expect.value [] cs

/-- An element of an array, as far as a `[]string` cares. -/
inductive Elem where
  | str (s : String)
  | null
  | other
deriving DecidableEq, Repr

/-- The value of an object member, as far as the two structs care. -/
inductive Val where
  | str (s : String)
  | bool (b : Bool)
  | null
  | arr (es : List Elem)
  | other
deriving DecidableEq, Repr

/-- The elements of a non-empty array, from its first element on. -/
def parseElems : Nat → List Char → Option (List Elem × List Char)
  | 0, _ => none
  | n + 1, cs =>
    let elem : Option (Elem × List Char) :=
      match skipSpace cs with
      | '"' :: r =>
        match unquote (r.length + 1) r with
        | some (s, r1) => some (Elem.str (String.mk s), r1)
        | none => none
      | 'n' :: 'u' :: 'l' :: 'l' :: r => some (Elem.null, r)
      | r =>
        match skipValue 2 r with
        | some r1 => some (Elem.other, r1)
        | none => none
    match elem with
    | none => none
    | some (e, r1) =>
      match skipSpace r1 with
      | ',' :: r2 =>
        match parseElems n r2 with
        | some (es, r3) => some (e :: es, r3)
        | none => none
      | ']' :: r2 => some ([e], r2)
      | _ => none

/-- The value of a member of the top-level object. -/
def parseVal (cs : List Char) : Option (Val × List Char) :=
  match skipSpace cs with
  | '"' :: r =>
    match unquote (r.length + 1) r with
    | some (s, r1) => some (Val.str (String.mk s), r1)
    | none => none
  | 't' :: 'r' :: 'u' :: 'e' :: r => some (Val.bool true, r)
  | 'f' :: 'a' :: 'l' :: 's' :: 'e' :: r => some (Val.bool false, r)
  | 'n' :: 'u' :: 'l' :: 'l' :: r => some (Val.null, r)
  | '[' :: r =>
    match skipSpace r with
    | ']' :: r1 => some (Val.arr [], r1)
    | r1 =>
      match parseElems (r1.length + 1) r1 with
      | some (es, r2) => some (Val.arr es, r2)
      | none => none
  | r =>
    match skipValue 1 r with
    | some r1 => some (Val.other, r1)
    | none => none

/-- The members of a non-empty top-level object, from its first key on, up to
the closing brace; what follows the brace is not read. -/
def parseMembers : Nat → List Char → Option (List (String × Val))
  | 0, _ => none
  | n + 1, cs =>
    match skipSpace cs with
    | '"' :: r =>
      match unquote (r.length + 1) r with
      | some (k, r1) =>
        match skipSpace r1 with
        | ':' :: r2 =>
          match parseVal r2 with
          | some (v, r3) =>
            match skipSpace r3 with
            | ',' :: r4 =>
              match parseMembers n r4 with
              | some ms => some ((String.mk k, v) :: ms)
              | none => none
            | '}' :: _ => some [(String.mk k, v)]
            | _ => none
          | none => none
        | _ => none
      | none => none
    | _ => none

/-- The first JSON value of a body, as `Decode` into a struct sees it. -/
inductive Top where
  | null
  | object (members : List (String × Val))
deriving DecidableEq, Repr

/-- Read the first JSON value of the body for a struct: `none` when the body
holds no complete value (syntax error, premature end, empty body) or a value
that is neither an object nor `null` (a type error for a struct). Bytes after
the value are not examined. -/
def readTop (body : String) : Option Top :=
  match skipSpace body.data with
  | '{' :: r =>
    match skipSpace r with
    | '}' :: _ => some (Top.object [])
    | r1 =>
      match parseMembers (r1.length + 1) r1 with
      | some ms => some (Top.object ms)
      | none => none
  | 'n' :: 'u' :: 'l' :: 'l' :: _ => some Top.null
  | _ => none

/-- Case folding of a key character: ASCII upper case, the Kelvin sign and the
long s are the characters that fold to a lower-case ASCII letter. -/
def foldChar (c : Char) : Char :=
  if 'A' ≤ c ∧ c ≤ 'Z' then Char.ofNat (c.toNat + 32)
  else if c = Char.ofNat 0x212A then 'k'
  else if c = Char.ofNat 0x017F then 's'
  else c

/-- Whether a member name selects the struct field with this (lower-case
ASCII) tag: names match without regard to case. -/
def isField (tag : String) (key : String) : Bool := key.data.map foldChar = tag.data

/-- Decode the members into the struct with the single field `apikey`: a later
member overwrites an earlier one, `null` leaves the field as it is, other
names are skipped, a value of another type is an error. -/
def fillAPIKey : List (String × Val) → String → Option String
  | [], acc => some acc
  | (k, v) :: ms, acc =>
    if isField "apikey" k then
      match v with
      | Val.str s => fillAPIKey ms s
      | Val.null => fillAPIKey ms acc
      | _ => none
    else fillAPIKey ms acc

/-- The elements of a JSON array as a `[]string`: `null` gives the empty
string, an element of another type is an error. -/
def stringElems : List Elem → Option (List String)
  | [] => some []
  | Elem.str s :: es => (stringElems es).map (fun l => s :: l)
  | Elem.null :: es => (stringElems es).map (fun l => "" :: l)
  | Elem.other :: _ => none

/-- Decode the members into a `models.GenerateRequest`, in the same way. -/
def fillGenerateRequest : List (String × Val) → GenerateRequest → Option GenerateRequest
  | [], acc => some acc
  | (k, v) :: ms, acc =>
    if isField "model" k then
      match v with
      | Val.str s => fillGenerateRequest ms { acc with Model := s }
      | Val.null => fillGenerateRequest ms acc
      | _ => none
    else if isField "prompt" k then
      match v with
      | Val.str s => fillGenerateRequest ms { acc with Prompt := s }
      | Val.null => fillGenerateRequest ms acc
      | _ => none
    else if isField "stream" k then
      match v with
      | Val.bool b => fillGenerateRequest ms { acc with Stream := b }
      | Val.null => fillGenerateRequest ms acc
      | _ => none
    else if isField "images" k then
      match v with
      | Val.arr es =>
        match stringElems es with
        | some l => fillGenerateRequest ms { acc with Images := l }
        | none => none
      | Val.null => fillGenerateRequest ms { acc with Images := [] }
      | _ => none
    else if isField "raw" k then
      match v with
      | Val.bool b => fillGenerateRequest ms { acc with Raw := b }
      | Val.null => fillGenerateRequest ms acc
      | _ => none
    else if isField "apikey" k then
      match v with
      | Val.str s => fillGenerateRequest ms { acc with APIKey := s }
      | Val.null => fillGenerateRequest ms acc
      | _ => none
    else fillGenerateRequest ms acc

/-- The call `json.NewDecoder(r.Body).Decode(&req)` of the middleware. -/
def decodeAPIKey (body : String) : Option String :=
  match readTop body with
  | some (Top.object ms) => fillAPIKey ms ""
  | some Top.null => some ""
  | none => none

/-- The call `json.NewDecoder(r.Body).Decode(&req)` of `generateHandler`. -/
def decodeGenerateRequest (body : String) : Option GenerateRequest :=
  match readTop body with
  | some (Top.object ms) => fillGenerateRequest ms ⟨"", "", false, [], false, ""⟩
  | some Top.null => some ⟨"", "", false, [], false, ""⟩
  | none => none

/-- Whether the whole body is one JSON value, white space around it apart. -/
def wellFormed (body : String) : Bool :=
  match skipValue 0 body.data with
  | some rest => (skipSpace rest).isEmpty
  | none => false

end JSON

/-! ## The client of `net/http`

`http.Post` is `DefaultClient.Post`: it sends the request and follows
redirects, so one call may put several requests on the wire. A request is
identified by its method, its URL and its body; headers are not modelled. -/

/-- A request as it reaches the upstream server. -/
structure HTTPRequest where
  Method : String
  URL : String
  Body : Option JSONObject
deriving DecidableEq, Repr

/-- The `Location` header of a response, as the client reads it: absent (or
empty), present but refused by `(*url.URL).Parse`, or present and resolved
against the URL of the request it answers. -/
inductive Location where
  | absent
  | invalid
  | target (url : String)
deriving DecidableEq, Repr

/-- The answer of the upstream server to one request. -/
structure HTTPResponse where
  StatusCode : Nat
  Location : Location
  Body : String
deriving DecidableEq, Repr

/-- The upstream as the client sees it: its answer to each request the client
attempts, an error when the attempt yields no response (the request cannot
be made or sent, or no answer arrives). -/
abbrev Network := HTTPRequest → Except String HTTPResponse

/-- The function `redirectBehavior` of `net/http`: the method of the next
request, whether to redirect, and whether to send the body again. The body
of `http.Post` here is a `*bytes.Buffer`, for which `GetBody` is set. -/
def redirectBehavior (reqMethod : String) (statusCode : Nat) : String × Bool × Bool :=
  if statusCode = 301 ∨ statusCode = 302 ∨ statusCode = 303 then
    (if reqMethod ≠ "GET" ∧ reqMethod ≠ "HEAD" then "GET" else reqMethod, true, false)
  else if statusCode = 307 ∨ statusCode = 308 then (reqMethod, true, true)
  else ("", false, false)

/-- The loop of `(*Client).do` with the default redirect policy: attempt the
request; on a redirect status with a usable `Location`, attempt the next
request, unless ten requests were attempted already. The next request has the
method `redirectBehavior` gives and, if the body is to be sent again, the body
of the first request. Returns the requests attempted, in order, and the
outcome of the call. The first argument is the number of requests that may
still be attempted. -/
def clientDo (net : Network) (body : JSONObject) :
    Nat → HTTPRequest → List HTTPRequest × Except String UpstreamResponse
  | 0, _ => ([], .error "stopped after 10 redirects")
  | n + 1, req =>
    match net req with
    | .error e => ([req], .error e)
    | .ok resp =>
      if (redirectBehavior req.Method resp.StatusCode).2.1 then
        match resp.Location with
        | Location.absent => ([req], .ok ⟨resp.StatusCode, resp.Body⟩)
        | Location.invalid => ([req], .error "failed to parse Location header")
        | Location.target url =>
          (req :: (clientDo net body n
              ⟨(redirectBehavior req.Method resp.StatusCode).1, url,
                if (redirectBehavior req.Method resp.StatusCode).2.2 then some body
                else none⟩).1,
            (clientDo net body n
              ⟨(redirectBehavior req.Method resp.StatusCode).1, url,
                if (redirectBehavior req.Method resp.StatusCode).2.2 then some body
                else none⟩).2)
      else ([req], .ok ⟨resp.StatusCode, resp.Body⟩)

/-- The requests the call `http.Post(url, contentType, body)` attempts, in
order. -/
def httpRequests (net : Network) (url : String) (_contentType : String) (body : JSONObject) :
    List HTTPRequest :=
  (clientDo net body 10 ⟨"POST", url, some body⟩).1

/-- The call `http.Post(url, contentType, body)` against an upstream. -/
def httpPost (net : Network) (url : String) (_contentType : String) (body : JSONObject) :
    Except String UpstreamResponse :=
  (clientDo net body 10 ⟨"POST", url, some body⟩).2

/-- Whether the client takes the status code for a redirect. -/
def isRedirect (statusCode : Nat) : Bool := (redirectBehavior "POST" statusCode).2.1

/-! ## The test doubles of `api_test.go` -/

/-- The decoder of `encoding/json` as the `json` of a `World`. -/
def goJSON : JSONDecoder :=
  { decodeAPIKey := JSON.decodeAPIKey
    decodeGenerateRequest := JSON.decodeGenerateRequest }

/-- The `MockDB` of `api_test.go`: lookups in a table of records, writes that
always succeed. -/
def mockDB (apiKeys : List (String × APIKey)) : DBInterface :=
  { GetAPIKey := fun key =>
      match apiKeys.find? (fun kv => kv.1 = key) with
      | some kv => .ok (some kv.2)
      | none => .ok none
    UpdateAPIKeyUsage := fun _ _ => .ok ()
    LogAPIUsage := fun _ => .ok () }

/-- The `mockOllamaServer` of `api_test.go`: every request is answered with
status 200 and a fixed body. -/
def mockOllamaServer : Network :=
  fun _ => .ok ⟨200, Location.absent, "\x7b\"response\":\"mocked response\"\x7d\n"⟩

/-- A world with the decoder of `encoding/json`, the mock upstream behind
`http.Post`, and the given time. -/
def testWorld (now : Int) : World :=
  { json := goJSON, now := now, post := httpPost mockOllamaServer }

/-- The configuration of the tests. -/
def testConfig : Config := { Port := 8080, OllamaURL := "http://localhost:11434" }

/-- The record `valid-key` of `TestRateLimitMiddleware`: active, 2 of 2 tokens. -/
def validKey (lastUsed : Int) : APIKey :=
  { Key := "valid-key", CreatedAt := 0, LastUsed := lastUsed, Tokens := 2, RateLimit := 2,
    Active := true, Description := none }

/-- The record `inactive-key` of `TestRateLimitMiddleware`. -/
def inactiveKey (lastUsed : Int) : APIKey :=
  { Key := "inactive-key", CreatedAt := 0, LastUsed := lastUsed, Tokens := 2, RateLimit := 2,
    Active := false, Description := none }

/-- The store of `TestRateLimitMiddleware`. -/
def testDB (lastUsed : Int) : DBInterface :=
  mockDB [("valid-key", validKey lastUsed), ("inactive-key", inactiveKey lastUsed)]

/-- The body the tests post: `apikey`, `model` and `prompt`, as `json.Marshal`
writes the map. -/
def testBody (apiKey : String) : String :=
  "\x7b\"apikey\":\"" ++ apiKey ++ "\",\"model\":\"test-model\",\"prompt\":\"test prompt\"\x7d"

/-- The request `POST /generate` of the tests. -/
def testGenerate (apiKey : String) : Request :=
  { Method := "POST", Path := "/generate", Query := [], Body := testBody apiKey }

/-- The request `GET /health?apikey=...` of the tests. -/
def testHealth (apiKey : String) : Request :=
  { Method := "GET", Path := "/health", Query := [("apikey", apiKey)], Body := "" }

/-- The quota map of a fresh process. -/
def noRateLimits : RateLimits := fun _ => none

/-- A `POST /generate` for `valid-key` arriving at the given time. -/
def testArrival (now : Int) : Arrival :=
  { db := testDB 0, world := testWorld now, req := testGenerate "valid-key" }

/-- A quota map in which `valid-key` has spent both tokens of its window, the
last one at time 0. -/
def exhaustedRateLimits : RateLimits :=
  Function.update noRateLimits "valid-key" (some ⟨0, 0, 2⟩)

/-- The record of `valid-key` as the store holds it once both tokens are
spent: `UpdateAPIKeyUsage` has persisted `tokens = 0`. -/
def spentKey (lastUsed : Int) : APIKey :=
  { Key := "valid-key", CreatedAt := 0, LastUsed := lastUsed, Tokens := 0, RateLimit := 2,
    Active := true, Description := none }

/-- An upstream that answers 503 with the body `{"error":"down"}`. -/
def downServer : Network :=
  fun _ => .ok ⟨503, Location.absent, "\x7b\"error\":\"down\"\x7d"⟩

/-- A world whose upstream answers 503 with the body `{"error":"down"}`. -/
def downWorld (now : Int) : World :=
  { json := goJSON, now := now, post := httpPost downServer }

/-- An upstream that has moved: it answers the request for `/api/generate`
with 307 and a `Location`, and the request for that location with 200. -/
def movedServer : Network :=
  fun req =>
    if req.URL = "http://localhost:11434/api/generate" then
      .ok ⟨307, Location.target "http://localhost:11434/v2/generate", "moved"⟩
    else .ok ⟨200, Location.absent, "\x7b\"response\":\"ok\"\x7d"⟩

/-- A world whose upstream has moved. -/
def movedWorld (now : Int) : World :=
  { json := goJSON, now := now, post := httpPost movedServer }

/-! ## The router and the bounds of the data model -/

/-- The router `SetupRoutes` configures: `GET /health` and `POST /generate`
are served through the middleware; a request that matches neither route is
answered by the router itself (`unmatched`: 404 or 405), without the
middleware. -/
def SetupRoutes (unmatched : Request → Response) (db : DBInterface) (cfg : Config) : Handler :=
  fun w r rateLimits =>
    if r.Path = "/health" ∧ r.Method = "GET" then healthRoute db w r rateLimits
    else if r.Path = "/generate" ∧ r.Method = "POST" then generateRoute db cfg w r rateLimits
    else ⟨unmatched r, rateLimits, []⟩

/-- Every record the store returns has the credential's `rateLimit`, which is
positive, and `0 ≤ tokens ≤ rateLimit`. -/
def recordsWithin (cap : String → Int) (db : DBInterface) : Prop :=
  ∀ key apiKey, db.GetAPIKey key = .ok (some apiKey) →
    apiKey.RateLimit = cap key ∧ 0 < apiKey.RateLimit ∧
    0 ≤ apiKey.Tokens ∧ apiKey.Tokens ≤ apiKey.RateLimit

/-- Every entry of the quota map has the credential's `rateLimit` as capacity,
and `0 ≤ tokensRemaining ≤ capacity`. -/
def quotaWithin (cap : String → Int) (s : RateLimits) : Prop :=
  ∀ key info, s key = some info →
    info.RateLimit = cap key ∧ 0 < info.RateLimit ∧
    0 ≤ info.Tokens ∧ info.Tokens ≤ info.RateLimit

/-- The capacity of the test credentials. -/
def testCap : String → Int := fun _ => 2

/-- The answer of the router of the tests to a request no route matches. -/
def notFound : Request → Response := fun _ => httpError "404 page not found" 404

/-! ## Concurrent requests for one credential

Each request is served on its own goroutine. The goroutines of
`POST /generate` requests for one key are modelled one statement at a time; a
schedule picks the goroutine that takes the next step, so the statements of
different goroutines interleave in any order. `rateMutex.Lock()` can only be
taken when the mutex is free. The goroutines share the package variables
`rateLimits` and `rateMutex` and the row of the key in the table `apiKeys`,
which `GetAPIKey` reads and `UpdateAPIKeyUsage` writes. -/

/-- What a goroutine does that can be seen from outside it: its calls on the
store, its call of `next.ServeHTTP`, and the reply `http.Error` writes. -/
inductive Action where
  | GetAPIKey (key : String)
  | UpdateAPIKeyUsage (key : String) (tokens : Int)
  | ServeNext
  | Reply (resp : Response)
deriving DecidableEq, Repr

/-- Where a goroutine stands in `rateLimitMiddleware`: at the lookup of line
66, at one of the replies of lines 73 and 78, at one of the statements of lines
81-109, inside the call of line 102, at the call of line 106, or finished.
Between lines 66 and 90 it holds the record `apiKey` of its lookup; from line
98 on it remembers the balance it saw at the check of line 97, and from line
102 on the value it read for `UpdateAPIKeyUsage`. -/
inductive PC where
  | atAuth
  | atDeny (resp : Response)
  | atLock (apiKey : APIKey)
  | atLookup (apiKey : APIKey)
  | atReset
  | atCheck
  | atCharge (seen : Int)
  | atUnlockAllowed (seen : Int)
  | atUnlockRejected
  | atPersist (seen : Int)
  | atWrite (seen : Int) (tokens : Int)
  | atNext (seen : Int) (tokens : Int)
  | atError
  | denied (resp : Response)
  | allowed (seen : Int) (tokens : Int)
  | rejected
deriving DecidableEq, Repr

/-- What the outside world hands a goroutine: the value its call of
`time.Now()` (line 92) returns, and the outcome of its call of
`UpdateAPIKeyUsage`: the `time.Now()` the statement stamps, and whether the
statement fails (the error is only logged). -/
structure Entrant where
  now : Int
  writeTime : Int
  writeFails : Bool
deriving DecidableEq, Repr

/-- The shared memory and the goroutines: the package variables `rateLimits`
and `rateMutex` (free, or locked by the goroutine with this index), the row of
the key in the table `apiKeys` (`none`: no such row), what every goroutine has
done so far, in order, and the position of every goroutine. -/
structure Conc where
  rateLimits : RateLimits
  holder : Option Nat
  store : Option APIKey
  log : List (Nat × Action)
  pcs : List PC

/-- What goroutine `i` has done so far, in order. -/
def Conc.actionsOf (c : Conc) (i : Nat) : List Action :=
  (c.log.filter (fun a => a.1 = i)).map Prod.snd

/-- The reply of line 109. -/
def tooManyRequests : Response :=
  httpError "Rate limit exceeded. Try again later." StatusTooManyRequests

/-- Between `rateMutex.Lock()` and `rateMutex.Unlock()`. -/
def PC.inCS : PC → Bool
  | PC.atLookup _ => true
  | PC.atReset => true
  | PC.atCheck => true
  | PC.atCharge _ => true
  | PC.atUnlockAllowed _ => true
  | PC.atUnlockRejected => true
  | _ => false

/-- Past the decrement of line 98. -/
def PC.charged : PC → Bool
  | PC.atUnlockAllowed _ => true
  | PC.atPersist _ => true
  | PC.atWrite _ _ => true
  | PC.atNext _ _ => true
  | PC.allowed _ _ => true
  | _ => false

/-- Past a failed check of line 97. -/
def PC.turnedAway : PC → Bool
  | PC.atUnlockRejected => true
  | PC.atError => true
  | PC.rejected => true
  | _ => false

/-- Before the entry of the key is known to exist: up to line 82. -/
def PC.early : PC → Bool
  | PC.atAuth => true
  | PC.atLock _ => true
  | PC.atLookup _ => true
  | _ => false

/-- On the way to a 403, or answered with one. -/
def PC.denying : PC → Bool
  | PC.atDeny _ => true
  | PC.denied _ => true
  | _ => false

/-- Past line 106: the request went on to `next`. -/
def PC.isAllowed : PC → Bool
  | PC.allowed _ _ => true
  | _ => false

/-- Past line 109: the request is answered 429. -/
def PC.isRejected : PC → Bool
  | PC.rejected => true
  | _ => false

/-- The goroutine has left the middleware. -/
def PC.done : PC → Bool
  | PC.allowed _ _ => true
  | PC.rejected => true
  | PC.denied _ => true
  | _ => false

/-- The balance the goroutine saw at line 97 before decrementing it. -/
def PC.seen? : PC → Option Int
  | PC.atCharge v => some v
  | PC.atUnlockAllowed v => some v
  | PC.atPersist v => some v
  | PC.atWrite v _ => some v
  | PC.atNext v _ => some v
  | PC.allowed v _ => some v
  | _ => none

/-- The value the goroutine read at line 102 for `UpdateAPIKeyUsage`. -/
def PC.tokens? : PC → Option Int
  | PC.atWrite _ t => some t
  | PC.atNext _ t => some t
  | PC.allowed _ t => some t
  | _ => none

/-- The record of the lookup, while the goroutine may still use it. -/
def PC.record? : PC → Option APIKey
  | PC.atLock a => some a
  | PC.atLookup a => some a
  | _ => none

/-- What a goroutine at this position has done so far. -/
def PC.actions (key : String) : PC → List Action
  | PC.atAuth => []
  | PC.atNext _ t => [Action.GetAPIKey key, Action.UpdateAPIKeyUsage key t]
  | PC.allowed _ t =>
    [Action.GetAPIKey key, Action.UpdateAPIKeyUsage key t, Action.ServeNext]
  | PC.rejected => [Action.GetAPIKey key, Action.Reply tooManyRequests]
  | PC.denied resp => [Action.GetAPIKey key, Action.Reply resp]
  | _ => [Action.GetAPIKey key]

/-- The statements a goroutine has still to execute, at most. -/
def PC.stepsLeft : PC → Nat
  | PC.atAuth => 10
  | PC.atLock _ => 9
  | PC.atLookup _ => 8
  | PC.atReset => 7
  | PC.atCheck => 6
  | PC.atCharge _ => 5
  | PC.atUnlockAllowed _ => 4
  | PC.atPersist _ => 3
  | PC.atWrite _ _ => 2
  | PC.atNext _ _ => 1
  | PC.atUnlockRejected => 2
  | PC.atError => 1
  | PC.atDeny _ => 1
  | PC.denied _ => 0
  | PC.allowed _ _ => 0
  | PC.rejected => 0

/-- The statements all goroutines together have still to execute, at most. -/
def Conc.stepsLeft (c : Conc) : Nat := (c.pcs.map PC.stepsLeft).sum

/-- The statement `UPDATE apiKeys SET tokens = ?, last_used = ? WHERE key = ?`
of `UpdateAPIKeyUsage` on the row of the key. -/
def updateUsage (store : Option APIKey) (tokens : Int) (now : Int) : Option APIKey :=
  store.map (fun a => { a with Tokens := tokens, LastUsed := now })

/-- One statement of goroutine `i`, or `none` when it cannot move: it is
blocked in `Lock()`, or it has finished, or there is no such goroutine.

* line 66: `db.GetAPIKey` reads the row of the key as it is now (the body
  has been decoded to the key; the read itself does not fail);
* lines 72-79: no row, or an inactive one, is answered 403;
* line 81: `rateMutex.Lock()`, only while the mutex is free;
* lines 82-90: look the entry up, create it from the record if absent;
* lines 92-95: read the clock, reset the balance after a minute;
* line 97: test `info.Tokens > 0`;
* lines 98-99: `info.Tokens--`, `info.LastUsed = currentTime`;
* lines 100 and 108: `rateMutex.Unlock()`;
* line 102: read `info.Tokens`, now outside the lock, as the argument of
  `UpdateAPIKeyUsage`; then the statement of `UpdateAPIKeyUsage` writes the
  row, unless it fails;
* line 106: `next.ServeHTTP`;
* line 109: `http.Error` with 429.

`info` points to the entry of the key, so a read of `info` is a read of that
entry and a write to `info` is a write to it. -/
def stepGoroutine (key : String) (reqs : List Entrant) (c : Conc) (i : Nat) : Option Conc :=
  match reqs[i]?, c.pcs[i]? with
  | some r, some pc =>
    match pc with
    | PC.atAuth =>
      match c.store with
      | none =>
        some { c with
          log := c.log ++ [(i, Action.GetAPIKey key)]
          pcs := c.pcs.set i (PC.atDeny (httpError "Invalid API key" StatusForbidden)) }
      | some apiKey =>
        if !apiKey.Active then
          some { c with
            log := c.log ++ [(i, Action.GetAPIKey key)]
            pcs := c.pcs.set i
              (PC.atDeny (httpError "API key is deactivated" StatusForbidden)) }
        else
          some { c with
            log := c.log ++ [(i, Action.GetAPIKey key)]
            pcs := c.pcs.set i (PC.atLock apiKey) }
    | PC.atDeny resp =>
      some { c with
        log := c.log ++ [(i, Action.Reply resp)]
        pcs := c.pcs.set i (PC.denied resp) }
    | PC.atLock apiKey =>
      match c.holder with
      | none => some { c with holder := some i, pcs := c.pcs.set i (PC.atLookup apiKey) }
      | some _ => none
    | PC.atLookup apiKey =>
      match c.rateLimits key with
      | some _ => some { c with pcs := c.pcs.set i PC.atReset }
      | none =>
        some { c with
          rateLimits := Function.update c.rateLimits key (some
            { Tokens := apiKey.Tokens, LastUsed := apiKey.LastUsed,
              RateLimit := apiKey.RateLimit })
          pcs := c.pcs.set i PC.atReset }
    | PC.atReset =>
      match c.rateLimits key with
      | none => none
      | some info =>
        some { c with
          rateLimits := Function.update c.rateLimits key (some
            (if Sub r.now info.LastUsed ≥ Minute then { info with Tokens := info.RateLimit }
             else info))
          pcs := c.pcs.set i PC.atCheck }
    | PC.atCheck =>
      match c.rateLimits key with
      | none => none
      | some info =>
        if info.Tokens > 0 then some { c with pcs := c.pcs.set i (PC.atCharge info.Tokens) }
        else some { c with pcs := c.pcs.set i PC.atUnlockRejected }
    | PC.atCharge seen =>
      match c.rateLimits key with
      | none => none
      | some info =>
        some { c with
          rateLimits := Function.update c.rateLimits key (some
            { info with Tokens := info.Tokens - 1, LastUsed := r.now })
          pcs := c.pcs.set i (PC.atUnlockAllowed seen) }
    | PC.atUnlockAllowed seen =>
      some { c with holder := none, pcs := c.pcs.set i (PC.atPersist seen) }
    | PC.atUnlockRejected =>
      some { c with holder := none, pcs := c.pcs.set i PC.atError }
    | PC.atPersist seen =>
      match c.rateLimits key with
      | none => none
      | some info => some { c with pcs := c.pcs.set i (PC.atWrite seen info.Tokens) }
    | PC.atWrite seen tokens =>
      some { c with
        store := if r.writeFails then c.store else updateUsage c.store tokens r.writeTime
        log := c.log ++ [(i, Action.UpdateAPIKeyUsage key tokens)]
        pcs := c.pcs.set i (PC.atNext seen tokens) }
    | PC.atNext seen tokens =>
      some { c with
        log := c.log ++ [(i, Action.ServeNext)]
        pcs := c.pcs.set i (PC.allowed seen tokens) }
    | PC.atError =>
      some { c with
        log := c.log ++ [(i, Action.Reply tooManyRequests)]
        pcs := c.pcs.set i PC.rejected }
    | PC.denied _ => none
    | PC.allowed _ _ => none
    | PC.rejected => none
  | _, _ => none

/-- Run a schedule: the goroutines named take one step each, in this order;
`none` when one of them cannot move at its turn. -/
def run (key : String) (reqs : List Entrant) : Conc → List Nat → Option Conc
  | c, [] => some c
  | c, i :: rest =>
    match stepGoroutine key reqs c i with
    | some c1 => run key reqs c1 rest
    | none => none

/-- All goroutines at the start of the middleware, the mutex free, nothing
done yet. -/
def startAll (s : RateLimits) (store : Option APIKey) (reqs : List Entrant) : Conc :=
  { rateLimits := s, holder := none, store := store, log := [],
    pcs := reqs.map (fun _ => PC.atAuth) }

/-- What holds of the shared memory and the goroutines at every moment, for
`reqs` simultaneous requests for `key` with a full balance `N`, started on
the quota map `s`. -/
structure Inv (key : String) (N : Nat) (s : RateLimits) (reqs : List Entrant) (c : Conc) :
    Prop where
  len : c.pcs.length = reqs.length
  held : ∀ j, c.holder = some j → ∃ pc, c.pcs[j]? = some pc ∧ pc.inCS = true
  excl : ∀ j pc, c.pcs[j]? = some pc → pc.inCS = true → c.holder = some j
  frame : ∀ key2, key2 ≠ key → c.rateLimits key2 = s key2
  active : ∃ a, c.store = some a ∧ a.Active = true
  noDeny : ∀ pc ∈ c.pcs, pc.denying = false
  fresh : c.rateLimits key = none →
    (∀ pc ∈ c.pcs, pc.early = true) ∧
    (∀ a, c.store = some a → a.Tokens = N ∧ a.RateLimit = N) ∧
    ∀ pc ∈ c.pcs, ∀ a, pc.record? = some a → a.Tokens = N ∧ a.RateLimit = N
  entry : ∀ e, c.rateLimits key = some e →
    e.RateLimit = N ∧ 0 ≤ e.Tokens ∧ e.Tokens + c.pcs.countP PC.charged = N ∧
    (0 < c.pcs.countP PC.turnedAway → e.Tokens = 0) ∧
    (c.pcs.countP PC.charged = 0 ∨ ∃ r ∈ reqs, e.LastUsed = r.now)
  seenCharge : ∀ e v, c.rateLimits key = some e → PC.atCharge v ∈ c.pcs →
    v = e.Tokens ∧ 0 < v
  seenAbove : ∀ e pc v, c.rateLimits key = some e → pc ∈ c.pcs → pc.charged = true →
    pc.seen? = some v → e.Tokens < v
  seenLe : ∀ pc ∈ c.pcs, ∀ v, pc.seen? = some v → v ≤ N
  covered : ∀ e v, c.rateLimits key = some e → e.Tokens < v → v ≤ N →
    ∃ pc ∈ c.pcs, pc.charged = true ∧ pc.seen? = some v
  tokens : ∀ pc ∈ c.pcs, ∀ t, pc.tokens? = some t → 0 ≤ t ∧ t < N
  distinct : ∀ (i j : Nat) (p q : PC) (v : Int), i ≠ j → c.pcs[i]? = some p →
    c.pcs[j]? = some q → p.seen? = some v → q.seen? = some v → False

/-- Every goroutine has done what its position says, and nothing else was
done. -/
structure LogInv (key : String) (c : Conc) : Prop where
  mine : ∀ i pc, c.pcs[i]? = some pc → c.actionsOf i = pc.actions key
  owned : ∀ a ∈ c.log, a.1 < c.pcs.length

/-- No goroutine can move. -/
def Conc.halted (key : String) (reqs : List Entrant) (c : Conc) : Prop :=
  ∀ i, stepGoroutine key reqs c i = none

/-- The middleware's own calls in the trace of a request, as actions of its
goroutine. -/
def Event.toAction : Event → Option Action
  | Event.GetAPIKey key => some (Action.GetAPIKey key)
  | Event.UpdateAPIKeyUsage key tokens => some (Action.UpdateAPIKeyUsage key tokens)
  | Event.ServeNext _ => some Action.ServeNext
  | _ => none

/-- Three simultaneous requests, a nanosecond apart. -/
def testEntrants : List Entrant :=
  [⟨1000000000, 1000000010, false⟩, ⟨1000000001, 1000000011, false⟩,
   ⟨1000000002, 1000000012, true⟩]

/-! ## Basic facts -/

/-- Saturation does not change the comparison with one minute. -/
theorem Sub_ge_Minute (t u : Int) : Sub t u ≥ Minute ↔ t - u ≥ Minute := by
  simp only [Sub, Minute, maxDuration, minDuration]
  split_ifs <;> omega

/-- The reset leaves `LastUsed` and `RateLimit` alone. -/
theorem refill_LastUsed (now : Int) (info : RateLimitInfo) :
    (refill now info).LastUsed = info.LastUsed ∧ (refill now info).RateLimit = info.RateLimit := by
  unfold refill
  split_ifs <;> simp

/-- Inside the window the reset does nothing. -/
theorem refill_of_lt (now : Int) (info : RateLimitInfo) (h : now - info.LastUsed < Minute) :
    refill now info = info := by
  unfold refill
  rw [if_neg]
  rw [Sub_ge_Minute]
  omega

/-- Outside the window the reset restores the capacity. -/
theorem refill_of_ge (now : Int) (info : RateLimitInfo) (h : now - info.LastUsed ≥ Minute) :
    refill now info = { info with Tokens := info.RateLimit } := by
  unfold refill
  rw [if_pos]
  rw [Sub_ge_Minute]
  exact h

/-- The middleware on a request that passes authentication: the quota check
of lines 81-110, in terms of `entryFor` and `refill`. -/
theorem rateLimitMiddleware_authenticated (next : Handler) (db : DBInterface) (w : World)
    (r : Request) (s : RateLimits) (key : String) (apiKey : APIKey)
    (hp : r.Path ≠ "/health") (hd : w.json.decodeAPIKey r.Body = some key) (hk : key ≠ "")
    (hl : db.GetAPIKey key = .ok (some apiKey)) (ha : apiKey.Active = true) :
    rateLimitMiddleware next db w r s =
      if (refill w.now (entryFor s key apiKey)).Tokens > 0 then
        { resp := (next w (resetBody r key) (Function.update s key (some
            { refill w.now (entryFor s key apiKey) with
              Tokens := (refill w.now (entryFor s key apiKey)).Tokens - 1,
              LastUsed := w.now }))).resp
          rateLimits := (next w (resetBody r key) (Function.update s key (some
            { refill w.now (entryFor s key apiKey) with
              Tokens := (refill w.now (entryFor s key apiKey)).Tokens - 1,
              LastUsed := w.now }))).rateLimits
          trace := Event.GetAPIKey key ::
            Event.UpdateAPIKeyUsage key ((refill w.now (entryFor s key apiKey)).Tokens - 1) ::
            Event.ServeNext (resetBody r key) ::
            (next w (resetBody r key) (Function.update s key (some
              { refill w.now (entryFor s key apiKey) with
                Tokens := (refill w.now (entryFor s key apiKey)).Tokens - 1,
                LastUsed := w.now }))).trace }
      else
        { resp := httpError "Rate limit exceeded. Try again later." StatusTooManyRequests
          rateLimits := Function.update s key (some (refill w.now (entryFor s key apiKey)))
          trace := [Event.GetAPIKey key] } := by
  simp only [rateLimitMiddleware, hp, hd, hk, hl, ha, if_false, Bool.not_true, Bool.false_eq_true]
  rfl

/-- The proxy never touches the quota map. -/
theorem generateHandler_rateLimits (db : DBInterface) (cfg : Config) (w : World) (r : Request)
    (s : RateLimits) : (generateHandler db cfg w r s).rateLimits = s := by
  simp only [generateHandler, OllamaReq.marshal]
  cases w.json.decodeGenerateRequest r.Body with
  | none => rfl
  | some req =>
    dsimp only
    cases w.post _ _ _ <;> rfl

/-- The proxy calls no further handler. -/
theorem generateHandler_not_serveNext (db : DBInterface) (cfg : Config) (w : World) (r : Request)
    (s : RateLimits) : (generateHandler db cfg w r s).trace.any Event.isServeNext = false := by
  simp only [generateHandler, OllamaReq.marshal]
  cases w.json.decodeGenerateRequest r.Body with
  | none => rfl
  | some req =>
    dsimp only
    cases w.post _ _ _ <;> rfl

/-- The quota check lets the request through when a token is left after the
reset: the entry is charged and stamped, and the new count is persisted. -/
theorem generateRoute_allow (db : DBInterface) (cfg : Config) (w : World)
    (r : Request) (s : RateLimits) (key : String) (apiKey : APIKey)
    (hp : r.Path ≠ "/health") (hd : w.json.decodeAPIKey r.Body = some key) (hk : key ≠ "")
    (hl : db.GetAPIKey key = .ok (some apiKey)) (ha : apiKey.Active = true)
    (ht : (refill w.now (entryFor s key apiKey)).Tokens > 0) :
    (generateRoute db cfg w r s).allowed = true ∧
    (generateRoute db cfg w r s).rateLimits = Function.update s key (some
      { refill w.now (entryFor s key apiKey) with
        Tokens := (refill w.now (entryFor s key apiKey)).Tokens - 1, LastUsed := w.now }) ∧
    (generateRoute db cfg w r s).trace.filter Event.isUpdateAPIKeyUsage =
      [Event.UpdateAPIKeyUsage key ((refill w.now (entryFor s key apiKey)).Tokens - 1)] ∧
    (generateRoute db cfg w r s).resp =
      (generateHandler db cfg w (resetBody r key) s).resp := by
  unfold generateRoute
  rw [rateLimitMiddleware_authenticated _ db w r s key apiKey hp hd hk hl ha, if_pos ht]
  refine ⟨?_, ?_, ?_, ?_⟩
  · simp [Result.allowed, Event.isServeNext]
  · simp only [generateHandler_rateLimits]
  · simp only [generateHandler, OllamaReq.marshal]
    cases w.json.decodeGenerateRequest (resetBody r key).Body with
    | none => simp [List.filter, Event.isUpdateAPIKeyUsage]
    | some req =>
      dsimp only
      cases w.post _ _ _ <;> simp [List.filter, Event.isUpdateAPIKeyUsage]
  · simp only [generateHandler, OllamaReq.marshal]
    cases w.json.decodeGenerateRequest (resetBody r key).Body with
    | none => rfl
    | some req =>
      dsimp only
      cases w.post _ _ _ <;> rfl

/-- The quota check turns the request away when no token is left after the
reset: 429, `next` is not called, nothing is persisted. -/
theorem rateLimitMiddleware_reject (next : Handler) (db : DBInterface) (w : World)
    (r : Request) (s : RateLimits) (key : String) (apiKey : APIKey)
    (hp : r.Path ≠ "/health") (hd : w.json.decodeAPIKey r.Body = some key) (hk : key ≠ "")
    (hl : db.GetAPIKey key = .ok (some apiKey)) (ha : apiKey.Active = true)
    (ht : ¬ (refill w.now (entryFor s key apiKey)).Tokens > 0) :
    rateLimitMiddleware next db w r s =
      { resp := httpError "Rate limit exceeded. Try again later." StatusTooManyRequests
        rateLimits := Function.update s key (some (refill w.now (entryFor s key apiKey)))
        trace := [Event.GetAPIKey key] } := by
  rw [rateLimitMiddleware_authenticated next db w r s key apiKey hp hd hk hl ha, if_neg ht]

/-- An entry already in the map is the one the quota check starts from. -/
theorem entryFor_of_some (s : RateLimits) (key : String) (apiKey : APIKey) (info : RateLimitInfo)
    (h : s key = some info) : entryFor s key apiKey = info := by
  simp [entryFor, h]

/-- Serving yields one result per arrival. -/
theorem serveAll_length (h : DBInterface → Handler) (as : List Arrival) :
    ∀ s : RateLimits, (serveAll h s as).length = as.length := by
  induction as with
  | nil => intro s; rfl
  | cons a rest ih => intro s; simp [serveAll, ih]

/-- Requests for one active key, each inside the window of the one before,
starting from an entry with `T` tokens: the first `T` are let through, each
taking one token, and the next is turned away with 429. -/
theorem serveAll_from_entry (cfg : Config) (key : String) (hk : key ≠ "") (C : Int) :
    ∀ (as : List Arrival) (s : RateLimits) (T : Nat) (L : Int),
      s key = some ⟨T, L, C⟩ →
      as.length ≤ T + 1 →
      (∀ a ∈ as, a.forActiveKey key) →
      List.Chain (fun x y => y - x < Minute) L (as.map (fun a => a.world.now)) →
      ∀ (i : Nat) (a : Arrival) (res : Result), as[i]? = some a →
        (serveAll (fun db => generateRoute db cfg) s as)[i]? = some res →
        (i < T → res.allowed = true ∧
          res.rateLimits key = some ⟨(T : Int) - ((i : Int) + 1), a.world.now, C⟩) ∧
        (i = T → res.allowed = false ∧
          res.resp = httpError "Rate limit exceeded. Try again later." StatusTooManyRequests ∧
          ∃ L1, res.rateLimits key = some ⟨0, L1, C⟩) := by
  intro as
  induction as with
  | nil => intro s T L _ _ _ _ i a res hi; simp at hi
  | cons a0 rest ih =>
    intro s T L hs hlen hall hchain i a res hi hres
    obtain ⟨_, hpath, hdec, apiKey, hlook, hact⟩ := hall a0 (List.mem_cons_self _ _)
    have hp : a0.req.Path ≠ "/health" := by rw [hpath]; decide
    simp only [List.map_cons, List.chain_cons] at hchain
    obtain ⟨hgap, hchain⟩ := hchain
    have hentry : refill a0.world.now (entryFor s key apiKey) = ⟨T, L, C⟩ := by
      rw [entryFor_of_some s key apiKey _ hs]
      exact refill_of_lt _ _ hgap
    cases T with
    | zero =>
      have hrest : rest = [] := by
        cases rest with
        | nil => rfl
        | cons b bs => simp at hlen
      subst hrest
      have hlt : ¬ (refill a0.world.now (entryFor s key apiKey)).Tokens > 0 := by
        rw [hentry]; simp
      cases i with
      | succ j => simp at hi
      | zero =>
        simp only [serveAll, List.getElem?_cons_zero, Option.some.injEq] at hres
        subst hres
        unfold generateRoute
        rw [rateLimitMiddleware_reject _ a0.db a0.world a0.req s key apiKey hp hdec hk hlook hact
          hlt, hentry]
        refine ⟨fun h => absurd h (by simp), fun _ => ⟨rfl, rfl, L, ?_⟩⟩
        simp
    | succ T1 =>
      have hgt : (refill a0.world.now (entryFor s key apiKey)).Tokens > 0 := by
        rw [hentry]; simp only []; omega
      obtain ⟨hallow, hstate, _, _⟩ :=
        generateRoute_allow a0.db cfg a0.world a0.req s key apiKey hp hdec hk hlook hact hgt
      rw [hentry] at hstate
      cases i with
      | zero =>
        simp only [serveAll, List.getElem?_cons_zero, Option.some.injEq] at hres hi
        subst hres
        subst hi
        refine ⟨fun _ => ⟨hallow, ?_⟩, fun h => by omega⟩
        rw [hstate]
        simp
      | succ j =>
        simp only [serveAll, List.getElem?_cons_succ] at hres hi
        have hs1 : (generateRoute a0.db cfg a0.world a0.req s).rateLimits key =
            some ⟨(T1 : Nat), a0.world.now, C⟩ := by
          rw [hstate]
          simp
        have hlen1 : rest.length ≤ T1 + 1 := by
          simp only [List.length_cons] at hlen
          omega
        have hall1 : ∀ b ∈ rest, b.forActiveKey key :=
          fun b hb => hall b (List.mem_cons_of_mem _ hb)
        obtain ⟨h1, h2⟩ := ih _ T1 a0.world.now hs1 hlen1 hall1 hchain j a res hi hres
        refine ⟨fun hlt => ?_, fun heq => ?_⟩
        · obtain ⟨ha1, ha2⟩ := h1 (by omega)
          refine ⟨ha1, ?_⟩
          rw [ha2]
          congr 2
          push_cast
          ring
        · exact h2 (by omega)

/-! ## C1: exactly `rateLimit` requests pass inside one window -/

/-- C1: for every N > 0 and every credential whose record is active with
tokens = rateLimit = N and which has no in-memory entry yet, of N+1
`POST /generate` requests for it, each arriving less than 60 seconds after the
one before, the quota check lets exactly the first N through, each taking one
token, and turns the (N+1)th away with status 429. -/
theorem quota_allows_exactly_rateLimit (cfg : Config) (N : Nat) (hN : 0 < N) (key : String)
    (hk : key ≠ "") (s : RateLimits) (hs : s key = none) (as : List Arrival)
    (hlen : as.length = N + 1)
    (hall : ∀ a ∈ as, a.forActiveKey key)
    (hfull : ∀ a, as.head? = some a → ∃ apiKey, a.db.GetAPIKey key = .ok (some apiKey) ∧
      apiKey.Tokens = N ∧ apiKey.RateLimit = N)
    (hgap : List.Chain' (fun x y => y - x < Minute) (as.map (fun a => a.world.now))) :
    (serveAll (fun db => generateRoute db cfg) s as).length = N + 1 ∧
    ∀ (i : Nat) (a : Arrival) (res : Result), as[i]? = some a →
      (serveAll (fun db => generateRoute db cfg) s as)[i]? = some res →
      (i < N → res.allowed = true ∧
        res.rateLimits key = some ⟨(N : Int) - ((i : Int) + 1), a.world.now, N⟩) ∧
      (i = N → res.allowed = false ∧
        res.resp = httpError "Rate limit exceeded. Try again later." StatusTooManyRequests ∧
        ∃ L, res.rateLimits key = some ⟨0, L, N⟩) := by
  refine ⟨by rw [serveAll_length, hlen], ?_⟩
  cases as with
  | nil => simp at hlen
  | cons a0 rest =>
    intro i a res hi hres
    obtain ⟨_, hpath, hdec, apiKey, hlook, hact⟩ := hall a0 (List.mem_cons_self _ _)
    obtain ⟨apiKey1, hlook1, htok, hcap⟩ := hfull a0 rfl
    rw [hlook] at hlook1
    simp only [Except.ok.injEq, Option.some.injEq] at hlook1
    subst hlook1
    have hp : a0.req.Path ≠ "/health" := by rw [hpath]; decide
    have hentry : refill a0.world.now (entryFor s key apiKey) = ⟨N, apiKey.LastUsed, N⟩ := by
      simp only [entryFor, hs, refill, htok, hcap]
      split_ifs <;> rfl
    have hgt : (refill a0.world.now (entryFor s key apiKey)).Tokens > 0 := by
      rw [hentry]; simp only []; omega
    obtain ⟨hallow, hstate, _, _⟩ :=
      generateRoute_allow a0.db cfg a0.world a0.req s key apiKey hp hdec hk hlook hact hgt
    rw [hentry] at hstate
    cases i with
    | zero =>
      simp only [serveAll, List.getElem?_cons_zero, Option.some.injEq] at hres hi
      subst hres
      subst hi
      refine ⟨fun _ => ⟨hallow, ?_⟩, fun h => by omega⟩
      rw [hstate]
      simp
    | succ j =>
      simp only [serveAll, List.getElem?_cons_succ] at hres hi
      obtain ⟨M, rfl⟩ : ∃ M, N = M + 1 := ⟨N - 1, by omega⟩
      have hs1 : (generateRoute a0.db cfg a0.world a0.req s).rateLimits key =
          some ⟨(M : Nat), a0.world.now, ((M + 1 : Nat) : Int)⟩ := by
        rw [hstate]
        simp
      have hlen1 : rest.length ≤ M + 1 := by
        simp only [List.length_cons] at hlen
        omega
      have hall1 : ∀ b ∈ rest, b.forActiveKey key :=
        fun b hb => hall b (List.mem_cons_of_mem _ hb)
      have hchain : List.Chain (fun x y => y - x < Minute) a0.world.now
          (rest.map (fun a => a.world.now)) := by
        simpa [List.Chain'] using hgap
      obtain ⟨h1, h2⟩ := serveAll_from_entry cfg key hk ((M + 1 : Nat) : Int) rest _ M
        a0.world.now hs1 hlen1 hall1 hchain j a res hi hres
      refine ⟨fun hlt => ?_, fun heq => ?_⟩
      · obtain ⟨ha1, ha2⟩ := h1 (by omega)
        refine ⟨ha1, ?_⟩
        rw [ha2]
        congr 2
        push_cast
        ring
      · exact h2 (by omega)

/-- The run of `TestRateLimitMiddleware`, "Exceed Rate Limit": three requests
for `valid-key` (2 of 2 tokens) one second apart. -/
theorem quota_allows_exactly_rateLimit_witness :
    (serveAll (fun db => generateRoute db testConfig) noRateLimits
      [testArrival 1000000000, testArrival 2000000000, testArrival 3000000000]).length = 2 + 1 ∧
    ∀ (i : Nat) (a : Arrival) (res : Result),
      [testArrival 1000000000, testArrival 2000000000, testArrival 3000000000][i]? = some a →
      (serveAll (fun db => generateRoute db testConfig) noRateLimits
        [testArrival 1000000000, testArrival 2000000000, testArrival 3000000000])[i]? = some res →
      (i < 2 → res.allowed = true ∧
        res.rateLimits "valid-key" = some ⟨((2 : Nat) : Int) - ((i : Int) + 1), a.world.now,
          ((2 : Nat) : Int)⟩) ∧
      (i = 2 → res.allowed = false ∧
        res.resp = httpError "Rate limit exceeded. Try again later." StatusTooManyRequests ∧
        ∃ L, res.rateLimits "valid-key" = some ⟨0, L, ((2 : Nat) : Int)⟩) :=
  quota_allows_exactly_rateLimit testConfig 2 (by decide) "valid-key" (by decide) noRateLimits rfl
    [testArrival 1000000000, testArrival 2000000000, testArrival 3000000000] rfl
    (by
      intro a ha
      simp only [List.mem_cons, List.mem_singleton, List.not_mem_nil, or_false] at ha
      rcases ha with rfl | rfl | rfl <;>
        exact ⟨rfl, rfl, by decide, validKey 0, rfl, rfl⟩)
    (by
      intro a ha
      simp only [List.head?_cons, Option.some.injEq] at ha
      subst ha
      exact ⟨validKey 0, rfl, rfl, rfl⟩)
    (by simp [testArrival, testWorld, Minute])

/-! ## C2: the window reset -/

/-- A request the middleware does not let through leaves `LastUsed` and
`RateLimit` of every existing entry as they were. -/
theorem generateRoute_rejected_frame (db : DBInterface) (cfg : Config) (w : World) (r : Request)
    (s : RateLimits) (key : String) (info : RateLimitInfo) (hs : s key = some info)
    (hrej : (generateRoute db cfg w r s).allowed = false) :
    ∃ T : Int, (generateRoute db cfg w r s).rateLimits key =
      some ⟨T, info.LastUsed, info.RateLimit⟩ := by
  by_cases hp : r.Path = "/health"
  · exfalso
    simp [generateRoute, rateLimitMiddleware, hp, Result.allowed, Event.isServeNext] at hrej
  · cases hd : w.json.decodeAPIKey r.Body with
    | none => exact ⟨info.Tokens, by simp [generateRoute, rateLimitMiddleware, hp, hd, hs]⟩
    | some k =>
      by_cases hk : k = ""
      · exact ⟨info.Tokens, by simp [generateRoute, rateLimitMiddleware, hp, hd, hk, hs]⟩
      · cases hl : db.GetAPIKey k with
        | error e =>
          exact ⟨info.Tokens, by simp [generateRoute, rateLimitMiddleware, hp, hd, hk, hl, hs]⟩
        | ok o =>
          cases o with
          | none =>
            exact ⟨info.Tokens, by simp [generateRoute, rateLimitMiddleware, hp, hd, hk, hl, hs]⟩
          | some apiKey =>
            cases ha : apiKey.Active with
            | false =>
              exact ⟨info.Tokens,
                by simp [generateRoute, rateLimitMiddleware, hp, hd, hk, hl, ha, hs]⟩
            | true =>
              by_cases ht : (refill w.now (entryFor s k apiKey)).Tokens > 0
              · exfalso
                rw [(generateRoute_allow db cfg w r s k apiKey hp hd hk hl ha ht).1] at hrej
                exact Bool.noConfusion hrej
              · unfold generateRoute
                rw [rateLimitMiddleware_reject _ db w r s k apiKey hp hd hk hl ha ht]
                by_cases hkk : key = k
                · subst hkk
                  refine ⟨(refill w.now (entryFor s key apiKey)).Tokens, ?_⟩
                  simp only [Function.update_same, Option.some.injEq]
                  have h := refill_LastUsed w.now (entryFor s key apiKey)
                  rw [entryFor_of_some s key apiKey info hs] at h ⊢
                  rw [← h.1, ← h.2]
                · exact ⟨info.Tokens, by simp [Function.update_noteq hkk, hs]⟩

/-- The quota map after a run is the one its last result carries. -/
theorem finalRateLimits_cons (h : DBInterface → Handler) (s : RateLimits) (a : Arrival)
    (rest : List Arrival) :
    finalRateLimits h s (a :: rest) = finalRateLimits h (h a.db a.world a.req s).rateLimits rest :=
  rfl

/-- However many requests were turned away since, an existing entry keeps its
`LastUsed` and `RateLimit`. -/
theorem rejected_run_frame (cfg : Config) (key : String) (L C : Int) :
    ∀ (as : List Arrival) (s : RateLimits) (T : Int), s key = some ⟨T, L, C⟩ →
      (∀ res ∈ serveAll (fun db => generateRoute db cfg) s as, res.allowed = false) →
      ∃ T1 : Int, finalRateLimits (fun db => generateRoute db cfg) s as key = some ⟨T1, L, C⟩ := by
  intro as
  induction as with
  | nil => intro s T hs _; exact ⟨T, hs⟩
  | cons a rest ih =>
    intro s T hs hrej
    simp only [serveAll, List.mem_cons, forall_eq_or_imp] at hrej
    obtain ⟨T1, h1⟩ := generateRoute_rejected_frame a.db cfg a.world a.req s key _ hs hrej.1
    exact ih _ T1 h1 hrej.2

/-- C2: for every credential with capacity N > 0 and any remaining balance, a
`POST /generate` arriving at least 60 seconds after `lastUsed` finds the
balance reset to N before the check, so it is let through and leaves
tokensRemaining = N - 1 and lastUsed = now, however many requests were turned
away since the last successful one. -/
theorem window_reset_restores_capacity (cfg : Config) (key : String) (hk : key ≠ "")
    (N : Int) (hN : 0 < N) (T L : Int) (s : RateLimits) (hs : s key = some ⟨T, L, N⟩)
    (rejected : List Arrival)
    (hrej : ∀ res ∈ serveAll (fun db => generateRoute db cfg) s rejected, res.allowed = false)
    (a : Arrival) (ha : a.forActiveKey key) (hwin : a.world.now - L ≥ Minute) :
    (∀ apiKey, (refill a.world.now
      (entryFor (finalRateLimits (fun db => generateRoute db cfg) s rejected) key apiKey)).Tokens
        = N) ∧
    (generateRoute a.db cfg a.world a.req
      (finalRateLimits (fun db => generateRoute db cfg) s rejected)).allowed = true ∧
    (generateRoute a.db cfg a.world a.req
      (finalRateLimits (fun db => generateRoute db cfg) s rejected)).rateLimits key =
        some ⟨N - 1, a.world.now, N⟩ := by
  obtain ⟨T1, hfin⟩ := rejected_run_frame cfg key L N rejected s T hs hrej
  obtain ⟨_, hpath, hdec, apiKey, hlook, hact⟩ := ha
  have hp : a.req.Path ≠ "/health" := by rw [hpath]; decide
  have hentry : ∀ k : APIKey, refill a.world.now
      (entryFor (finalRateLimits (fun db => generateRoute db cfg) s rejected) key k) =
        ⟨N, L, N⟩ := by
    intro k
    rw [entryFor_of_some _ key k _ hfin, refill_of_ge _ _ hwin]
  have hgt : (refill a.world.now
      (entryFor (finalRateLimits (fun db => generateRoute db cfg) s rejected) key apiKey)).Tokens
        > 0 := by
    rw [hentry]; exact hN
  obtain ⟨hallow, hstate, _, _⟩ :=
    generateRoute_allow a.db cfg a.world a.req _ key apiKey hp hdec hk hlook hact hgt
  refine ⟨fun k => by rw [hentry], hallow, ?_⟩
  rw [hstate, hentry]
  simp

/-- After `valid-key` is exhausted and one more request is turned away inside
the window, a request 60 seconds after the last success passes again. -/
theorem window_reset_restores_capacity_witness :
    (∀ apiKey, (refill (testArrival 60000000000).world.now
      (entryFor (finalRateLimits (fun db => generateRoute db testConfig) exhaustedRateLimits
        [testArrival 1000000000]) "valid-key" apiKey)).Tokens = 2) ∧
    (generateRoute (testArrival 60000000000).db testConfig (testArrival 60000000000).world
      (testArrival 60000000000).req
      (finalRateLimits (fun db => generateRoute db testConfig) exhaustedRateLimits
        [testArrival 1000000000])).allowed = true ∧
    (generateRoute (testArrival 60000000000).db testConfig (testArrival 60000000000).world
      (testArrival 60000000000).req
      (finalRateLimits (fun db => generateRoute db testConfig) exhaustedRateLimits
        [testArrival 1000000000])).rateLimits "valid-key" =
        some ⟨2 - 1, (testArrival 60000000000).world.now, 2⟩ :=
  window_reset_restores_capacity testConfig "valid-key" (by decide) 2 (by decide) 0 0
    exhaustedRateLimits rfl [testArrival 1000000000] (by decide) (testArrival 60000000000)
    ⟨rfl, rfl, by decide, validKey 0, rfl, rfl⟩ (by decide)

/-! ## C3: the authentication failures of the middleware -/

/-- A body with nothing but white space holds no JSON value. -/
theorem decodeAPIKey_of_empty (body : String) (h : JSON.skipSpace body.data = []) :
    JSON.decodeAPIKey body = none := by
  simp only [JSON.decodeAPIKey, JSON.readTop, h]

/-- A body whose first character after white space opens neither an object
nor `null` does not decode into a struct. -/
theorem decodeAPIKey_of_first (body : String) (c : Char) (cs : List Char)
    (h : JSON.skipSpace body.data = c :: cs) (hc : c ≠ '{') (hn : c ≠ 'n') :
    JSON.decodeAPIKey body = none := by
  have hr : JSON.readTop body = none := by
    simp only [JSON.readTop, h]
    split
    · rename_i heq
      simp only [List.cons.injEq] at heq
      exact absurd heq.1 hc
    · rename_i heq
      simp only [List.cons.injEq] at heq
      exact absurd heq.1 hn
    · rfl
  simp only [JSON.decodeAPIKey, hr]

/-- Members none of which is named `apikey` leave the field as it is. -/
theorem fillAPIKey_of_no_field (ms : List (String × JSON.Val)) (acc : String)
    (h : ∀ m ∈ ms, JSON.isField "apikey" m.1 = false) : JSON.fillAPIKey ms acc = some acc := by
  induction ms generalizing acc with
  | nil => rfl
  | cons m ms ih =>
    obtain ⟨k, v⟩ := m
    have hk : JSON.isField "apikey" k = false := h (k, v) (List.mem_cons_self _ _)
    simp only [JSON.fillAPIKey, hk, Bool.false_eq_true, if_false]
    exact ih acc (fun m hm => h m (List.mem_cons_of_mem _ hm))

/-- A plain character is read as it is. -/
theorem unquote_cons_plain (n : Nat) (c : Char) (t : List Char) (h : JSON.plain c = true) :
    JSON.unquote (n + 1) (c :: t) = JSON.consChar c (JSON.unquote n t) := by
  simp only [JSON.plain, Bool.and_eq_true, bne_iff_ne, ne_eq, decide_eq_true_eq] at h
  obtain ⟨⟨h1, h2⟩, h3⟩ := h
  have h4 : ¬ c.toNat < 0x20 := by omega
  simp only [JSON.unquote, h1, h2, h4, if_false]

/-- A string of plain characters is read up to its closing quote. -/
theorem unquote_plain (s rest : List Char) :
    ∀ n : Nat, s.length < n → (∀ c ∈ s, JSON.plain c = true) →
      JSON.unquote n (s ++ '"' :: rest) = some (s, rest) := by
  induction s with
  | nil =>
    intro n hn _
    cases n with
    | zero => simp at hn
    | succ m => simp [JSON.unquote]
  | cons c s ih =>
    intro n hn hs
    cases n with
    | zero => simp at hn
    | succ m =>
      simp only [List.cons_append]
      rw [unquote_cons_plain m c _ (hs c (List.mem_cons_self _ _)),
        ih m (by simpa using hn) (fun d hd => hs d (List.mem_cons_of_mem _ hd))]
      rfl

/-- Nothing is dropped in front of a character that is not white space. -/
theorem skipSpace_cons (c : Char) (t : List Char) (h : JSON.isSpace c = false) :
    JSON.skipSpace (c :: t) = c :: t := by
  simp [JSON.skipSpace, h]

/-- The body `{"apikey":"<key>"}` followed by any text decodes to the key:
`Decode` stops at the closing brace. -/
theorem decodeAPIKey_reset (key rest : String) (hk : ∀ c ∈ key.data, JSON.plain c = true) :
    JSON.decodeAPIKey ("\x7b\"apikey\":\"" ++ key ++ "\"\x7d" ++ rest) = some key := by
  have hdata : ("\x7b\"apikey\":\"" ++ key ++ "\"\x7d" ++ rest).data =
      '{' :: '"' :: 'a' :: 'p' :: 'i' :: 'k' :: 'e' :: 'y' :: '"' :: ':' :: '"' ::
        (key.data ++ '"' :: '}' :: rest.data) := by
    simp [String.data_append]
  have h1 : ∀ n : Nat, 6 < n → JSON.unquote n
      ('a' :: 'p' :: 'i' :: 'k' :: 'e' :: 'y' :: '"' :: ':' :: '"' ::
        (key.data ++ '"' :: '}' :: rest.data)) =
      some (['a', 'p', 'i', 'k', 'e', 'y'], ':' :: '"' :: (key.data ++ '"' :: '}' :: rest.data)) :=
    fun n hn => unquote_plain ['a', 'p', 'i', 'k', 'e', 'y'] _ n hn (by decide)
  have h2 : ∀ n : Nat, key.data.length < n →
      JSON.unquote n (key.data ++ '"' :: '}' :: rest.data) = some (key.data, '}' :: rest.data) :=
    fun n hn => unquote_plain key.data _ n hn hk
  have hv : JSON.parseVal ('"' :: (key.data ++ '"' :: '}' :: rest.data)) =
      some (JSON.Val.str key, '}' :: rest.data) := by
    unfold JSON.parseVal
    rw [skipSpace_cons _ _ (by decide)]
    simp only []
    rw [h2 _ (by simp only [List.length_append, List.length_cons]; omega)]
  have hm : ∀ n : Nat, JSON.parseMembers (n + 1)
      ('"' :: 'a' :: 'p' :: 'i' :: 'k' :: 'e' :: 'y' :: '"' :: ':' :: '"' ::
        (key.data ++ '"' :: '}' :: rest.data)) = some [("apikey", JSON.Val.str key)] := by
    intro n
    unfold JSON.parseMembers
    rw [skipSpace_cons _ _ (by decide)]
    simp only []
    rw [h1 _ (by simp only [List.length_append, List.length_cons]; omega)]
    simp only []
    rw [skipSpace_cons _ _ (by decide)]
    simp only [hv]
    rw [skipSpace_cons _ _ (by decide)]
    rfl
  have hr : JSON.readTop ("\x7b\"apikey\":\"" ++ key ++ "\"\x7d" ++ rest) =
      some (JSON.Top.object [("apikey", JSON.Val.str key)]) := by
    simp only [JSON.readTop, hdata]
    rw [skipSpace_cons _ _ (by decide)]
    simp only []
    rw [skipSpace_cons _ _ (by decide)]
    split
    · rename_i heq
      simp only [List.cons.injEq] at heq
      exact absurd heq.1 (by decide)
    · rw [hm]
  simp only [JSON.decodeAPIKey, hr]
  simp [JSON.fillAPIKey, JSON.isField, JSON.foldChar]

/-- C3 fails as stated: the body `{"apikey":"valid-key"}trailing` is not a
JSON text, yet `Decode` reads the object at its start and does not look at
the rest, so the middleware does not answer 400: it looks the key up, charges
it and calls `next`, and the request is answered 200. -/
theorem malformed_body_is_served :
    JSON.wellFormed "\x7b\"apikey\":\"valid-key\"\x7dtrailing" = false ∧
    (generateRoute (testDB 0) testConfig (testWorld 1)
      ⟨"POST", "/generate", [], "\x7b\"apikey\":\"valid-key\"\x7dtrailing"⟩
      noRateLimits).resp.Status = StatusOK ∧
    (generateRoute (testDB 0) testConfig (testWorld 1)
      ⟨"POST", "/generate", [], "\x7b\"apikey\":\"valid-key\"\x7dtrailing"⟩
      noRateLimits).trace =
      [Event.GetAPIKey "valid-key", Event.UpdateAPIKeyUsage "valid-key" 1,
       Event.ServeNext ⟨"POST", "/generate", [], "\x7b\"apikey\":\"valid-key\"\x7d"⟩,
       Event.Post "http://localhost:11434/api/generate" "application/json"
         [("model", JSONValue.str ""), ("prompt", JSONValue.str ""),
          ("stream", JSONValue.bool false), ("raw", JSONValue.bool false)],
       Event.LogAPIUsage "valid-key"] ∧
    (generateRoute (testDB 0) testConfig (testWorld 1)
      ⟨"POST", "/generate", [], "\x7b\"apikey\":\"valid-key\"\x7dtrailing"⟩
      noRateLimits).rateLimits "valid-key" = some ⟨1, 1, 2⟩ := by
  refine ⟨by decide, by decide, by decide, by decide⟩

/-- C3, amended: for every `POST /generate`, with the decoder of
`encoding/json`, `rateLimitMiddleware` answers 400 without calling
`GetAPIKey` when `Decode` reports an error or the decoded apikey is empty.
That is the case of a body without any JSON value, of a body whose first
character opens neither an object nor `null`, and of an object without an
`apikey` member. For every body that decodes to a non-empty key the key is
looked up; the body `{"apikey":"<key>"}` followed by any text is such a body.
The answer is then 500 when `GetAPIKey` returns an error, 403 when it finds no
record, 403 when the record is inactive, whatever its tokens and rateLimit. In
all four cases `next` is not invoked and the quota map is unchanged. -/
theorem rateLimitMiddleware_rejections (next : Handler) (db : DBInterface) (w : World)
    (r : Request) (s : RateLimits) (_hm : r.Method = "POST") (hp : r.Path = "/generate")
    (hj : w.json = goJSON) :
    ((JSON.decodeAPIKey r.Body = none ∨ JSON.decodeAPIKey r.Body = some "") →
      (rateLimitMiddleware next db w r s).resp.Status = StatusBadRequest ∧
      (rateLimitMiddleware next db w r s).trace = [] ∧
      (rateLimitMiddleware next db w r s).rateLimits = s) ∧
    (JSON.skipSpace r.Body.data = [] →
      (rateLimitMiddleware next db w r s).resp.Status = StatusBadRequest ∧
      (rateLimitMiddleware next db w r s).trace = [] ∧
      (rateLimitMiddleware next db w r s).rateLimits = s) ∧
    (∀ c cs, JSON.skipSpace r.Body.data = c :: cs → c ≠ '{' → c ≠ 'n' →
      (rateLimitMiddleware next db w r s).resp.Status = StatusBadRequest ∧
      (rateLimitMiddleware next db w r s).trace = [] ∧
      (rateLimitMiddleware next db w r s).rateLimits = s) ∧
    (∀ ms, JSON.readTop r.Body = some (JSON.Top.object ms) →
      (∀ m ∈ ms, JSON.isField "apikey" m.1 = false) →
      (rateLimitMiddleware next db w r s).resp.Status = StatusBadRequest ∧
      (rateLimitMiddleware next db w r s).trace = [] ∧
      (rateLimitMiddleware next db w r s).rateLimits = s) ∧
    (∀ key, JSON.decodeAPIKey r.Body = some key → key ≠ "" →
      (rateLimitMiddleware next db w r s).trace.head? = some (Event.GetAPIKey key)) ∧
    (∀ key rest : String, (∀ c ∈ key.data, JSON.plain c = true) → key ≠ "" →
      r.Body = "\x7b\"apikey\":\"" ++ key ++ "\"\x7d" ++ rest →
      (rateLimitMiddleware next db w r s).trace.head? = some (Event.GetAPIKey key)) ∧
    (∀ key e, JSON.decodeAPIKey r.Body = some key → key ≠ "" →
      db.GetAPIKey key = .error e →
      (rateLimitMiddleware next db w r s).resp.Status = StatusInternalServerError ∧
      (rateLimitMiddleware next db w r s).trace = [Event.GetAPIKey key] ∧
      (rateLimitMiddleware next db w r s).rateLimits = s) ∧
    (∀ key, JSON.decodeAPIKey r.Body = some key → key ≠ "" →
      db.GetAPIKey key = .ok none →
      (rateLimitMiddleware next db w r s).resp.Status = StatusForbidden ∧
      (rateLimitMiddleware next db w r s).trace = [Event.GetAPIKey key] ∧
      (rateLimitMiddleware next db w r s).rateLimits = s) ∧
    (∀ key apiKey, JSON.decodeAPIKey r.Body = some key → key ≠ "" →
      db.GetAPIKey key = .ok (some apiKey) → apiKey.Active = false →
      (rateLimitMiddleware next db w r s).resp.Status = StatusForbidden ∧
      (rateLimitMiddleware next db w r s).trace = [Event.GetAPIKey key] ∧
      (rateLimitMiddleware next db w r s).rateLimits = s) := by
  have hp1 : r.Path ≠ "/health" := by rw [hp]; decide
  have hw : w.json.decodeAPIKey r.Body = JSON.decodeAPIKey r.Body := by rw [hj]; rfl
  have h400 : (JSON.decodeAPIKey r.Body = none ∨ JSON.decodeAPIKey r.Body = some "") →
      (rateLimitMiddleware next db w r s).resp.Status = StatusBadRequest ∧
      (rateLimitMiddleware next db w r s).trace = [] ∧
      (rateLimitMiddleware next db w r s).rateLimits = s := by
    rintro (hd | hd)
    · simp [rateLimitMiddleware, hp1, hw, hd, httpError]
    · simp [rateLimitMiddleware, hp1, hw, hd, httpError]
  have hhead : ∀ key, JSON.decodeAPIKey r.Body = some key → key ≠ "" →
      (rateLimitMiddleware next db w r s).trace.head? = some (Event.GetAPIKey key) := by
    intro key hd hk
    simp only [rateLimitMiddleware, hp1, hw, hd, hk, if_false]
    cases db.GetAPIKey key with
    | error e => rfl
    | ok o =>
      cases o with
      | none => rfl
      | some apiKey =>
        dsimp only
        split_ifs <;> rfl
  refine ⟨h400, ?_, ?_, ?_, ?_, ?_, ?_, ?_, ?_⟩
  · intro h
    exact h400 (Or.inl (decodeAPIKey_of_empty r.Body h))
  · intro c cs h hc hn
    exact h400 (Or.inl (decodeAPIKey_of_first r.Body c cs h hc hn))
  · intro ms hr hms
    refine h400 (Or.inr ?_)
    simp only [JSON.decodeAPIKey, hr]
    exact fillAPIKey_of_no_field ms "" hms
  · exact hhead
  · intro key rest hplain hk hb
    exact hhead key (by rw [hb]; exact decodeAPIKey_reset key rest hplain) hk
  · intro key e hd hk hl
    simp [rateLimitMiddleware, hp1, hw, hd, hk, hl, httpError]
  · intro key hd hk hl
    simp [rateLimitMiddleware, hp1, hw, hd, hk, hl, httpError]
  · intro key apiKey hd hk hl ha
    simp [rateLimitMiddleware, hp1, hw, hd, hk, hl, ha, httpError]

/-- The case "Inactive API Key" of `TestRateLimitMiddleware`: 403, only the
lookup was made, the quota map is as before. -/
theorem rateLimitMiddleware_rejections_witness :
    (rateLimitMiddleware (generateHandler (testDB 0) testConfig) (testDB 0) (testWorld 1)
      (testGenerate "inactive-key") noRateLimits).resp.Status = StatusForbidden ∧
    (rateLimitMiddleware (generateHandler (testDB 0) testConfig) (testDB 0) (testWorld 1)
      (testGenerate "inactive-key") noRateLimits).trace = [Event.GetAPIKey "inactive-key"] ∧
    (rateLimitMiddleware (generateHandler (testDB 0) testConfig) (testDB 0) (testWorld 1)
      (testGenerate "inactive-key") noRateLimits).rateLimits = noRateLimits :=
  (rateLimitMiddleware_rejections (generateHandler (testDB 0) testConfig) (testDB 0)
    (testWorld 1) (testGenerate "inactive-key") noRateLimits rfl rfl rfl).2.2.2.2.2.2.2.2
    "inactive-key" (inactiveKey 0) (by decide) (by decide) rfl rfl

/-! ## C4: what the proxy reads after the middleware -/

/-- Whatever else the client sent, the request handed to `next` carries only
the body the middleware writes from the key (line 59). -/
theorem rateLimitMiddleware_serves_resetBody (next : Handler) (db : DBInterface) (w : World)
    (r : Request) (s : RateLimits) (key : String) (apiKey : APIKey)
    (hp : r.Path ≠ "/health") (hd : w.json.decodeAPIKey r.Body = some key) (hk : key ≠ "")
    (hl : db.GetAPIKey key = .ok (some apiKey)) (ha : apiKey.Active = true)
    (ht : (refill w.now (entryFor s key apiKey)).Tokens > 0) :
    (rateLimitMiddleware next db w r s).trace.filter Event.isServeNext =
      Event.ServeNext { r with Body := "\x7b\"apikey\":\"" ++ key ++ "\"\x7d" } ::
        (next w (resetBody r key) (Function.update s key (some
          { refill w.now (entryFor s key apiKey) with
            Tokens := (refill w.now (entryFor s key apiKey)).Tokens - 1,
            LastUsed := w.now }))).trace.filter Event.isServeNext := by
  rw [rateLimitMiddleware_authenticated next db w r s key apiKey hp hd hk hl ha, if_pos ht]
  simp [List.filter, Event.isGetAPIKey, Event.isServeNext, resetBody]

/-- C4, at the request of `TestRateLimitMiddleware`: the client sends apikey
`valid-key`, model `test-model` and prompt `test prompt`; the request passes
authentication and quota, but `generateHandler` is served a body holding the
apikey alone, and posts an empty model and an empty prompt upstream. -/
theorem generate_body_not_preserved :
    goJSON.decodeGenerateRequest (testGenerate "valid-key").Body =
      some ⟨"test-model", "test prompt", false, [], false, "valid-key"⟩ ∧
    (generateRoute (testDB 0) testConfig (testWorld 1) (testGenerate "valid-key")
      noRateLimits).trace =
      [Event.GetAPIKey "valid-key", Event.UpdateAPIKeyUsage "valid-key" 1,
       Event.ServeNext { Method := "POST", Path := "/generate", Query := [],
                         Body := "\x7b\"apikey\":\"valid-key\"\x7d" },
       Event.Post "http://localhost:11434/api/generate" "application/json"
         [("model", JSONValue.str ""), ("prompt", JSONValue.str ""),
          ("stream", JSONValue.bool false), ("raw", JSONValue.bool false)],
       Event.LogAPIUsage "valid-key"] ∧
    goJSON.decodeGenerateRequest "\x7b\"apikey\":\"valid-key\"\x7d" =
      some ⟨"", "", false, [], false, "valid-key"⟩ := by
  refine ⟨by decide, by decide, by decide⟩

/-! ## C5, C6, C7: the health check -/

/-- The health check on a credential the store knows: 200, whether or not the
record is active (lines 129-140 test `key == nil` only). -/
theorem healthRoute_known_key (db : DBInterface) (w : World) (r : Request) (s : RateLimits)
    (apiKey : APIKey) (hp : r.Path = "/health") (hq : r.queryGet "apikey" ≠ "")
    (hl : db.GetAPIKey (r.queryGet "apikey") = .ok (some apiKey)) :
    (healthRoute db w r s).resp =
      { Status := StatusOK, ContentType := "application/json",
        Body := Body.json [("status", JSONValue.str "API is healthy"),
                           ("timestamp", JSONValue.time w.now)] } := by
  simp [healthRoute, rateLimitMiddleware, healthCheckHandler, hp, hq, hl, APIResponse.encode]

/-- C5, at the inactive credential of the tests: `GET /health?apikey=inactive-key`
is answered 200 "API is healthy", where the middleware answers the same
credential on `POST /generate` with 403. -/
theorem health_accepts_inactive_key :
    (testDB 0).GetAPIKey "inactive-key" = .ok (some (inactiveKey 0)) ∧
    (inactiveKey 0).Active = false ∧
    (healthRoute (testDB 0) (testWorld 1) (testHealth "inactive-key") noRateLimits).resp =
      { Status := 200, ContentType := "application/json",
        Body := Body.json [("status", JSONValue.str "API is healthy"),
                           ("timestamp", JSONValue.time 1)] } ∧
    (generateRoute (testDB 0) testConfig (testWorld 1) (testGenerate "inactive-key")
      noRateLimits).resp = httpError "API key is deactivated" 403 := by
  refine ⟨rfl, rfl, by decide, by decide⟩

/-- C6: for every `GET /health`: an empty or missing apikey is answered 400
without a lookup; a lookup error 500; an unknown key 403; an existing active
credential 200 with a JSON body whose status field is "API is healthy". -/
theorem health_responses (db : DBInterface) (w : World) (r : Request) (s : RateLimits)
    (_hm : r.Method = "GET") (hp : r.Path = "/health") :
    (r.queryGet "apikey" = "" →
      (healthRoute db w r s).resp.Status = StatusBadRequest ∧
      (healthRoute db w r s).trace.any Event.isGetAPIKey = false) ∧
    (∀ e, r.queryGet "apikey" ≠ "" → db.GetAPIKey (r.queryGet "apikey") = .error e →
      (healthRoute db w r s).resp.Status = StatusInternalServerError) ∧
    (r.queryGet "apikey" ≠ "" → db.GetAPIKey (r.queryGet "apikey") = .ok none →
      (healthRoute db w r s).resp.Status = StatusForbidden) ∧
    (∀ apiKey, r.queryGet "apikey" ≠ "" →
      db.GetAPIKey (r.queryGet "apikey") = .ok (some apiKey) → apiKey.Active = true →
      (healthRoute db w r s).resp.Status = StatusOK ∧
      ∃ o, (healthRoute db w r s).resp.Body = Body.json o ∧
        o.lookup "status" = some (JSONValue.str "API is healthy")) := by
  refine ⟨?_, ?_, ?_, ?_⟩
  · intro hq
    simp [healthRoute, rateLimitMiddleware, healthCheckHandler, hp, hq, httpError,
      Event.isGetAPIKey]
  · intro e hq hl
    simp [healthRoute, rateLimitMiddleware, healthCheckHandler, hp, hq, hl, httpError]
  · intro hq hl
    simp [healthRoute, rateLimitMiddleware, healthCheckHandler, hp, hq, hl, httpError]
  · intro apiKey hq hl _
    rw [healthRoute_known_key db w r s apiKey hp hq hl]
    exact ⟨rfl, _, rfl, rfl⟩

/-- The case "Valid API Key" of `TestHealthCheckHandler`. -/
theorem health_responses_witness :
    (healthRoute (testDB 0) (testWorld 1) (testHealth "valid-key") noRateLimits).resp.Status =
      StatusOK ∧
    ∃ o, (healthRoute (testDB 0) (testWorld 1) (testHealth "valid-key") noRateLimits).resp.Body =
        Body.json o ∧
      o.lookup "status" = some (JSONValue.str "API is healthy") :=
  (health_responses (testDB 0) (testWorld 1) (testHealth "valid-key") noRateLimits rfl rfl).2.2.2
    (validKey 0) (by decide) rfl rfl

/-- One health check leaves the quota map alone and calls neither
`UpdateAPIKeyUsage` nor anything but the lookup. -/
theorem healthRoute_frame (db : DBInterface) (w : World) (r : Request) (s : RateLimits)
    (hp : r.Path = "/health") :
    (healthRoute db w r s).rateLimits = s ∧
    (healthRoute db w r s).trace.any Event.isUpdateAPIKeyUsage = false := by
  by_cases hq : r.queryGet "apikey" = ""
  · simp [healthRoute, rateLimitMiddleware, healthCheckHandler, hp, hq,
      Event.isUpdateAPIKeyUsage]
  · cases hl : db.GetAPIKey (r.queryGet "apikey") with
    | error e =>
      simp [healthRoute, rateLimitMiddleware, healthCheckHandler, hp, hq, hl,
        Event.isUpdateAPIKeyUsage]
    | ok o =>
      cases o <;>
        simp [healthRoute, rateLimitMiddleware, healthCheckHandler, hp, hq, hl,
          Event.isUpdateAPIKeyUsage]

/-- C7: for every quota state and any number of successive `GET /health`
requests, with any apikey, the quota map is left exactly as it was after each
of them, and `UpdateAPIKeyUsage` is never called. -/
theorem health_never_touches_quota (s : RateLimits) (as : List Arrival)
    (hall : ∀ a ∈ as, a.req.Method = "GET" ∧ a.req.Path = "/health") :
    finalRateLimits healthRoute s as = s ∧
    ∀ res ∈ serveAll healthRoute s as,
      res.rateLimits = s ∧ res.trace.any Event.isUpdateAPIKeyUsage = false := by
  induction as with
  | nil => exact ⟨rfl, by simp [serveAll]⟩
  | cons a rest ih =>
    have h0 := healthRoute_frame a.db a.world a.req s (hall a (List.mem_cons_self _ _)).2
    have ih1 := ih (fun b hb => hall b (List.mem_cons_of_mem _ hb))
    refine ⟨?_, ?_⟩
    · rw [finalRateLimits_cons, h0.1]
      exact ih1.1
    · intro res hres
      simp only [serveAll, List.mem_cons] at hres
      rcases hres with rfl | hres
      · exact h0
      · rw [h0.1] at hres
        exact ih1.2 res hres

/-- Three health checks in a row (valid, inactive and unknown key) on the
exhausted quota map. -/
theorem health_never_touches_quota_witness :
    finalRateLimits healthRoute exhaustedRateLimits
      [⟨testDB 0, testWorld 1, testHealth "valid-key"⟩,
       ⟨testDB 0, testWorld 2, testHealth "inactive-key"⟩,
       ⟨testDB 0, testWorld 3, testHealth "invalid-key"⟩] = exhaustedRateLimits ∧
    ∀ res ∈ serveAll healthRoute exhaustedRateLimits
      [⟨testDB 0, testWorld 1, testHealth "valid-key"⟩,
       ⟨testDB 0, testWorld 2, testHealth "inactive-key"⟩,
       ⟨testDB 0, testWorld 3, testHealth "invalid-key"⟩],
      res.rateLimits = exhaustedRateLimits ∧ res.trace.any Event.isUpdateAPIKeyUsage = false :=
  health_never_touches_quota exhaustedRateLimits
    [⟨testDB 0, testWorld 1, testHealth "valid-key"⟩,
     ⟨testDB 0, testWorld 2, testHealth "inactive-key"⟩,
     ⟨testDB 0, testWorld 3, testHealth "invalid-key"⟩]
    (by
      intro a ha
      simp only [List.mem_cons, List.mem_singleton, List.not_mem_nil, or_false] at ha
      rcases ha with rfl | rfl | rfl <;> exact ⟨rfl, rfl⟩)

/-! ## C8: what a 429 leaves behind -/

/-- With a positive capacity, a check that finds no token has not reset. -/
theorem refill_eq_self_of_no_token (now : Int) (info : RateLimitInfo) (hcap : 0 < info.RateLimit)
    (ht : ¬ (refill now info).Tokens > 0) : refill now info = info := by
  unfold refill at ht ⊢
  split_ifs at ht ⊢ with h
  · exact absurd hcap ht
  · rfl

/-- C8 fails as stated: after a restart, `valid-key` has no in-memory entry
and its record holds `tokens = 0`; the request is turned away with 429 and the
quota map, empty before, holds an entry for the key afterwards. -/
theorem quota_rejection_creates_entry :
    (generateRoute (mockDB [("valid-key", spentKey 0)]) testConfig (testWorld 1)
      (testGenerate "valid-key") noRateLimits).resp =
        httpError "Rate limit exceeded. Try again later." 429 ∧
    (generateRoute (mockDB [("valid-key", spentKey 0)]) testConfig (testWorld 1)
      (testGenerate "valid-key") noRateLimits).trace = [Event.GetAPIKey "valid-key"] ∧
    noRateLimits "valid-key" = none ∧
    (generateRoute (mockDB [("valid-key", spentKey 0)]) testConfig (testWorld 1)
      (testGenerate "valid-key") noRateLimits).rateLimits "valid-key" = some ⟨0, 0, 2⟩ ∧
    (generateRoute (mockDB [("valid-key", spentKey 0)]) testConfig (testWorld 1)
      (testGenerate "valid-key") noRateLimits).rateLimits ≠ noRateLimits := by
  refine ⟨by decide, by decide, rfl, by decide, ?_⟩
  intro h
  have h1 := congrFun h "valid-key"
  revert h1
  decide

/-- C8, amended: whenever `rateLimitMiddleware` turns a `POST /generate` away
with 429, no `UpdateAPIKeyUsage` write is issued and the entries of all other
credentials are unchanged; if the credential already had an entry (capacity
> 0) the whole quota map equals the one before; if it had none, the only
change is the entry created from the record's tokens, lastUsed and rateLimit
(rateLimit > 0). -/
theorem quota_rejection_frame (next : Handler) (db : DBInterface) (w : World) (r : Request)
    (s : RateLimits) (_hm : r.Method = "POST") (hp : r.Path = "/generate")
    (hrej : (rateLimitMiddleware next db w r s).allowed = false)
    (h429 : (rateLimitMiddleware next db w r s).resp.Status = StatusTooManyRequests) :
    (rateLimitMiddleware next db w r s).trace.any Event.isUpdateAPIKeyUsage = false ∧
    ∃ key apiKey, w.json.decodeAPIKey r.Body = some key ∧
      db.GetAPIKey key = .ok (some apiKey) ∧
      (∀ k, k ≠ key → (rateLimitMiddleware next db w r s).rateLimits k = s k) ∧
      (∀ info, s key = some info → 0 < info.RateLimit →
        (rateLimitMiddleware next db w r s).rateLimits = s) ∧
      (s key = none → 0 < apiKey.RateLimit →
        (rateLimitMiddleware next db w r s).rateLimits =
          Function.update s key (some ⟨apiKey.Tokens, apiKey.LastUsed, apiKey.RateLimit⟩)) := by
  have hp1 : r.Path ≠ "/health" := by rw [hp]; decide
  cases hd : w.json.decodeAPIKey r.Body with
  | none =>
    exfalso
    simp [rateLimitMiddleware, hp1, hd, httpError, StatusBadRequest, StatusTooManyRequests]
      at h429
  | some key =>
    by_cases hk : key = ""
    · exfalso
      simp [rateLimitMiddleware, hp1, hd, hk, httpError, StatusBadRequest,
        StatusTooManyRequests] at h429
    · cases hl : db.GetAPIKey key with
      | error e =>
        exfalso
        simp [rateLimitMiddleware, hp1, hd, hk, hl, httpError, StatusInternalServerError,
          StatusTooManyRequests] at h429
      | ok o =>
        cases o with
        | none =>
          exfalso
          simp [rateLimitMiddleware, hp1, hd, hk, hl, httpError, StatusForbidden,
            StatusTooManyRequests] at h429
        | some apiKey =>
          cases ha : apiKey.Active with
          | false =>
            exfalso
            simp [rateLimitMiddleware, hp1, hd, hk, hl, ha, httpError, StatusForbidden,
              StatusTooManyRequests] at h429
          | true =>
            by_cases ht : (refill w.now (entryFor s key apiKey)).Tokens > 0
            · exfalso
              rw [rateLimitMiddleware_authenticated next db w r s key apiKey hp1 hd hk hl ha,
                if_pos ht] at hrej
              simp [Result.allowed, Event.isServeNext] at hrej
            · rw [rateLimitMiddleware_reject next db w r s key apiKey hp1 hd hk hl ha ht]
              refine ⟨by simp [Event.isUpdateAPIKeyUsage], key, apiKey, rfl, hl, ?_, ?_, ?_⟩
              · intro k hne
                simp [Function.update_noteq hne]
              · intro info hs hcap
                rw [entryFor_of_some s key apiKey info hs] at ht ⊢
                rw [refill_eq_self_of_no_token w.now info hcap ht]
                simp only []
                rw [← hs]
                exact Function.update_eq_self key s
              · intro hs hcap
                have he : entryFor s key apiKey =
                    ⟨apiKey.Tokens, apiKey.LastUsed, apiKey.RateLimit⟩ := by
                  simp [entryFor, hs]
                rw [he] at ht ⊢
                rw [refill_eq_self_of_no_token w.now _ hcap ht]

/-- The amended statement at the request of the counterexample: nothing is
persisted, and the map changes by the one entry taken from the record. -/
theorem quota_rejection_frame_witness :
    (rateLimitMiddleware (generateHandler (mockDB [("valid-key", spentKey 0)]) testConfig)
      (mockDB [("valid-key", spentKey 0)]) (testWorld 1) (testGenerate "valid-key")
      noRateLimits).trace.any Event.isUpdateAPIKeyUsage = false ∧
    ∃ key apiKey, (testWorld 1).json.decodeAPIKey (testGenerate "valid-key").Body = some key ∧
      (mockDB [("valid-key", spentKey 0)]).GetAPIKey key = .ok (some apiKey) ∧
      (∀ k, k ≠ key →
        (rateLimitMiddleware (generateHandler (mockDB [("valid-key", spentKey 0)]) testConfig)
          (mockDB [("valid-key", spentKey 0)]) (testWorld 1) (testGenerate "valid-key")
          noRateLimits).rateLimits k = noRateLimits k) ∧
      (∀ info, noRateLimits key = some info → 0 < info.RateLimit →
        (rateLimitMiddleware (generateHandler (mockDB [("valid-key", spentKey 0)]) testConfig)
          (mockDB [("valid-key", spentKey 0)]) (testWorld 1) (testGenerate "valid-key")
          noRateLimits).rateLimits = noRateLimits) ∧
      (noRateLimits key = none → 0 < apiKey.RateLimit →
        (rateLimitMiddleware (generateHandler (mockDB [("valid-key", spentKey 0)]) testConfig)
          (mockDB [("valid-key", spentKey 0)]) (testWorld 1) (testGenerate "valid-key")
          noRateLimits).rateLimits =
          Function.update noRateLimits key
            (some ⟨apiKey.Tokens, apiKey.LastUsed, apiKey.RateLimit⟩)) :=
  quota_rejection_frame (generateHandler (mockDB [("valid-key", spentKey 0)]) testConfig)
    (mockDB [("valid-key", spentKey 0)]) (testWorld 1) (testGenerate "valid-key") noRateLimits
    rfl rfl (by decide) (by decide)

/-! ## C9, C10: the proxy -/

/-- The proxy on a decodable body: one `http.Post` of the marshalled
`ollamaReq`, whose outcome decides the reply. -/
theorem generateHandler_decoded (db : DBInterface) (cfg : Config) (w : World) (r : Request)
    (s : RateLimits) (req : GenerateRequest) (hd : w.json.decodeGenerateRequest r.Body = some req) :
    generateHandler db cfg w r s =
      match w.post (cfg.OllamaURL ++ "/api/generate") "application/json"
          ([("model", JSONValue.str req.Model), ("prompt", JSONValue.str req.Prompt),
            ("stream", JSONValue.bool req.Stream)] ++
           (if req.Images.isEmpty then [] else [("images", JSONValue.strs req.Images)]) ++
           [("raw", JSONValue.bool req.Raw)]) with
      | .error _ =>
        ⟨httpError "Error making request to Ollama API" StatusInternalServerError, s,
          [Event.Post (cfg.OllamaURL ++ "/api/generate") "application/json"
            ([("model", JSONValue.str req.Model), ("prompt", JSONValue.str req.Prompt),
              ("stream", JSONValue.bool req.Stream)] ++
             (if req.Images.isEmpty then [] else [("images", JSONValue.strs req.Images)]) ++
             [("raw", JSONValue.bool req.Raw)])]⟩
      | .ok ollamaResp =>
        ⟨{ Status := ollamaResp.StatusCode, ContentType := "application/json",
           Body := Body.raw ollamaResp.Body }, s,
          [Event.Post (cfg.OllamaURL ++ "/api/generate") "application/json"
            ([("model", JSONValue.str req.Model), ("prompt", JSONValue.str req.Prompt),
              ("stream", JSONValue.bool req.Stream)] ++
             (if req.Images.isEmpty then [] else [("images", JSONValue.strs req.Images)]) ++
             [("raw", JSONValue.bool req.Raw)]),
           Event.LogAPIUsage req.APIKey]⟩ := by
  simp only [generateHandler, hd, OllamaReq.marshal]

/-- C9: the upstream payload `generateHandler` builds from a decoded request
has exactly the fields model, prompt, stream, raw and, only when non-empty,
images, each equal to the field of the decoded request, and no apikey: a
request that differs from it in the apikey alone yields the same payload. -/
theorem upstream_payload_fields (db : DBInterface) (cfg : Config) (w : World) (r : Request)
    (s : RateLimits) (req : GenerateRequest) (hd : w.json.decodeGenerateRequest r.Body = some req) :
    ∃ payload : JSONObject,
      (generateHandler db cfg w r s).trace.filter Event.isPost =
        [Event.Post (cfg.OllamaURL ++ "/api/generate") "application/json" payload] ∧
      payload.map Prod.fst =
        (if req.Images = [] then ["model", "prompt", "stream", "raw"]
         else ["model", "prompt", "stream", "images", "raw"]) ∧
      payload.lookup "model" = some (JSONValue.str req.Model) ∧
      payload.lookup "prompt" = some (JSONValue.str req.Prompt) ∧
      payload.lookup "stream" = some (JSONValue.bool req.Stream) ∧
      payload.lookup "raw" = some (JSONValue.bool req.Raw) ∧
      (req.Images ≠ [] → payload.lookup "images" = some (JSONValue.strs req.Images)) ∧
      payload.lookup "apikey" = none ∧
      ∀ (db2 : DBInterface) (w2 : World) (r2 : Request) (s2 : RateLimits) (req2 : GenerateRequest),
        w2.json.decodeGenerateRequest r2.Body = some req2 →
        req2.Model = req.Model → req2.Prompt = req.Prompt → req2.Stream = req.Stream →
        req2.Images = req.Images → req2.Raw = req.Raw →
        (generateHandler db2 cfg w2 r2 s2).trace.filter Event.isPost =
          [Event.Post (cfg.OllamaURL ++ "/api/generate") "application/json" payload] := by
  refine ⟨[("model", JSONValue.str req.Model), ("prompt", JSONValue.str req.Prompt),
      ("stream", JSONValue.bool req.Stream)] ++
     (if req.Images.isEmpty then [] else [("images", JSONValue.strs req.Images)]) ++
     [("raw", JSONValue.bool req.Raw)], ?_, ?_, ?_, ?_, ?_, ?_, ?_, ?_, ?_⟩
  · rw [generateHandler_decoded db cfg w r s req hd]
    cases w.post _ _ _ <;> simp [List.filter, Event.isPost]
  · cases h : req.Images <;> simp
  · simp [List.lookup]
  · simp [List.lookup]
  · cases h : req.Images <;> simp [List.lookup]
  · cases h : req.Images <;> simp [List.lookup]
  · intro hne
    cases h : req.Images with
    | nil => exact absurd h hne
    | cons x xs => simp [List.lookup]
  · cases h : req.Images <;> simp [List.lookup]
  · intro db2 w2 r2 s2 req2 hd2 h1 h2 h3 h4 h5
    rw [generateHandler_decoded db2 cfg w2 r2 s2 req2 hd2, h1, h2, h3, h4, h5]
    cases w2.post _ _ _ <;> simp [List.filter, Event.isPost]

/-- The payload of a request with images, and of one that differs from it in
the apikey alone. -/
theorem upstream_payload_fields_witness :
    ∃ payload : JSONObject,
      (generateHandler (testDB 0) testConfig (testWorld 1)
        ⟨"POST", "/generate", [],
          "\x7b\"apikey\":\"valid-key\",\"model\":\"llava\",\"images\":[\"aGk=\"],\"raw\":true\x7d"⟩
        noRateLimits).trace.filter Event.isPost =
        [Event.Post (testConfig.OllamaURL ++ "/api/generate") "application/json" payload] ∧
      payload.map Prod.fst =
        (if (⟨"llava", "", false, ["aGk="], true, "valid-key"⟩ : GenerateRequest).Images = []
         then ["model", "prompt", "stream", "raw"]
         else ["model", "prompt", "stream", "images", "raw"]) ∧
      payload.lookup "model" = some (JSONValue.str "llava") ∧
      payload.lookup "prompt" = some (JSONValue.str "") ∧
      payload.lookup "stream" = some (JSONValue.bool false) ∧
      payload.lookup "raw" = some (JSONValue.bool true) ∧
      ((⟨"llava", "", false, ["aGk="], true, "valid-key"⟩ : GenerateRequest).Images ≠ [] →
        payload.lookup "images" = some (JSONValue.strs ["aGk="])) ∧
      payload.lookup "apikey" = none ∧
      ∀ (db2 : DBInterface) (w2 : World) (r2 : Request) (s2 : RateLimits) (req2 : GenerateRequest),
        w2.json.decodeGenerateRequest r2.Body = some req2 →
        req2.Model = "llava" → req2.Prompt = "" → req2.Stream = false →
        req2.Images = ["aGk="] → req2.Raw = true →
        (generateHandler db2 testConfig w2 r2 s2).trace.filter Event.isPost =
          [Event.Post (testConfig.OllamaURL ++ "/api/generate") "application/json" payload] :=
  upstream_payload_fields (testDB 0) testConfig (testWorld 1)
    ⟨"POST", "/generate", [],
      "\x7b\"apikey\":\"valid-key\",\"model\":\"llava\",\"images\":[\"aGk=\"],\"raw\":true\x7d"⟩
    noRateLimits ⟨"llava", "", false, ["aGk="], true, "valid-key"⟩ (by decide)

/-- Whether the client redirects does not depend on the method. -/
theorem redirectBehavior_shouldRedirect (m : String) (statusCode : Nat) :
    (redirectBehavior m statusCode).2.1 = isRedirect statusCode := by
  unfold isRedirect redirectBehavior
  split_ifs <;> rfl

/-- An answer that is not a redirect, or a redirect without `Location`, ends
the call: it is returned after this one request. -/
theorem clientDo_final (net : Network) (body : JSONObject) (n : Nat) (req : HTTPRequest)
    (up : HTTPResponse) (h : net req = .ok up)
    (hfinal : isRedirect up.StatusCode = false ∨ up.Location = Location.absent) :
    clientDo net body (n + 1) req = ([req], .ok ⟨up.StatusCode, up.Body⟩) := by
  simp only [clientDo, h, redirectBehavior_shouldRedirect]
  rcases hfinal with h1 | h1
  · simp [h1]
  · rw [h1]
    split_ifs <;> rfl

/-- A request without response ends the call with an error. -/
theorem clientDo_error (net : Network) (body : JSONObject) (n : Nat) (req : HTTPRequest)
    (e : String) (h : net req = .error e) :
    clientDo net body (n + 1) req = ([req], .error e) := by
  simp only [clientDo, h]

/-- The call sends at most as many requests as it may. -/
theorem clientDo_length_le (net : Network) (body : JSONObject) :
    ∀ (n : Nat) (req : HTTPRequest), (clientDo net body n req).1.length ≤ n := by
  intro n
  induction n with
  | zero => intro req; simp [clientDo]
  | succ n ih =>
    intro req
    simp only [clientDo]
    cases net req with
    | error e => exact Nat.succ_le_succ (Nat.zero_le _)
    | ok up =>
      dsimp only
      by_cases hr : (redirectBehavior req.Method up.StatusCode).2.1 = true
      · rw [if_pos hr]
        cases up.Location with
        | absent => exact Nat.succ_le_succ (Nat.zero_le _)
        | invalid => exact Nat.succ_le_succ (Nat.zero_le _)
        | target url => exact Nat.succ_le_succ (ih _)
      · rw [if_neg hr]
        exact Nat.succ_le_succ (Nat.zero_le _)

/-- The call sends its first request first. -/
theorem clientDo_head (net : Network) (body : JSONObject) (n : Nat) (req : HTTPRequest) :
    (clientDo net body (n + 1) req).1.head? = some req := by
  simp only [clientDo]
  cases net req with
  | error e => rfl
  | ok up =>
    dsimp only
    by_cases hr : (redirectBehavior req.Method up.StatusCode).2.1 = true
    · rw [if_pos hr]
      cases up.Location <;> rfl
    · rw [if_neg hr]
      rfl

/-- A redirect with a usable `Location` is followed: the next request goes to
the location, with the method and the body `redirectBehavior` gives. -/
theorem clientDo_redirect (net : Network) (body : JSONObject) (n : Nat) (req : HTTPRequest)
    (up : HTTPResponse) (url : String) (h : net req = .ok up)
    (hred : isRedirect up.StatusCode = true) (hloc : up.Location = Location.target url) :
    clientDo net body (n + 1) req =
      (req :: (clientDo net body n
          ⟨(redirectBehavior req.Method up.StatusCode).1, url,
            if (redirectBehavior req.Method up.StatusCode).2.2 then some body else none⟩).1,
        (clientDo net body n
          ⟨(redirectBehavior req.Method up.StatusCode).1, url,
            if (redirectBehavior req.Method up.StatusCode).2.2 then some body else none⟩).2) := by
  simp only [clientDo, h, redirectBehavior_shouldRedirect, hred, if_true, hloc]

/-- The response the call returns is the upstream's answer to the last
request attempted. -/
theorem clientDo_last (net : Network) (body : JSONObject) :
    ∀ (n : Nat) (req : HTTPRequest) (out : UpstreamResponse),
      (clientDo net body n req).2 = .ok out →
      ∃ last resp, (clientDo net body n req).1.getLast? = some last ∧
        net last = .ok resp ∧ out = ⟨resp.StatusCode, resp.Body⟩ := by
  intro n
  induction n with
  | zero =>
    intro req out h
    simp [clientDo] at h
  | succ n ih =>
    intro req out h
    cases hnet : net req with
    | error e =>
      rw [clientDo_error net body n req e hnet] at h
      exact Except.noConfusion h
    | ok up =>
      by_cases hred : isRedirect up.StatusCode = true
      · cases hloc : up.Location with
        | absent =>
          rw [clientDo_final net body n req up hnet (Or.inr hloc)] at h ⊢
          simp only [Except.ok.injEq] at h
          exact ⟨req, up, rfl, hnet, h.symm⟩
        | invalid =>
          simp [clientDo, hnet, redirectBehavior_shouldRedirect, hred, hloc] at h
        | target url =>
          rw [clientDo_redirect net body n req up url hnet hred hloc] at h ⊢
          obtain ⟨last, resp, h1, h2, h3⟩ := ih _ out h
          refine ⟨last, resp, ?_, h2, h3⟩
          cases hl : (clientDo net body n
            ⟨(redirectBehavior req.Method up.StatusCode).1, url,
              if (redirectBehavior req.Method up.StatusCode).2.2 then some body else none⟩).1 with
          | nil =>
            rw [hl] at h1
            exact Option.noConfusion h1
          | cons a t =>
            rw [hl] at h1
            simp only [List.getLast?_cons_cons]
            exact h1
      · have hred1 : isRedirect up.StatusCode = false := by
          cases hb : isRedirect up.StatusCode with
          | false => rfl
          | true => exact absurd hb hred
        rw [clientDo_final net body n req up hnet (Or.inl hred1)] at h ⊢
        simp only [Except.ok.injEq] at h
        exact ⟨req, up, rfl, hnet, h.symm⟩

/-- C10 fails as stated: the upstream answers the gateway's request with 307
and a `Location`; `http.Post` follows it, so a second request reaches the
upstream, and the gateway replies 200 with the body of the second answer
instead of relaying the 307. -/
theorem redirect_is_followed_not_relayed :
    movedServer ⟨"POST", "http://localhost:11434/api/generate",
        some [("model", JSONValue.str "test-model"), ("prompt", JSONValue.str "test prompt"),
          ("stream", JSONValue.bool false), ("raw", JSONValue.bool false)]⟩ =
      .ok ⟨307, Location.target "http://localhost:11434/v2/generate", "moved"⟩ ∧
    (generateHandler (testDB 0) testConfig (movedWorld 1) (testGenerate "valid-key")
      noRateLimits).resp =
      { Status := 200, ContentType := "application/json",
        Body := Body.raw "\x7b\"response\":\"ok\"\x7d" } ∧
    (generateHandler (testDB 0) testConfig (movedWorld 1) (testGenerate "valid-key")
      noRateLimits).trace.filter Event.isPost =
      [Event.Post "http://localhost:11434/api/generate" "application/json"
        [("model", JSONValue.str "test-model"), ("prompt", JSONValue.str "test prompt"),
          ("stream", JSONValue.bool false), ("raw", JSONValue.bool false)]] ∧
    httpRequests movedServer "http://localhost:11434/api/generate" "application/json"
        [("model", JSONValue.str "test-model"), ("prompt", JSONValue.str "test prompt"),
          ("stream", JSONValue.bool false), ("raw", JSONValue.bool false)] =
      [⟨"POST", "http://localhost:11434/api/generate",
          some [("model", JSONValue.str "test-model"), ("prompt", JSONValue.str "test prompt"),
            ("stream", JSONValue.bool false), ("raw", JSONValue.bool false)]⟩,
       ⟨"POST", "http://localhost:11434/v2/generate",
          some [("model", JSONValue.str "test-model"), ("prompt", JSONValue.str "test prompt"),
            ("stream", JSONValue.bool false), ("raw", JSONValue.bool false)]⟩] := by
  refine ⟨rfl, by decide, by decide, by decide⟩

/-- C10, amended: for every request that reaches `generateHandler` with a
decodable body, exactly one call of `http.Post` is made and the reply is
determined by its outcome alone: a returned response with status s and body
b, whatever s is, is relayed as status s with body exactly b, and an error
gives 500. The call attempts between one and ten requests upstream, the first
being the POST of the payload; when the first answer is not a redirect that
`http.Post` follows (any status other than 301, 302, 303, 307, 308, or no
`Location`), it is that answer which is relayed, after exactly one upstream
request; when the first attempt yields no response the reply is 500, after
exactly one attempt; when the first answer is a redirect with a `Location`,
a second request is attempted at that location; and the response relayed is
always the upstream's answer to the last request attempted. The store and the
quota map have no part in the reply. -/
theorem generate_relays_final_response (db : DBInterface) (cfg : Config) (w : World)
    (r : Request) (s : RateLimits) (req : GenerateRequest) (net : Network)
    (hd : w.json.decodeGenerateRequest r.Body = some req) (hnet : w.post = httpPost net) :
    ((generateHandler db cfg w r s).trace.filter Event.isPost).length = 1 ∧
    (∀ url contentType payload,
      Event.Post url contentType payload ∈ (generateHandler db cfg w r s).trace →
      (∀ up, httpPost net url contentType payload = .ok up →
        (generateHandler db cfg w r s).resp.Status = up.StatusCode ∧
        (generateHandler db cfg w r s).resp.Body = Body.raw up.Body) ∧
      (∀ e, httpPost net url contentType payload = .error e →
        (generateHandler db cfg w r s).resp.Status = StatusInternalServerError) ∧
      (1 ≤ (httpRequests net url contentType payload).length ∧
        (httpRequests net url contentType payload).length ≤ 10 ∧
        (httpRequests net url contentType payload).head? =
          some ⟨"POST", url, some payload⟩) ∧
      (∀ up, net ⟨"POST", url, some payload⟩ = .ok up →
        isRedirect up.StatusCode = false ∨ up.Location = Location.absent →
        (generateHandler db cfg w r s).resp.Status = up.StatusCode ∧
        (generateHandler db cfg w r s).resp.Body = Body.raw up.Body ∧
        httpRequests net url contentType payload = [⟨"POST", url, some payload⟩]) ∧
      (∀ e, net ⟨"POST", url, some payload⟩ = .error e →
        (generateHandler db cfg w r s).resp.Status = StatusInternalServerError ∧
        httpRequests net url contentType payload = [⟨"POST", url, some payload⟩]) ∧
      (∀ up url2, net ⟨"POST", url, some payload⟩ = .ok up →
        isRedirect up.StatusCode = true → up.Location = Location.target url2 →
        (httpRequests net url contentType payload)[1]? =
          some ⟨(redirectBehavior "POST" up.StatusCode).1, url2,
            if (redirectBehavior "POST" up.StatusCode).2.2 then some payload else none⟩) ∧
      (∀ up, httpPost net url contentType payload = .ok up →
        ∃ last resp, (httpRequests net url contentType payload).getLast? = some last ∧
          net last = .ok resp ∧
          (generateHandler db cfg w r s).resp.Status = resp.StatusCode ∧
          (generateHandler db cfg w r s).resp.Body = Body.raw resp.Body)) ∧
    ∀ (db2 : DBInterface) (s2 : RateLimits),
      (generateHandler db2 cfg w r s2).resp = (generateHandler db cfg w r s).resp := by
  have hreply : ∀ url contentType payload,
      Event.Post url contentType payload ∈ (generateHandler db cfg w r s).trace →
      (∀ up, httpPost net url contentType payload = .ok up →
        (generateHandler db cfg w r s).resp.Status = up.StatusCode ∧
        (generateHandler db cfg w r s).resp.Body = Body.raw up.Body) ∧
      (∀ e, httpPost net url contentType payload = .error e →
        (generateHandler db cfg w r s).resp.Status = StatusInternalServerError) := by
    intro url contentType payload hmem
    rw [generateHandler_decoded db cfg w r s req hd] at hmem ⊢
    rw [hnet] at hmem ⊢
    cases hpost : httpPost net (cfg.OllamaURL ++ "/api/generate") "application/json"
        ([("model", JSONValue.str req.Model), ("prompt", JSONValue.str req.Prompt),
          ("stream", JSONValue.bool req.Stream)] ++
         (if req.Images.isEmpty then [] else [("images", JSONValue.strs req.Images)]) ++
         [("raw", JSONValue.bool req.Raw)]) with
    | error e =>
      rw [hpost] at hmem
      simp only [List.mem_singleton, Event.Post.injEq] at hmem
      obtain ⟨rfl, rfl, rfl⟩ := hmem
      refine ⟨fun up hup => ?_, fun _ _ => rfl⟩
      rw [hpost] at hup
      exact Except.noConfusion hup
    | ok up0 =>
      rw [hpost] at hmem
      simp only [List.mem_cons, Event.Post.injEq, List.mem_singleton, reduceCtorEq, or_false,
        List.not_mem_nil] at hmem
      obtain ⟨rfl, rfl, rfl⟩ := hmem
      refine ⟨fun up hup => ?_, fun e he => ?_⟩
      · rw [hpost] at hup
        simp only [Except.ok.injEq] at hup
        subst hup
        exact ⟨rfl, rfl⟩
      · rw [hpost] at he
        exact Except.noConfusion he
  refine ⟨?_, ?_, ?_⟩
  · rw [generateHandler_decoded db cfg w r s req hd]
    cases w.post _ _ _ <;> simp [List.filter, Event.isPost]
  · intro url contentType payload hmem
    obtain ⟨hok, herr⟩ := hreply url contentType payload hmem
    refine ⟨hok, herr, ⟨?_, ?_, ?_⟩, ?_, ?_, ?_, ?_⟩
    · have h := clientDo_head net payload 9 ⟨"POST", url, some payload⟩
      unfold httpRequests
      cases hl : (clientDo net payload 10 ⟨"POST", url, some payload⟩).1 with
      | nil => rw [hl] at h; exact Option.noConfusion h
      | cons a l => simp
    · exact clientDo_length_le net payload 10 _
    · exact clientDo_head net payload 9 _
    · intro up hup hfinal
      have h := clientDo_final net payload 9 _ up hup hfinal
      have h1 : httpPost net url contentType payload = .ok ⟨up.StatusCode, up.Body⟩ := by
        unfold httpPost; rw [h]
      have h2 : httpRequests net url contentType payload = [⟨"POST", url, some payload⟩] := by
        unfold httpRequests; rw [h]
      exact ⟨(hok _ h1).1, (hok _ h1).2, h2⟩
    · intro e he
      have h := clientDo_error net payload 9 _ e he
      have h1 : httpPost net url contentType payload = .error e := by
        unfold httpPost; rw [h]
      have h2 : httpRequests net url contentType payload = [⟨"POST", url, some payload⟩] := by
        unfold httpRequests; rw [h]
      exact ⟨herr _ h1, h2⟩
    · intro up url2 hup hred hloc
      have h := clientDo_redirect net payload 9 _ up url2 hup hred hloc
      unfold httpRequests
      rw [h]
      simp only [List.getElem?_cons_succ]
      rw [← List.head?_eq_getElem?]
      exact clientDo_head net payload 8 _
    · intro up hup
      obtain ⟨last, resp, h1, h2, h3⟩ := clientDo_last net payload 10 _ up hup
      refine ⟨last, resp, h1, h2, ?_⟩
      have h4 := hok up hup
      rw [h3] at h4
      exact h4
  · intro db2 s2
    rw [generateHandler_decoded db cfg w r s req hd, generateHandler_decoded db2 cfg w r s2 req hd]
    cases w.post _ _ _ <;> rfl

/-- An upstream that answers 503 with the body `{"error":"down"}`: the reply
is 503 with that exact body, after one upstream request. -/
theorem generate_relays_final_response_witness :
    (generateHandler (testDB 0) testConfig (downWorld 1) (testGenerate "valid-key")
      noRateLimits).resp.Status = 503 ∧
    (generateHandler (testDB 0) testConfig (downWorld 1) (testGenerate "valid-key")
      noRateLimits).resp.Body = Body.raw "\x7b\"error\":\"down\"\x7d" ∧
    httpRequests downServer "http://localhost:11434/api/generate" "application/json"
        [("model", JSONValue.str "test-model"), ("prompt", JSONValue.str "test prompt"),
         ("stream", JSONValue.bool false), ("raw", JSONValue.bool false)] =
      [⟨"POST", "http://localhost:11434/api/generate",
        some [("model", JSONValue.str "test-model"), ("prompt", JSONValue.str "test prompt"),
         ("stream", JSONValue.bool false), ("raw", JSONValue.bool false)]⟩] :=
  ((generate_relays_final_response (testDB 0) testConfig (downWorld 1)
    (testGenerate "valid-key") noRateLimits
    ⟨"test-model", "test prompt", false, [], false, "valid-key"⟩ downServer (by decide) rfl).2.1
    "http://localhost:11434/api/generate" "application/json"
    [("model", JSONValue.str "test-model"), ("prompt", JSONValue.str "test prompt"),
     ("stream", JSONValue.bool false), ("raw", JSONValue.bool false)]
    (by decide)).2.2.2.1 ⟨503, Location.absent, "\x7b\"error\":\"down\"\x7d"⟩ rfl (Or.inl rfl)

/-! ## C12: the balance stays within `0 .. rateLimit` -/

/-- The reset keeps an entry within its bounds. -/
theorem refill_within (now : Int) (info : RateLimitInfo)
    (h : 0 < info.RateLimit ∧ 0 ≤ info.Tokens ∧ info.Tokens ≤ info.RateLimit) :
    0 ≤ (refill now info).Tokens ∧ (refill now info).Tokens ≤ info.RateLimit := by
  unfold refill
  split_ifs
  · exact ⟨le_of_lt h.1, le_refl _⟩
  · exact ⟨h.2.1, h.2.2⟩

/-- The entry the quota check starts from is within the bounds when the map
and the record are. -/
theorem entryFor_within (cap : String → Int) (s : RateLimits) (key : String) (apiKey : APIKey)
    (hs : quotaWithin cap s)
    (hr : apiKey.RateLimit = cap key ∧ 0 < apiKey.RateLimit ∧
      0 ≤ apiKey.Tokens ∧ apiKey.Tokens ≤ apiKey.RateLimit) :
    (entryFor s key apiKey).RateLimit = cap key ∧ 0 < (entryFor s key apiKey).RateLimit ∧
    0 ≤ (entryFor s key apiKey).Tokens ∧
    (entryFor s key apiKey).Tokens ≤ (entryFor s key apiKey).RateLimit := by
  cases h : s key with
  | none => simpa [entryFor, h] using hr
  | some info => simpa [entryFor, h] using hs key info h

/-- Writing an entry within the bounds keeps the map within the bounds. -/
theorem quotaWithin_update (cap : String → Int) (s : RateLimits) (key : String)
    (info : RateLimitInfo) (hs : quotaWithin cap s)
    (hi : info.RateLimit = cap key ∧ 0 < info.RateLimit ∧
      0 ≤ info.Tokens ∧ info.Tokens ≤ info.RateLimit) :
    quotaWithin cap (Function.update s key (some info)) := by
  intro k e he
  by_cases hk : k = key
  · subst hk
    simp only [Function.update_same, Option.some.injEq] at he
    subst he
    exact hi
  · rw [Function.update_noteq hk] at he
    exact hs k e he

/-- One request through the `/generate` chain keeps the map within the bounds
and persists only values between 0 and the credential's `rateLimit`. -/
theorem generateRoute_within (cap : String → Int) (db : DBInterface) (cfg : Config) (w : World)
    (r : Request) (s : RateLimits) (hp : r.Path ≠ "/health") (hs : quotaWithin cap s)
    (hdb : recordsWithin cap db) :
    quotaWithin cap (generateRoute db cfg w r s).rateLimits ∧
    ∀ key v, Event.UpdateAPIKeyUsage key v ∈ (generateRoute db cfg w r s).trace →
      0 ≤ v ∧ v ≤ cap key := by
  cases hd : w.json.decodeAPIKey r.Body with
  | none => simpa [generateRoute, rateLimitMiddleware, hp, hd] using hs
  | some k =>
    by_cases hk : k = ""
    · simpa [generateRoute, rateLimitMiddleware, hp, hd, hk] using hs
    · cases hl : db.GetAPIKey k with
      | error e => simpa [generateRoute, rateLimitMiddleware, hp, hd, hk, hl] using hs
      | ok o =>
        cases o with
        | none => simpa [generateRoute, rateLimitMiddleware, hp, hd, hk, hl] using hs
        | some apiKey =>
          cases ha : apiKey.Active with
          | false => simpa [generateRoute, rateLimitMiddleware, hp, hd, hk, hl, ha] using hs
          | true =>
            have he := entryFor_within cap s k apiKey hs (hdb k apiKey hl)
            have hf := refill_within w.now (entryFor s k apiKey) ⟨he.2.1, he.2.2⟩
            have hc := (refill_LastUsed w.now (entryFor s k apiKey)).2
            by_cases ht : (refill w.now (entryFor s k apiKey)).Tokens > 0
            · obtain ⟨_, hstate, htrace, _⟩ :=
                generateRoute_allow db cfg w r s k apiKey hp hd hk hl ha ht
              refine ⟨?_, ?_⟩
              · rw [hstate]
                refine quotaWithin_update cap s k _ hs ⟨?_, ?_, ?_, ?_⟩
                · simp only []; rw [hc]; exact he.1
                · simp only []; rw [hc]; exact he.2.1
                · simp only []; omega
                · simp only []; rw [hc]; omega
              · intro key v hmem
                have hmem1 : Event.UpdateAPIKeyUsage key v ∈
                    (generateRoute db cfg w r s).trace.filter Event.isUpdateAPIKeyUsage :=
                  List.mem_filter.mpr ⟨hmem, rfl⟩
                rw [htrace] at hmem1
                simp only [List.mem_singleton, Event.UpdateAPIKeyUsage.injEq] at hmem1
                obtain ⟨rfl, rfl⟩ := hmem1
                rw [← he.1]
                omega
            · unfold generateRoute
              rw [rateLimitMiddleware_reject _ db w r s k apiKey hp hd hk hl ha ht]
              refine ⟨?_, ?_⟩
              · refine quotaWithin_update cap s k _ hs ⟨?_, ?_, hf.1, ?_⟩
                · rw [hc]; exact he.1
                · rw [hc]; exact he.2.1
                · rw [hc]; exact hf.2
              · intro key v hmem
                simp at hmem

/-- One request through the router keeps the map within the bounds and
persists only values between 0 and the credential's `rateLimit`. -/
theorem SetupRoutes_within (cap : String → Int) (unmatched : Request → Response)
    (db : DBInterface) (cfg : Config) (w : World) (r : Request) (s : RateLimits)
    (hs : quotaWithin cap s) (hdb : recordsWithin cap db) :
    quotaWithin cap (SetupRoutes unmatched db cfg w r s).rateLimits ∧
    ∀ key v, Event.UpdateAPIKeyUsage key v ∈ (SetupRoutes unmatched db cfg w r s).trace →
      0 ≤ v ∧ v ≤ cap key := by
  unfold SetupRoutes
  split_ifs with h1 h2
  · obtain ⟨hst, htr⟩ := healthRoute_frame db w r s h1.1
    refine ⟨by rw [hst]; exact hs, ?_⟩
    intro key v hmem
    exfalso
    have : (healthRoute db w r s).trace.any Event.isUpdateAPIKeyUsage = true :=
      List.any_eq_true.mpr ⟨_, hmem, rfl⟩
    rw [htr] at this
    exact Bool.noConfusion this
  · exact generateRoute_within cap db cfg w r s (by rw [h2.1]; decide) hs hdb
  · exact ⟨hs, by intro key v hmem; simp at hmem⟩

/-- C12: the token balance is never negative. For credentials whose records
have rateLimit > 0 and 0 <= tokens <= rateLimit, every quota entry reachable
through any sequence of requests at any times satisfies
0 <= tokensRemaining <= capacity, and every value passed to
`UpdateAPIKeyUsage` is between 0 and the credential's rateLimit. -/
theorem tokens_never_negative (cap : String → Int) (unmatched : Request → Response)
    (cfg : Config) (as : List Arrival) (hdb : ∀ a ∈ as, recordsWithin cap a.db) :
    ∀ (s : RateLimits), quotaWithin cap s →
      ∀ res ∈ serveAll (fun db => SetupRoutes unmatched db cfg) s as,
        (∀ key info, res.rateLimits key = some info →
          0 ≤ info.Tokens ∧ info.Tokens ≤ info.RateLimit ∧ info.RateLimit = cap key) ∧
        (∀ key v, Event.UpdateAPIKeyUsage key v ∈ res.trace → 0 ≤ v ∧ v ≤ cap key) := by
  induction as with
  | nil => intro s _ res hres; simp [serveAll] at hres
  | cons a rest ih =>
    intro s hs res hres
    have h0 := SetupRoutes_within cap unmatched a.db cfg a.world a.req s hs
      (hdb a (List.mem_cons_self _ _))
    simp only [serveAll, List.mem_cons] at hres
    rcases hres with rfl | hres
    · refine ⟨fun key info hinfo => ?_, h0.2⟩
      have h := h0.1 key info hinfo
      exact ⟨h.2.2.1, h.2.2.2, h.1⟩
    · exact ih (fun b hb => hdb b (List.mem_cons_of_mem _ hb)) _ h0.1 res hres

/-- The records of the test store are within the bounds. -/
theorem testDB_recordsWithin (lastUsed : Int) : recordsWithin testCap (testDB lastUsed) := by
  intro key apiKey h
  by_cases h1 : key = "valid-key"
  · subst h1
    have e : (testDB lastUsed).GetAPIKey "valid-key" = .ok (some (validKey lastUsed)) := rfl
    rw [e] at h
    simp only [Except.ok.injEq, Option.some.injEq] at h
    subst h
    simp [validKey, testCap]
  · by_cases h2 : key = "inactive-key"
    · subst h2
      have e : (testDB lastUsed).GetAPIKey "inactive-key" =
          .ok (some (inactiveKey lastUsed)) := rfl
      rw [e] at h
      simp only [Except.ok.injEq, Option.some.injEq] at h
      subst h
      simp [inactiveKey, testCap]
    · exfalso
      have h3 : ¬ ("valid-key" = key) := fun e => h1 e.symm
      have h4 : ¬ ("inactive-key" = key) := fun e => h2 e.symm
      simp [testDB, mockDB, List.find?, h3, h4] at h

/-- A fresh process serving three `POST /generate` for `valid-key`, a health
check and a request without route. -/
theorem tokens_never_negative_witness :
    quotaWithin testCap noRateLimits ∧
    ∀ res ∈ serveAll (fun db => SetupRoutes notFound db testConfig) noRateLimits
        [testArrival 1000000000, testArrival 2000000000, testArrival 3000000000,
         ⟨testDB 0, testWorld 4000000000, testHealth "valid-key"⟩,
         ⟨testDB 0, testWorld 5000000000, ⟨"GET", "/", [], ""⟩⟩],
      (∀ key info, res.rateLimits key = some info →
        0 ≤ info.Tokens ∧ info.Tokens ≤ info.RateLimit ∧ info.RateLimit = testCap key) ∧
      (∀ key v, Event.UpdateAPIKeyUsage key v ∈ res.trace → 0 ≤ v ∧ v ≤ testCap key) :=
  ⟨fun key info h => by simp [noRateLimits] at h,
   tokens_never_negative testCap notFound testConfig
    [testArrival 1000000000, testArrival 2000000000, testArrival 3000000000,
     ⟨testDB 0, testWorld 4000000000, testHealth "valid-key"⟩,
     ⟨testDB 0, testWorld 5000000000, ⟨"GET", "/", [], ""⟩⟩]
    (by
      intro a ha
      simp only [List.mem_cons, List.mem_singleton, List.not_mem_nil, or_false] at ha
      rcases ha with rfl | rfl | rfl | rfl | rfl <;> exact testDB_recordsWithin 0)
    noRateLimits (fun key info h => by simp [noRateLimits] at h)⟩

/-! ## C13: the charge precedes the upstream call and is never refunded -/

/-- The reply of the proxy depends on the decoder and on the upstream alone,
not on the store or the quota map. -/
theorem generateHandler_resp_congr (db db2 : DBInterface) (cfg : Config) (w w2 : World)
    (r : Request) (s s2 : RateLimits) (hj : w2.json = w.json) (hpost : w2.post = w.post) :
    (generateHandler db2 cfg w2 r s2).resp = (generateHandler db cfg w r s).resp := by
  simp only [generateHandler, OllamaReq.marshal, hj, hpost]
  cases w.json.decodeGenerateRequest r.Body with
  | none => rfl
  | some req =>
    dsimp only
    cases w.post _ _ _ <;> rfl

/-- C13: the quota decrement happens strictly before the upstream call and is
never refunded. For every allowed `POST /generate`, the proxy runs on the map
already charged (tokensRemaining one lower, lastUsed = request time), the
persistence call precedes every upstream call, and the map afterwards is the
same whatever the upstream call does (a response of any status, or no
response) and whether or not `UpdateAPIKeyUsage` fails; a persistence failure
never changes the reply. -/
theorem charge_precedes_upstream_never_refunded (db : DBInterface) (cfg : Config) (w : World)
    (r : Request) (s : RateLimits) (_hm : r.Method = "POST") (hp : r.Path = "/generate")
    (hallow : (generateRoute db cfg w r s).allowed = true) :
    ∃ key apiKey info, w.json.decodeAPIKey r.Body = some key ∧
      db.GetAPIKey key = .ok (some apiKey) ∧
      info = refill w.now (entryFor s key apiKey) ∧ 0 < info.Tokens ∧
      (generateRoute db cfg w r s).rateLimits =
        Function.update s key (some ⟨info.Tokens - 1, w.now, info.RateLimit⟩) ∧
      (generateRoute db cfg w r s).trace =
        Event.GetAPIKey key :: Event.UpdateAPIKeyUsage key (info.Tokens - 1) ::
          Event.ServeNext (resetBody r key) ::
          (generateHandler db cfg w (resetBody r key)
            (Function.update s key (some ⟨info.Tokens - 1, w.now, info.RateLimit⟩))).trace ∧
      ∀ (db2 : DBInterface) (w2 : World), db2.GetAPIKey = db.GetAPIKey →
        w2.json = w.json → w2.now = w.now →
        (generateRoute db2 cfg w2 r s).allowed = true ∧
        (generateRoute db2 cfg w2 r s).rateLimits = (generateRoute db cfg w r s).rateLimits ∧
        (w2.post = w.post →
          (generateRoute db2 cfg w2 r s).resp = (generateRoute db cfg w r s).resp) := by
  have hp1 : r.Path ≠ "/health" := by rw [hp]; decide
  cases hd : w.json.decodeAPIKey r.Body with
  | none =>
    exfalso
    simp [generateRoute, rateLimitMiddleware, hp1, hd, Result.allowed] at hallow
  | some key =>
    by_cases hk : key = ""
    · exfalso
      simp [generateRoute, rateLimitMiddleware, hp1, hd, hk, Result.allowed] at hallow
    · cases hl : db.GetAPIKey key with
      | error e =>
        exfalso
        simp [generateRoute, rateLimitMiddleware, hp1, hd, hk, hl, Result.allowed,
          Event.isServeNext] at hallow
      | ok o =>
        cases o with
        | none =>
          exfalso
          simp [generateRoute, rateLimitMiddleware, hp1, hd, hk, hl, Result.allowed,
            Event.isServeNext] at hallow
        | some apiKey =>
          cases ha : apiKey.Active with
          | false =>
            exfalso
            simp [generateRoute, rateLimitMiddleware, hp1, hd, hk, hl, ha, Result.allowed,
              Event.isServeNext] at hallow
          | true =>
            by_cases ht : (refill w.now (entryFor s key apiKey)).Tokens > 0
            · obtain ⟨_, hstate, _, hresp⟩ :=
                generateRoute_allow db cfg w r s key apiKey hp1 hd hk hl ha ht
              refine ⟨key, apiKey, refill w.now (entryFor s key apiKey), rfl, hl, rfl, ht,
                hstate, ?_, ?_⟩
              · unfold generateRoute
                rw [rateLimitMiddleware_authenticated _ db w r s key apiKey hp1 hd hk hl ha,
                  if_pos ht]
              · intro db2 w2 hdb hj hnow
                have hd2 : w2.json.decodeAPIKey r.Body = some key := by rw [hj]; exact hd
                have hl2 : db2.GetAPIKey key = .ok (some apiKey) := by rw [hdb]; exact hl
                have ht2 : (refill w2.now (entryFor s key apiKey)).Tokens > 0 := by
                  rw [hnow]; exact ht
                obtain ⟨hallow2, hstate2, _, hresp2⟩ :=
                  generateRoute_allow db2 cfg w2 r s key apiKey hp1 hd2 hk hl2 ha ht2
                refine ⟨hallow2, ?_, ?_⟩
                · rw [hstate2, hstate, hnow]
                · intro hpost
                  rw [hresp2, hresp]
                  exact generateHandler_resp_congr db db2 cfg w w2 _ s s hj hpost
            · exfalso
              unfold generateRoute at hallow
              rw [rateLimitMiddleware_reject _ db w r s key apiKey hp1 hd hk hl ha ht] at hallow
              simp [Result.allowed, Event.isGetAPIKey, Event.isServeNext] at hallow

/-- The first request of the tests for `valid-key`: charged before the
proxy runs, whatever the store writes and the upstream do. -/
theorem charge_precedes_upstream_never_refunded_witness :
    ∃ key apiKey info, (testWorld 1).json.decodeAPIKey (testGenerate "valid-key").Body = some key ∧
      (testDB 0).GetAPIKey key = .ok (some apiKey) ∧
      info = refill (testWorld 1).now (entryFor noRateLimits key apiKey) ∧ 0 < info.Tokens ∧
      (generateRoute (testDB 0) testConfig (testWorld 1) (testGenerate "valid-key")
        noRateLimits).rateLimits =
        Function.update noRateLimits key
          (some ⟨info.Tokens - 1, (testWorld 1).now, info.RateLimit⟩) ∧
      (generateRoute (testDB 0) testConfig (testWorld 1) (testGenerate "valid-key")
        noRateLimits).trace =
        Event.GetAPIKey key :: Event.UpdateAPIKeyUsage key (info.Tokens - 1) ::
          Event.ServeNext (resetBody (testGenerate "valid-key") key) ::
          (generateHandler (testDB 0) testConfig (testWorld 1)
            (resetBody (testGenerate "valid-key") key)
            (Function.update noRateLimits key
              (some ⟨info.Tokens - 1, (testWorld 1).now, info.RateLimit⟩))).trace ∧
      ∀ (db2 : DBInterface) (w2 : World), db2.GetAPIKey = (testDB 0).GetAPIKey →
        w2.json = (testWorld 1).json → w2.now = (testWorld 1).now →
        (generateRoute db2 testConfig w2 (testGenerate "valid-key") noRateLimits).allowed = true ∧
        (generateRoute db2 testConfig w2 (testGenerate "valid-key") noRateLimits).rateLimits =
          (generateRoute (testDB 0) testConfig (testWorld 1) (testGenerate "valid-key")
            noRateLimits).rateLimits ∧
        (w2.post = (testWorld 1).post →
          (generateRoute db2 testConfig w2 (testGenerate "valid-key") noRateLimits).resp =
            (generateRoute (testDB 0) testConfig (testWorld 1) (testGenerate "valid-key")
              noRateLimits).resp) :=
  charge_precedes_upstream_never_refunded (testDB 0) testConfig (testWorld 1)
    (testGenerate "valid-key") noRateLimits rfl rfl (by decide)

/-! ## C11: simultaneous requests under `rateMutex` -/

/-- Reading a list after one position was overwritten. -/
theorem getElem?_set_cases {α : Type} (l : List α) (i j : Nat) (x y : α)
    (h : (l.set i x)[j]? = some y) : (j = i ∧ y = x) ∨ (j ≠ i ∧ l[j]? = some y) := by
  rw [List.getElem?_set] at h
  by_cases h1 : i = j
  · rw [if_pos h1] at h
    by_cases h2 : i < l.length
    · rw [if_pos h2] at h
      exact Or.inl ⟨h1.symm, (Option.some.inj h).symm⟩
    · rw [if_neg h2] at h
      exact Option.noConfusion h
  · rw [if_neg h1] at h
    exact Or.inr ⟨fun e => h1 e.symm, h⟩

/-- The overwritten position holds the new value. -/
theorem getElem?_set_self_of_some {α : Type} (l : List α) (i : Nat) (x y : α)
    (h : l[i]? = some x) : (l.set i y)[i]? = some y := by
  have hlt : i < l.length := by
    rcases Nat.lt_or_ge i l.length with h1 | h1
    · exact h1
    · rw [List.getElem?_eq_none h1] at h
      exact Option.noConfusion h
  rw [List.getElem?_set]
  simp [hlt]

/-- Counting after one position was overwritten. -/
theorem countP_set_add {α : Type} (p : α → Bool) :
    ∀ (l : List α) (i : Nat) (x y : α), l[i]? = some x →
      (l.set i y).countP p + (if p x = true then 1 else 0) =
        l.countP p + (if p y = true then 1 else 0) := by
  intro l
  induction l with
  | nil => intro i x y h; simp at h
  | cons a rest ih =>
    intro i x y h
    cases i with
    | zero =>
      simp only [List.getElem?_cons_zero, Option.some.injEq] at h
      subst h
      simp only [List.set_cons_zero, List.countP_cons]
      omega
    | succ n =>
      simp only [List.getElem?_cons_succ] at h
      have := ih n x y h
      simp only [List.set_cons_succ, List.countP_cons]
      omega

/-- Summing after one position was overwritten. -/
theorem sum_map_set_add {α : Type} (f : α → Nat) :
    ∀ (l : List α) (i : Nat) (x y : α), l[i]? = some x →
      ((l.set i y).map f).sum + f x = (l.map f).sum + f y := by
  intro l
  induction l with
  | nil => intro i x y h; simp at h
  | cons a rest ih =>
    intro i x y h
    cases i with
    | zero =>
      simp only [List.getElem?_cons_zero, Option.some.injEq] at h
      subst h
      simp only [List.set_cons_zero, List.map_cons, List.sum_cons]
      omega
    | succ n =>
      simp only [List.getElem?_cons_succ] at h
      have := ih n x y h
      simp only [List.set_cons_succ, List.map_cons, List.sum_cons]
      omega

/-- A member of a list sits at some position. -/
theorem exists_getElem?_of_mem {α : Type} (l : List α) (x : α) (h : x ∈ l) :
    ∃ j : Nat, l[j]? = some x := by
  have h1 : ∃ j : Nat, l[j]? = some x := List.mem_iff_getElem?.mp h
  exact h1

/-- What sits at a position is a member. -/
theorem mem_of_getElem?_eq {α : Type} (l : List α) (j : Nat) (x : α) (h : l[j]? = some x) :
    x ∈ l := by
  exact List.mem_iff_getElem?.mpr ⟨j, h⟩

/-- A position of the overwritten list goes back to one of the list with the
same remembered balance. -/
theorem seen_of_set (pcs : List PC) (i a : Nat) (x y p : PC) (hx : pcs[i]? = some x)
    (hseen : x.seen? = y.seen?) (h : (pcs.set i y)[a]? = some p) :
    ∃ p0, pcs[a]? = some p0 ∧ p0.seen? = p.seen? := by
  rcases getElem?_set_cases pcs i a y p h with ⟨rfl, rfl⟩ | ⟨_, h1⟩
  · exact ⟨x, hx, hseen⟩
  · exact ⟨p, h1, rfl⟩


/-- What sits at another position stays in the overwritten list. -/
theorem mem_set_of_ne {α : Type} (l : List α) (i j : Nat) (p y : α) (h : l[j]? = some p)
    (hne : j ≠ i) : p ∈ l.set i y := by
  refine mem_of_getElem?_eq (l.set i y) j p ?_
  rw [List.getElem?_set, if_neg (fun e => hne e.symm)]
  exact h

/-- The new value is in the overwritten list. -/
theorem mem_set_self {α : Type} (l : List α) (i : Nat) (x y : α) (h : l[i]? = some x) :
    y ∈ l.set i y :=
  mem_of_getElem?_eq (l.set i y) i y (getElem?_set_self_of_some l i x y h)

/-- Mutual exclusion is kept by a move that stays on its side of the locked
section, by `Lock()` on a free mutex, and by `Unlock()`. -/
theorem mutex_move {key : String} {N : Nat} {s : RateLimits} {reqs : List Entrant} {c : Conc}
    (hinv : Inv key N s reqs c) (i : Nat) (x y : PC) (holder1 : Option Nat)
    (hx : c.pcs[i]? = some x)
    (hmutex : (holder1 = c.holder ∧ x.inCS = y.inCS) ∨
      (c.holder = none ∧ holder1 = some i ∧ y.inCS = true) ∨
      (holder1 = none ∧ x.inCS = true ∧ y.inCS = false)) :
    (∀ j, holder1 = some j → ∃ pc, (c.pcs.set i y)[j]? = some pc ∧ pc.inCS = true) ∧
    (∀ j pc, (c.pcs.set i y)[j]? = some pc → pc.inCS = true → holder1 = some j) := by
  have hset : (c.pcs.set i y)[i]? = some y := getElem?_set_self_of_some c.pcs i x y hx
  refine ⟨?_, ?_⟩
  · intro j hj
    rcases hmutex with ⟨h1, h2⟩ | ⟨_, h1, h2⟩ | ⟨h1, _, _⟩
    · rw [h1] at hj
      obtain ⟨pc, hpc, hcs⟩ := hinv.held j hj
      by_cases hji : j = i
      · subst hji
        rw [hx] at hpc
        simp only [Option.some.injEq] at hpc
        subst hpc
        exact ⟨y, hset, by rw [← h2]; exact hcs⟩
      · refine ⟨pc, ?_, hcs⟩
        rw [List.getElem?_set, if_neg (fun e => hji e.symm)]
        exact hpc
    · rw [h1] at hj
      simp only [Option.some.injEq] at hj
      subst hj
      exact ⟨y, hset, h2⟩
    · rw [h1] at hj
      exact Option.noConfusion hj
  · intro j pc hj hcs
    rcases getElem?_set_cases c.pcs i j y pc hj with ⟨rfl, rfl⟩ | ⟨hne, hold⟩
    · rcases hmutex with ⟨h1, h2⟩ | ⟨_, h1, _⟩ | ⟨_, _, h3⟩
      · rw [h1]
        exact hinv.excl j x hx (by rw [h2]; exact hcs)
      · exact h1
      · rw [h3] at hcs
        exact Bool.noConfusion hcs
    · have hj1 := hinv.excl j pc hold hcs
      rcases hmutex with ⟨h1, _⟩ | ⟨h0, _, _⟩ | ⟨_, h2, _⟩
      · rw [h1]; exact hj1
      · rw [h0] at hj1
        exact Option.noConfusion hj1
      · have hi1 := hinv.excl i x hx h2
        rw [hi1] at hj1
        simp only [Option.some.injEq] at hj1
        exact absurd hj1.symm hne

/-- The remembered balances stay pairwise distinct under a move that keeps
the balance its goroutine remembers. -/
theorem distinct_move {key : String} {N : Nat} {s : RateLimits} {reqs : List Entrant}
    {c : Conc} (hinv : Inv key N s reqs c) (i : Nat) (x y : PC) (hx : c.pcs[i]? = some x)
    (hseen : x.seen? = y.seen?) :
    ∀ (a b : Nat) (p q : PC) (v : Int), a ≠ b → (c.pcs.set i y)[a]? = some p →
      (c.pcs.set i y)[b]? = some q → p.seen? = some v → q.seen? = some v → False := by
  intro a b p q v hab ha hb hp hq
  obtain ⟨p0, hp0, hp1⟩ := seen_of_set c.pcs i a x y p hx hseen ha
  obtain ⟨q0, hq0, hq1⟩ := seen_of_set c.pcs i b x y q hx hseen hb
  exact hinv.distinct a b p0 q0 v hab hp0 hq0 (by rw [hp1]; exact hp) (by rw [hq1]; exact hq)

/-- The charged goroutines and the balances they remember stay as they are
under a move that changes neither for its goroutine. -/
theorem covered_move (pcs : List PC) (i : Nat) (x y : PC) (hx : pcs[i]? = some x)
    (hch : x.charged = true → y.charged = true ∧ x.seen? = y.seen?) (v : Int)
    (h : ∃ pc ∈ pcs, pc.charged = true ∧ pc.seen? = some v) :
    ∃ pc ∈ pcs.set i y, pc.charged = true ∧ pc.seen? = some v := by
  obtain ⟨pc, hmem, hc, hs⟩ := h
  obtain ⟨j, hj⟩ := exists_getElem?_of_mem pcs pc hmem
  by_cases hji : j = i
  · subst hji
    rw [hx] at hj
    simp only [Option.some.injEq] at hj
    subst hj
    obtain ⟨h1, h2⟩ := hch hc
    exact ⟨y, mem_set_self pcs j x y hx, h1, by rw [← h2]; exact hs⟩
  · exact ⟨pc, mem_set_of_ne pcs i j pc y hj hji, hc, hs⟩

/-- A goroutine moves from `x` to `y` without touching the quota map: the
invariant is kept when the move changes neither the counts nor the remembered
balance, takes or releases the mutex as its position requires, and writes the
row only once the entry exists, leaving it active. A move into the rejected
side is allowed on an empty balance. -/
theorem inv_move {key : String} {N : Nat} {s : RateLimits} {reqs : List Entrant} {c : Conc}
    (hinv : Inv key N s reqs c) (i : Nat) (x y : PC) (holder1 : Option Nat)
    (store1 : Option APIKey) (log1 : List (Nat × Action))
    (hx : c.pcs[i]? = some x)
    (hmutex : (holder1 = c.holder ∧ x.inCS = y.inCS) ∨
      (c.holder = none ∧ holder1 = some i ∧ y.inCS = true) ∨
      (holder1 = none ∧ x.inCS = true ∧ y.inCS = false))
    (hstore : store1 = c.store ∨
      ((∃ e, c.rateLimits key = some e) ∧ ∃ a, store1 = some a ∧ a.Active = true))
    (hch : x.charged = y.charged)
    (hta : x.turnedAway = y.turnedAway ∨ ∀ e, c.rateLimits key = some e → e.Tokens = 0)
    (hseen : x.seen? = y.seen?) (hchg : ∀ v, y ≠ PC.atCharge v)
    (hden : y.denying = false)
    (htok : ∀ t, y.tokens? = some t → 0 ≤ t ∧ t < (N : Int))
    (hfresh : c.rateLimits key = none →
      y.early = true ∧ ∀ a, y.record? = some a → a.Tokens = N ∧ a.RateLimit = N) :
    Inv key N s reqs ⟨c.rateLimits, holder1, store1, log1, c.pcs.set i y⟩ := by
  have hcc : (c.pcs.set i y).countP PC.charged = c.pcs.countP PC.charged := by
    have h := countP_set_add PC.charged c.pcs i x y hx
    rw [hch] at h
    omega
  obtain ⟨hheld, hexcl⟩ := mutex_move hinv i x y holder1 hx hmutex
  refine
    { len := ?_, held := hheld, excl := hexcl, frame := hinv.frame, active := ?_, noDeny := ?_,
      fresh := ?_, entry := ?_, seenCharge := ?_, seenAbove := ?_, seenLe := ?_,
      covered := ?_, tokens := ?_, distinct := distinct_move hinv i x y hx hseen }
  · simp only [List.length_set]
    exact hinv.len
  · rcases hstore with h | ⟨_, h⟩
    · rw [h]; exact hinv.active
    · exact h
  · intro pc hpc
    rcases List.mem_or_eq_of_mem_set hpc with h | rfl
    · exact hinv.noDeny pc h
    · exact hden
  · intro hnone
    simp only [] at hnone ⊢
    obtain ⟨h1, h2, h3⟩ := hinv.fresh hnone
    have hst : store1 = c.store := by
      rcases hstore with h | ⟨⟨e, he⟩, _⟩
      · exact h
      · rw [hnone] at he
        exact Option.noConfusion he
    refine ⟨fun pc hpc => ?_, by rw [hst]; exact h2, fun pc hpc => ?_⟩
    · rcases List.mem_or_eq_of_mem_set hpc with h | rfl
      · exact h1 pc h
      · exact (hfresh hnone).1
    · rcases List.mem_or_eq_of_mem_set hpc with h | rfl
      · exact h3 pc h
      · exact (hfresh hnone).2
  · intro e he
    simp only [] at he ⊢
    rw [hcc]
    obtain ⟨h1, h2, h3, h4, h5⟩ := hinv.entry e he
    refine ⟨h1, h2, h3, ?_, h5⟩
    rcases hta with hta | hta
    · have h := countP_set_add PC.turnedAway c.pcs i x y hx
      rw [hta] at h
      have hct : (c.pcs.set i y).countP PC.turnedAway = c.pcs.countP PC.turnedAway := by omega
      rw [hct]
      exact h4
    · exact fun _ => hta e he
  · intro e v he hmem
    simp only [] at he hmem
    rcases List.mem_or_eq_of_mem_set hmem with h | h
    · exact hinv.seenCharge e v he h
    · exact absurd h.symm (hchg v)
  · intro e pc v he hmem hc hs
    simp only [] at he hmem
    rcases List.mem_or_eq_of_mem_set hmem with h | rfl
    · exact hinv.seenAbove e pc v he h hc hs
    · exact hinv.seenAbove e x v he (mem_of_getElem?_eq c.pcs i x hx) (by rw [hch]; exact hc)
        (by rw [hseen]; exact hs)
  · intro pc hmem v hs
    simp only [] at hmem
    rcases List.mem_or_eq_of_mem_set hmem with h | rfl
    · exact hinv.seenLe pc h v hs
    · exact hinv.seenLe x (mem_of_getElem?_eq c.pcs i x hx) v (by rw [hseen]; exact hs)
  · intro e v he hlt hle
    simp only [] at he ⊢
    exact covered_move c.pcs i x y hx (fun h => ⟨by rw [← hch]; exact h, hseen⟩) v
      (hinv.covered e v he hlt hle)
  · intro pc hmem t ht
    simp only [] at hmem
    rcases List.mem_or_eq_of_mem_set hmem with h | rfl
    · exact hinv.tokens pc h t ht
    · exact htok t ht

/-- Up to line 97 a goroutine has charged nothing, was not turned away, and
remembers no balance and no value for the store. -/
theorem early_facts (pc : PC) (h : pc.early = true ∨ pc = PC.atReset) :
    pc.charged = false ∧ pc.turnedAway = false ∧ pc.seen? = none ∧ pc.tokens? = none := by
  rcases h with h | h
  · cases pc <;> first | exact Bool.noConfusion h | exact ⟨rfl, rfl, rfl, rfl⟩
  · subst h
    exact ⟨rfl, rfl, rfl, rfl⟩

/-- The first goroutine to reach line 82 creates the entry from its record:
the invariant holds of the full balance. -/
theorem inv_create {key : String} {N : Nat} {s : RateLimits} {reqs : List Entrant} {c : Conc}
    (hinv : Inv key N s reqs c) (i : Nat) (apiKey : APIKey)
    (hx : c.pcs[i]? = some (PC.atLookup apiKey)) (hnone : c.rateLimits key = none) :
    Inv key N s reqs ⟨Function.update c.rateLimits key (some
      { Tokens := apiKey.Tokens, LastUsed := apiKey.LastUsed,
        RateLimit := apiKey.RateLimit }), c.holder, c.store, c.log,
      c.pcs.set i PC.atReset⟩ := by
  obtain ⟨hpcs, _, hrecs⟩ := hinv.fresh hnone
  have hrec := hrecs _ (mem_of_getElem?_eq c.pcs i _ hx) apiKey rfl
  have hall : ∀ pc ∈ c.pcs.set i PC.atReset, pc.early = true ∨ pc = PC.atReset := by
    intro pc hpc
    rcases List.mem_or_eq_of_mem_set hpc with h | h
    · exact Or.inl (hpcs pc h)
    · exact Or.inr h
  have hc0 : (c.pcs.set i PC.atReset).countP PC.charged = 0 := by
    rw [List.countP_eq_zero]
    intro pc hpc
    rw [(early_facts pc (hall pc hpc)).1]
    exact Bool.false_ne_true
  have ht0 : (c.pcs.set i PC.atReset).countP PC.turnedAway = 0 := by
    rw [List.countP_eq_zero]
    intro pc hpc
    rw [(early_facts pc (hall pc hpc)).2.1]
    exact Bool.false_ne_true
  have hseen0 : ∀ pc ∈ c.pcs.set i PC.atReset, pc.seen? = none :=
    fun pc hpc => (early_facts pc (hall pc hpc)).2.2.1
  obtain ⟨hheld, hexcl⟩ := mutex_move hinv i (PC.atLookup apiKey) PC.atReset c.holder hx
    (Or.inl ⟨rfl, rfl⟩)
  refine
    { len := ?_, held := hheld, excl := hexcl, frame := ?_, active := hinv.active, noDeny := ?_,
      fresh := ?_, entry := ?_, seenCharge := ?_, seenAbove := ?_, seenLe := ?_,
      covered := ?_, tokens := ?_, distinct := ?_ }
  · simp only [List.length_set]
    exact hinv.len
  · intro key2 hk
    simp only [Function.update_noteq hk]
    exact hinv.frame key2 hk
  · intro pc hpc
    rcases List.mem_or_eq_of_mem_set hpc with h | rfl
    · exact hinv.noDeny pc h
    · rfl
  · intro h
    simp at h
  · intro e he
    simp only [Function.update_same, Option.some.injEq] at he
    subst he
    refine ⟨hrec.2, ?_, ?_, ?_, Or.inl hc0⟩
    · show 0 ≤ apiKey.Tokens
      rw [hrec.1]; exact Int.ofNat_nonneg N
    · show apiKey.Tokens + _ = _
      rw [hrec.1, hc0]; simp
    · intro h
      rw [ht0] at h
      exact absurd h (lt_irrefl 0)
  · intro e v _ hmem
    have := hseen0 _ hmem
    simp [PC.seen?] at this
  · intro e pc v _ hmem _ hs
    rw [hseen0 pc hmem] at hs
    exact Option.noConfusion hs
  · intro pc hmem v hs
    rw [hseen0 pc hmem] at hs
    exact Option.noConfusion hs
  · intro e v he hlt hle
    simp only [Function.update_same, Option.some.injEq] at he
    subst he
    simp only [] at hlt
    rw [hrec.1] at hlt
    omega
  · intro pc hmem t ht
    rw [(early_facts pc (hall pc hmem)).2.2.2] at ht
    exact Option.noConfusion ht
  · intro a b p q v _ ha _ hp _
    rw [hseen0 p (mem_of_getElem?_eq _ a p ha)] at hp
    exact Option.noConfusion hp

/-- A goroutine that remembers a balance is about to decrement it or has
decremented it. -/
theorem seen_cases (q : PC) (v : Int) (h : q.seen? = some v) :
    q = PC.atCharge v ∨ q.charged = true := by
  cases q <;> simp [PC.seen?, PC.charged] at h ⊢
  exact h

/-- While goroutine `i` is inside the locked section, no other goroutine
remembers the current balance. -/
theorem no_other_sees_balance {key : String} {N : Nat} {s : RateLimits} {reqs : List Entrant}
    {c : Conc} (hinv : Inv key N s reqs c) (i b : Nat) (x q : PC) (e : RateLimitInfo)
    (hx : c.pcs[i]? = some x) (hcs : x.inCS = true) (he : c.rateLimits key = some e)
    (hne : b ≠ i) (hq : c.pcs[b]? = some q) (hs : q.seen? = some e.Tokens) : False := by
  rcases seen_cases q e.Tokens hs with h | h
  · subst h
    have h1 := hinv.excl b _ hq rfl
    have h2 := hinv.excl i x hx hcs
    rw [h1] at h2
    simp only [Option.some.injEq] at h2
    exact hne h2
  · have := hinv.seenAbove e q e.Tokens he (mem_of_getElem?_eq c.pcs b q hq) h hs
    exact absurd this (lt_irrefl _)

/-- The check of line 97 on a positive balance: the goroutine remembers the
balance, which no other goroutine has seen. -/
theorem inv_checkPass {key : String} {N : Nat} {s : RateLimits} {reqs : List Entrant}
    {c : Conc} (hinv : Inv key N s reqs c) (i : Nat) (e : RateLimitInfo)
    (hx : c.pcs[i]? = some PC.atCheck) (he : c.rateLimits key = some e) (hpos : e.Tokens > 0) :
    Inv key N s reqs ⟨c.rateLimits, c.holder, c.store, c.log,
      c.pcs.set i (PC.atCharge e.Tokens)⟩ := by
  have hcc : (c.pcs.set i (PC.atCharge e.Tokens)).countP PC.charged =
      c.pcs.countP PC.charged := by
    have h := countP_set_add PC.charged c.pcs i _ (PC.atCharge e.Tokens) hx
    simp only [PC.charged] at h
    omega
  have hct : (c.pcs.set i (PC.atCharge e.Tokens)).countP PC.turnedAway =
      c.pcs.countP PC.turnedAway := by
    have h := countP_set_add PC.turnedAway c.pcs i _ (PC.atCharge e.Tokens) hx
    simp only [PC.turnedAway] at h
    omega
  obtain ⟨hheld, hexcl⟩ := mutex_move hinv i PC.atCheck (PC.atCharge e.Tokens) c.holder hx
    (Or.inl ⟨rfl, rfl⟩)
  refine
    { len := ?_, held := hheld, excl := hexcl, frame := hinv.frame, active := hinv.active,
      noDeny := ?_, fresh := ?_, entry := ?_, seenCharge := ?_, seenAbove := ?_, seenLe := ?_,
      covered := ?_, tokens := ?_, distinct := ?_ }
  · simp only [List.length_set]
    exact hinv.len
  · intro pc hpc
    rcases List.mem_or_eq_of_mem_set hpc with h | rfl
    · exact hinv.noDeny pc h
    · rfl
  · intro h
    simp only [] at h
    rw [he] at h
    exact Option.noConfusion h
  · intro e1 he1
    simp only [] at he1 ⊢
    rw [hcc, hct]
    exact hinv.entry e1 he1
  · intro e1 v he1 hmem
    simp only [] at he1 hmem
    rcases List.mem_or_eq_of_mem_set hmem with h | h
    · exact hinv.seenCharge e1 v he1 h
    · rw [he] at he1
      simp only [Option.some.injEq] at he1
      subst he1
      simp only [PC.atCharge.injEq] at h
      subst h
      exact ⟨rfl, hpos⟩
  · intro e1 pc v he1 hmem hc hs
    simp only [] at he1 hmem
    rcases List.mem_or_eq_of_mem_set hmem with h | h
    · exact hinv.seenAbove e1 pc v he1 h hc hs
    · subst h
      exact Bool.noConfusion hc
  · intro pc hmem v hs
    simp only [] at hmem
    rcases List.mem_or_eq_of_mem_set hmem with h | rfl
    · exact hinv.seenLe pc h v hs
    · simp only [PC.seen?, Option.some.injEq] at hs
      subst hs
      have := (hinv.entry e he).2.2.1
      omega
  · intro e1 v he1 hlt hle
    simp only [] at he1 ⊢
    exact covered_move c.pcs i PC.atCheck _ hx (fun h => Bool.noConfusion h) v
      (hinv.covered e1 v he1 hlt hle)
  · intro pc hmem t ht
    simp only [] at hmem
    rcases List.mem_or_eq_of_mem_set hmem with h | rfl
    · exact hinv.tokens pc h t ht
    · exact Option.noConfusion ht
  · intro a b p q v hab ha hb hp hq
    simp only [] at ha hb
    rcases getElem?_set_cases c.pcs i a _ p ha with ⟨rfl, rfl⟩ | ⟨hna, hpa⟩
    · rcases getElem?_set_cases c.pcs a b _ q hb with ⟨rfl, _⟩ | ⟨hnb, hqb⟩
      · exact hab rfl
      · simp only [PC.seen?, Option.some.injEq] at hp
        subst hp
        exact no_other_sees_balance hinv a b _ q e hx rfl he hnb hqb hq
    · rcases getElem?_set_cases c.pcs i b _ q hb with ⟨rfl, rfl⟩ | ⟨_, hqb⟩
      · simp only [PC.seen?, Option.some.injEq] at hq
        subst hq
        exact no_other_sees_balance hinv b a _ p e hx rfl he hna hpa hp
      · exact hinv.distinct a b p q v hab hpa hqb hp hq

/-- The decrement of lines 98-99, under the lock: one token less, one charged
goroutine more, which remembers the balance it took the token from. -/
theorem inv_charge {key : String} {N : Nat} {s : RateLimits} {reqs : List Entrant} {c : Conc}
    (hinv : Inv key N s reqs c) (i : Nat) (r : Entrant) (v : Int) (e : RateLimitInfo)
    (hr : reqs[i]? = some r) (hx : c.pcs[i]? = some (PC.atCharge v))
    (he : c.rateLimits key = some e) :
    Inv key N s reqs ⟨Function.update c.rateLimits key (some
      { e with Tokens := e.Tokens - 1, LastUsed := r.now }), c.holder, c.store, c.log,
      c.pcs.set i (PC.atUnlockAllowed v)⟩ := by
  obtain ⟨hv, hpos⟩ := hinv.seenCharge e v he (mem_of_getElem?_eq c.pcs i _ hx)
  obtain ⟨h1, h2, h3, h4, _⟩ := hinv.entry e he
  have hcc : (c.pcs.set i (PC.atUnlockAllowed v)).countP PC.charged =
      c.pcs.countP PC.charged + 1 := by
    have h := countP_set_add PC.charged c.pcs i _ (PC.atUnlockAllowed v) hx
    simp only [PC.charged] at h
    simpa using h
  have hct : (c.pcs.set i (PC.atUnlockAllowed v)).countP PC.turnedAway =
      c.pcs.countP PC.turnedAway := by
    have h := countP_set_add PC.turnedAway c.pcs i _ (PC.atUnlockAllowed v) hx
    simp only [PC.turnedAway] at h
    omega
  obtain ⟨hheld, hexcl⟩ := mutex_move hinv i (PC.atCharge v) (PC.atUnlockAllowed v) c.holder hx
    (Or.inl ⟨rfl, rfl⟩)
  refine
    { len := ?_, held := hheld, excl := hexcl, frame := ?_, active := hinv.active,
      noDeny := ?_, fresh := ?_, entry := ?_, seenCharge := ?_, seenAbove := ?_, seenLe := ?_,
      covered := ?_, tokens := ?_, distinct := distinct_move hinv i _ _ hx rfl }
  · simp only [List.length_set]
    exact hinv.len
  · intro key2 hk
    simp only [Function.update_noteq hk]
    exact hinv.frame key2 hk
  · intro pc hpc
    rcases List.mem_or_eq_of_mem_set hpc with h | rfl
    · exact hinv.noDeny pc h
    · rfl
  · intro h
    simp at h
  · intro e1 he1
    simp only [Function.update_same, Option.some.injEq] at he1
    subst he1
    simp only []
    rw [hcc, hct]
    refine ⟨h1, by omega, by push_cast; omega, ?_, Or.inr ⟨r, mem_of_getElem?_eq reqs i r hr, rfl⟩⟩
    intro hR
    have := h4 hR
    omega
  · intro e1 v1 _ hmem
    exfalso
    simp only [] at hmem
    obtain ⟨b, hb⟩ := exists_getElem?_of_mem _ _ hmem
    rcases getElem?_set_cases c.pcs i b _ _ hb with ⟨_, h⟩ | ⟨hne, hq⟩
    · exact PC.noConfusion h
    · have hb1 := hinv.excl b _ hq rfl
      have hi1 := hinv.excl i _ hx rfl
      rw [hb1] at hi1
      simp only [Option.some.injEq] at hi1
      exact hne hi1
  · intro e1 pc v1 he1 hmem hc hs
    simp only [Function.update_same, Option.some.injEq] at he1
    subst he1
    simp only [] at hmem ⊢
    rcases List.mem_or_eq_of_mem_set hmem with h | h
    · have := hinv.seenAbove e pc v1 he h hc hs
      omega
    · subst h
      simp only [PC.seen?, Option.some.injEq] at hs
      omega
  · intro pc hmem v1 hs
    simp only [] at hmem
    rcases List.mem_or_eq_of_mem_set hmem with h | rfl
    · exact hinv.seenLe pc h v1 hs
    · exact hinv.seenLe _ (mem_of_getElem?_eq c.pcs i _ hx) v1 hs
  · intro e1 v1 he1 hlt hle
    simp only [Function.update_same, Option.some.injEq] at he1
    subst he1
    simp only [] at hlt ⊢
    by_cases hv1 : v1 = e.Tokens
    · exact ⟨PC.atUnlockAllowed v, mem_set_self c.pcs i _ _ hx, rfl, by rw [hv1, hv]; rfl⟩
    · exact covered_move c.pcs i (PC.atCharge v) _ hx (fun h => Bool.noConfusion h) v1
        (hinv.covered e v1 he (by omega) hle)
  · intro pc hmem t ht
    simp only [] at hmem
    rcases List.mem_or_eq_of_mem_set hmem with h | rfl
    · exact hinv.tokens pc h t ht
    · exact Option.noConfusion ht

/-- With simultaneous requests the reset of lines 93-95 never changes the
entry: either nothing was charged yet and the balance is full, or the entry
was stamped by one of the requests, less than a minute away. -/
theorem inv_reset_noop {key : String} {N : Nat} {s : RateLimits} {reqs : List Entrant}
    {c : Conc} (hsim : ∀ r ∈ reqs, ∀ r2 ∈ reqs, r2.now - r.now < Minute)
    (hinv : Inv key N s reqs c) (r : Entrant) (hr : r ∈ reqs) (e : RateLimitInfo)
    (he : c.rateLimits key = some e) :
    (if Sub r.now e.LastUsed ≥ Minute then { e with Tokens := e.RateLimit } else e) = e := by
  obtain ⟨h1, _, h3, _, h5⟩ := hinv.entry e he
  split_ifs with hcond
  · rcases h5 with h0 | ⟨r1, hr1, hl⟩
    · have : e.Tokens = e.RateLimit := by
        rw [h0] at h3
        rw [h1]
        simpa using h3
      cases e
      simp only [] at this
      simp [this]
    · exfalso
      rw [Sub_ge_Minute, hl] at hcond
      have := hsim r1 hr1 r hr
      omega
  · rfl

/-- A goroutine past line 82 implies the entry exists. -/
theorem inv_fresh_absurd {key : String} {N : Nat} {s : RateLimits} {reqs : List Entrant}
    {c : Conc} (hinv : Inv key N s reqs c) (i : Nat) (x : PC) (hx : c.pcs[i]? = some x)
    (h1 : x.early = false) (hnone : c.rateLimits key = none) : False := by
  have := (hinv.fresh hnone).1 x (mem_of_getElem?_eq c.pcs i x hx)
  rw [h1] at this
  exact Bool.noConfusion this

/-- The entry exists once a goroutine is past line 82. -/
theorem inv_entry_exists {key : String} {N : Nat} {s : RateLimits} {reqs : List Entrant}
    {c : Conc} (hinv : Inv key N s reqs c) (i : Nat) (x : PC) (hx : c.pcs[i]? = some x)
    (h1 : x.early = false) : ∃ e, c.rateLimits key = some e := by
  cases he : c.rateLimits key with
  | none => exact (inv_fresh_absurd hinv i x hx h1 he).elim
  | some e => exact ⟨e, rfl⟩

/-- Every step of every goroutine keeps the invariant. -/
theorem inv_step {key : String} {N : Nat} {s : RateLimits} {reqs : List Entrant} {c c1 : Conc}
    (hsim : ∀ r ∈ reqs, ∀ r2 ∈ reqs, r2.now - r.now < Minute)
    (hinv : Inv key N s reqs c) (i : Nat) (h : stepGoroutine key reqs c i = some c1) :
    Inv key N s reqs c1 := by
  unfold stepGoroutine at h
  cases hr : reqs[i]? with
  | none => simp [hr] at h
  | some r =>
    cases hx : c.pcs[i]? with
    | none => simp [hr, hx] at h
    | some pc =>
      simp only [hr, hx] at h
      have hmem : pc ∈ c.pcs := mem_of_getElem?_eq c.pcs i pc hx
      have hlate : pc.early = false → ∀ (P : Prop), (c.rateLimits key = none → P) :=
        fun he _ hn => (inv_fresh_absurd hinv i pc hx he hn).elim
      cases pc with
      | atAuth =>
        obtain ⟨a, hs, ha⟩ := hinv.active
        simp only [hs, ha, Bool.not_true, Bool.false_eq_true, if_false, Option.some.injEq] at h
        subst h
        refine inv_move hinv i _ (PC.atLock a) c.holder (some a) _ hx (Or.inl ⟨rfl, rfl⟩)
          (Or.inl hs.symm) rfl (Or.inl rfl) rfl (fun v hv => PC.noConfusion hv) rfl
          (fun t ht => Option.noConfusion ht) (fun hn => ⟨rfl, ?_⟩)
        intro a1 ha1
        simp only [PC.record?, Option.some.injEq] at ha1
        subst ha1
        exact (hinv.fresh hn).2.1 a hs
      | atDeny resp => exact Bool.noConfusion (hinv.noDeny _ hmem)
      | atLock a =>
        cases hh : c.holder with
        | some j => simp [hh] at h
        | none =>
          simp only [hh, Option.some.injEq] at h
          subst h
          exact inv_move hinv i _ (PC.atLookup a) (some i) c.store c.log hx
            (Or.inr (Or.inl ⟨hh, rfl, rfl⟩)) (Or.inl rfl) rfl (Or.inl rfl) rfl
            (fun v hv => PC.noConfusion hv) rfl (fun t ht => Option.noConfusion ht)
            (fun hn => ⟨rfl, fun a1 ha1 => (hinv.fresh hn).2.2 _ hmem a1 ha1⟩)
      | atLookup a =>
        cases he : c.rateLimits key with
        | some e =>
          simp only [he, Option.some.injEq] at h
          subst h
          exact inv_move hinv i _ PC.atReset c.holder c.store c.log hx (Or.inl ⟨rfl, rfl⟩)
            (Or.inl rfl) rfl (Or.inl rfl) rfl (fun v hv => PC.noConfusion hv) rfl
            (fun t ht => Option.noConfusion ht)
            (fun hn => by rw [he] at hn; exact Option.noConfusion hn)
        | none =>
          simp only [he, Option.some.injEq] at h
          subst h
          exact inv_create hinv i a hx he
      | atReset =>
        cases he : c.rateLimits key with
        | none => simp [he] at h
        | some e =>
          simp only [he, Option.some.injEq] at h
          subst h
          rw [inv_reset_noop hsim hinv r (mem_of_getElem?_eq reqs i r hr) e he, ← he,
            Function.update_eq_self]
          exact inv_move hinv i _ PC.atCheck c.holder c.store c.log hx (Or.inl ⟨rfl, rfl⟩)
            (Or.inl rfl) rfl (Or.inl rfl) rfl (fun v hv => PC.noConfusion hv) rfl
            (fun t ht => Option.noConfusion ht)
            (fun hn => by rw [he] at hn; exact Option.noConfusion hn)
      | atCheck =>
        cases he : c.rateLimits key with
        | none => simp [he] at h
        | some e =>
          simp only [he] at h
          by_cases hpos : e.Tokens > 0
          · rw [if_pos hpos] at h
            simp only [Option.some.injEq] at h
            subst h
            exact inv_checkPass hinv i e hx he hpos
          · rw [if_neg hpos] at h
            simp only [Option.some.injEq] at h
            subst h
            refine inv_move hinv i _ PC.atUnlockRejected c.holder c.store c.log hx
              (Or.inl ⟨rfl, rfl⟩) (Or.inl rfl) rfl (Or.inr ?_) rfl
              (fun v hv => PC.noConfusion hv) rfl (fun t ht => Option.noConfusion ht)
              (fun hn => by rw [he] at hn; exact Option.noConfusion hn)
            intro e1 he1
            rw [he] at he1
            simp only [Option.some.injEq] at he1
            subst he1
            have := (hinv.entry e he).2.1
            omega
      | atCharge v =>
        cases he : c.rateLimits key with
        | none => simp [he] at h
        | some e =>
          simp only [he, Option.some.injEq] at h
          subst h
          exact inv_charge hinv i r v e hr hx he
      | atUnlockAllowed v =>
        simp only [Option.some.injEq] at h
        subst h
        exact inv_move hinv i _ (PC.atPersist v) none c.store c.log hx
          (Or.inr (Or.inr ⟨rfl, rfl, rfl⟩)) (Or.inl rfl) rfl (Or.inl rfl) rfl
          (fun v hv => PC.noConfusion hv) rfl (fun t ht => Option.noConfusion ht)
          (hlate rfl _)
      | atUnlockRejected =>
        simp only [Option.some.injEq] at h
        subst h
        exact inv_move hinv i _ PC.atError none c.store c.log hx
          (Or.inr (Or.inr ⟨rfl, rfl, rfl⟩)) (Or.inl rfl) rfl (Or.inl rfl) rfl
          (fun v hv => PC.noConfusion hv) rfl (fun t ht => Option.noConfusion ht)
          (hlate rfl _)
      | atPersist v =>
        cases he : c.rateLimits key with
        | none => simp [he] at h
        | some e =>
          simp only [he, Option.some.injEq] at h
          subst h
          refine inv_move hinv i _ (PC.atWrite v e.Tokens) c.holder c.store c.log hx
            (Or.inl ⟨rfl, rfl⟩) (Or.inl rfl) rfl (Or.inl rfl) rfl
            (fun v hv => PC.noConfusion hv) rfl ?_
            (fun hn => by rw [he] at hn; exact Option.noConfusion hn)
          intro t ht
          simp only [PC.tokens?, Option.some.injEq] at ht
          subst ht
          obtain ⟨_, h2, h3, _, _⟩ := hinv.entry e he
          have hpos : 0 < c.pcs.countP PC.charged :=
            List.countP_pos_iff.mpr ⟨_, hmem, rfl⟩
          omega
      | atWrite v t =>
        simp only [Option.some.injEq] at h
        subst h
        refine inv_move hinv i _ (PC.atNext v t) c.holder _ _ hx (Or.inl ⟨rfl, rfl⟩)
          ?_ rfl (Or.inl rfl) rfl (fun v hv => PC.noConfusion hv) rfl
          (fun t1 ht1 => hinv.tokens _ hmem t1 ht1) (hlate rfl _)
        by_cases hf : r.writeFails = true
        · exact Or.inl (by rw [if_pos hf])
        · refine Or.inr ⟨inv_entry_exists hinv i _ hx rfl, ?_⟩
          obtain ⟨a, hs, ha⟩ := hinv.active
          rw [if_neg hf, hs]
          exact ⟨_, rfl, ha⟩
      | atNext v t =>
        simp only [Option.some.injEq] at h
        subst h
        exact inv_move hinv i _ (PC.allowed v t) c.holder c.store _ hx (Or.inl ⟨rfl, rfl⟩)
          (Or.inl rfl) rfl (Or.inl rfl) rfl (fun v hv => PC.noConfusion hv) rfl
          (fun t1 ht1 => hinv.tokens _ hmem t1 ht1) (hlate rfl _)
      | atError =>
        simp only [Option.some.injEq] at h
        subst h
        exact inv_move hinv i _ PC.rejected c.holder c.store _ hx (Or.inl ⟨rfl, rfl⟩)
          (Or.inl rfl) rfl (Or.inl rfl) rfl (fun v hv => PC.noConfusion hv) rfl
          (fun t ht => Option.noConfusion ht) (hlate rfl _)
      | denied resp => simp at h
      | allowed v t => simp at h
      | rejected => simp at h

/-- What a goroutine has done after one more action was recorded. -/
theorem actions_append (log : List (Nat × Action)) (i j : Nat) (a : Action) :
    ((log ++ [(i, a)]).filter (fun b => b.1 = j)).map Prod.snd =
      (log.filter (fun b => b.1 = j)).map Prod.snd ++ (if i = j then [a] else []) := by
  by_cases h : i = j
  · simp [List.filter_append, List.filter_cons, h]
  · simp [List.filter_append, List.filter_cons, h]

/-- The record of what the goroutines did is kept by a move that records
nothing and changes nothing in what its goroutine has done, and by a move that
records the one action its goroutine has done in addition. -/
theorem logInv_move {key : String} {c : Conc} (hlog : LogInv key c) (i : Nat) (x y : PC)
    (rateLimits1 : RateLimits) (holder1 : Option Nat) (store1 : Option APIKey)
    (log1 : List (Nat × Action)) (hx : c.pcs[i]? = some x)
    (h : (log1 = c.log ∧ y.actions key = x.actions key) ∨
      ∃ a, log1 = c.log ++ [(i, a)] ∧ y.actions key = x.actions key ++ [a]) :
    LogInv key ⟨rateLimits1, holder1, store1, log1, c.pcs.set i y⟩ := by
  have hlt : i < c.pcs.length := by
    rcases Nat.lt_or_ge i c.pcs.length with h1 | h1
    · exact h1
    · rw [List.getElem?_eq_none h1] at hx
      exact Option.noConfusion hx
  have hxa := hlog.mine i x hx
  unfold Conc.actionsOf at hxa
  refine ⟨?_, ?_⟩
  · intro j pc hj
    simp only [Conc.actionsOf] at hj ⊢
    rcases getElem?_set_cases c.pcs i j y pc hj with ⟨rfl, rfl⟩ | ⟨hne, hold⟩
    · rcases h with ⟨h1, h2⟩ | ⟨a, h1, h2⟩
      · rw [h1, h2]
        exact hxa
      · rw [h1, h2, actions_append, if_pos rfl, hxa]
    · have hja := hlog.mine j pc hold
      unfold Conc.actionsOf at hja
      rcases h with ⟨h1, _⟩ | ⟨a, h1, _⟩
      · rw [h1]
        exact hja
      · rw [h1, actions_append, if_neg (fun e => hne e.symm), List.append_nil]
        exact hja
  · intro a ha
    simp only [List.length_set] at ha ⊢
    rcases h with ⟨h1, _⟩ | ⟨b, h1, _⟩
    · rw [h1] at ha
      exact hlog.owned a ha
    · rw [h1] at ha
      rcases List.mem_append.mp ha with h2 | h2
      · exact hlog.owned a h2
      · simp only [List.mem_singleton] at h2
        rw [h2]
        exact hlt

/-- Every step of every goroutine records what it does. -/
theorem logInv_step {key : String} {reqs : List Entrant} {c c1 : Conc}
    (hlog : LogInv key c) (i : Nat) (h : stepGoroutine key reqs c i = some c1) :
    LogInv key c1 := by
  unfold stepGoroutine at h
  cases hr : reqs[i]? with
  | none => simp [hr] at h
  | some r =>
    cases hx : c.pcs[i]? with
    | none => simp [hr, hx] at h
    | some pc =>
      simp only [hr, hx] at h
      cases pc with
      | atAuth =>
        cases hs : c.store with
        | none =>
          simp only [hs, Option.some.injEq] at h
          subst h
          exact logInv_move hlog i _ _ _ _ _ _ hx (Or.inr ⟨_, rfl, rfl⟩)
        | some a =>
          simp only [hs] at h
          by_cases ha : (!a.Active) = true
          · rw [if_pos ha] at h
            simp only [Option.some.injEq] at h
            subst h
            exact logInv_move hlog i _ _ _ _ _ _ hx (Or.inr ⟨_, rfl, rfl⟩)
          · rw [if_neg ha] at h
            simp only [Option.some.injEq] at h
            subst h
            exact logInv_move hlog i _ _ _ _ _ _ hx (Or.inr ⟨_, rfl, rfl⟩)
      | atDeny resp =>
        simp only [Option.some.injEq] at h
        subst h
        exact logInv_move hlog i _ _ _ _ _ _ hx (Or.inr ⟨_, rfl, rfl⟩)
      | atLock a =>
        cases hh : c.holder with
        | some j => simp [hh] at h
        | none =>
          simp only [hh, Option.some.injEq] at h
          subst h
          exact logInv_move hlog i _ _ _ _ _ _ hx (Or.inl ⟨rfl, rfl⟩)
      | atLookup a =>
        cases he : c.rateLimits key with
        | some e =>
          simp only [he, Option.some.injEq] at h
          subst h
          exact logInv_move hlog i _ _ _ _ _ _ hx (Or.inl ⟨rfl, rfl⟩)
        | none =>
          simp only [he, Option.some.injEq] at h
          subst h
          exact logInv_move hlog i _ _ _ _ _ _ hx (Or.inl ⟨rfl, rfl⟩)
      | atReset =>
        cases he : c.rateLimits key with
        | none => simp [he] at h
        | some e =>
          simp only [he, Option.some.injEq] at h
          subst h
          exact logInv_move hlog i _ _ _ _ _ _ hx (Or.inl ⟨rfl, rfl⟩)
      | atCheck =>
        cases he : c.rateLimits key with
        | none => simp [he] at h
        | some e =>
          simp only [he] at h
          by_cases hpos : e.Tokens > 0
          · rw [if_pos hpos] at h
            simp only [Option.some.injEq] at h
            subst h
            exact logInv_move hlog i _ _ _ _ _ _ hx (Or.inl ⟨rfl, rfl⟩)
          · rw [if_neg hpos] at h
            simp only [Option.some.injEq] at h
            subst h
            exact logInv_move hlog i _ _ _ _ _ _ hx (Or.inl ⟨rfl, rfl⟩)
      | atCharge v =>
        cases he : c.rateLimits key with
        | none => simp [he] at h
        | some e =>
          simp only [he, Option.some.injEq] at h
          subst h
          exact logInv_move hlog i _ _ _ _ _ _ hx (Or.inl ⟨rfl, rfl⟩)
      | atUnlockAllowed v =>
        simp only [Option.some.injEq] at h
        subst h
        exact logInv_move hlog i _ _ _ _ _ _ hx (Or.inl ⟨rfl, rfl⟩)
      | atUnlockRejected =>
        simp only [Option.some.injEq] at h
        subst h
        exact logInv_move hlog i _ _ _ _ _ _ hx (Or.inl ⟨rfl, rfl⟩)
      | atPersist v =>
        cases he : c.rateLimits key with
        | none => simp [he] at h
        | some e =>
          simp only [he, Option.some.injEq] at h
          subst h
          exact logInv_move hlog i _ _ _ _ _ _ hx (Or.inl ⟨rfl, rfl⟩)
      | atWrite v t =>
        simp only [Option.some.injEq] at h
        subst h
        exact logInv_move hlog i _ _ _ _ _ _ hx (Or.inr ⟨_, rfl, rfl⟩)
      | atNext v t =>
        simp only [Option.some.injEq] at h
        subst h
        exact logInv_move hlog i _ _ _ _ _ _ hx (Or.inr ⟨_, rfl, rfl⟩)
      | atError =>
        simp only [Option.some.injEq] at h
        subst h
        exact logInv_move hlog i _ _ _ _ _ _ hx (Or.inr ⟨_, rfl, rfl⟩)
      | denied resp => simp at h
      | allowed v t => simp at h
      | rejected => simp at h

/-- At the start nothing was done. -/
theorem logInv_init (key : String) (s : RateLimits) (store : Option APIKey)
    (reqs : List Entrant) : LogInv key (startAll s store reqs) := by
  refine ⟨?_, ?_⟩
  · intro i pc hpc
    have hmem := mem_of_getElem?_eq _ i pc hpc
    simp only [startAll, List.mem_map] at hmem
    obtain ⟨_, _, h⟩ := hmem
    rw [← h]
    rfl
  · intro a ha
    simp [startAll] at ha

/-- The invariant holds at the start, on a full balance and an active
record. -/
theorem inv_init (key : String) (N : Nat) (s : RateLimits) (record : APIKey)
    (reqs : List Entrant) (hact : record.Active = true)
    (hrec : s key = none → record.Tokens = N ∧ record.RateLimit = N)
    (hent : ∀ e, s key = some e → e.Tokens = N ∧ e.RateLimit = N) :
    Inv key N s reqs (startAll s (some record) reqs) := by
  have hall : ∀ pc ∈ (startAll s (some record) reqs).pcs, pc = PC.atAuth := by
    intro pc hpc
    simp only [startAll, List.mem_map] at hpc
    obtain ⟨_, _, h⟩ := hpc
    exact h.symm
  have hc0 : (startAll s (some record) reqs).pcs.countP PC.charged = 0 := by
    rw [List.countP_eq_zero]
    intro pc hpc
    rw [hall pc hpc]
    decide
  have ht0 : (startAll s (some record) reqs).pcs.countP PC.turnedAway = 0 := by
    rw [List.countP_eq_zero]
    intro pc hpc
    rw [hall pc hpc]
    decide
  refine
    { len := by simp [startAll], held := ?_, excl := ?_, frame := fun _ _ => rfl,
      active := ⟨record, rfl, hact⟩, noDeny := ?_, fresh := ?_, entry := ?_, seenCharge := ?_,
      seenAbove := ?_, seenLe := ?_, covered := ?_, tokens := ?_, distinct := ?_ }
  · intro j hj
    simp [startAll] at hj
  · intro j pc hj hcs
    rw [hall pc (mem_of_getElem?_eq _ j pc hj)] at hcs
    exact Bool.noConfusion hcs
  · intro pc hpc
    rw [hall pc hpc]
    rfl
  · intro hnone
    refine ⟨fun pc hpc => by rw [hall pc hpc]; rfl, ?_, ?_⟩
    · intro a ha
      simp only [startAll, Option.some.injEq] at ha
      subst ha
      exact hrec hnone
    · intro pc hpc a ha
      rw [hall pc hpc] at ha
      exact Option.noConfusion ha
  · intro e he
    obtain ⟨h1, h2⟩ := hent e he
    rw [hc0, ht0]
    refine ⟨h2, by rw [h1]; exact Int.ofNat_nonneg N, by rw [h1]; simp, ?_, Or.inl rfl⟩
    intro h
    exact absurd h (lt_irrefl 0)
  · intro e v _ hmem
    have := hall _ hmem
    exact PC.noConfusion this
  · intro e pc v _ hmem hc _
    rw [hall pc hmem] at hc
    exact Bool.noConfusion hc
  · intro pc hmem v hs
    rw [hall pc hmem] at hs
    exact Option.noConfusion hs
  · intro e v he hlt hle
    have h1 := (hent e he).1
    omega
  · intro pc hmem t ht
    rw [hall pc hmem] at ht
    exact Option.noConfusion ht
  · intro a b p q v _ ha _ hp _
    rw [hall p (mem_of_getElem?_eq _ a p ha)] at hp
    exact Option.noConfusion hp

/-- The invariant holds after every schedule. -/
theorem inv_run {key : String} {N : Nat} {s : RateLimits} {reqs : List Entrant}
    (hsim : ∀ r ∈ reqs, ∀ r2 ∈ reqs, r2.now - r.now < Minute) :
    ∀ (sched : List Nat) (c c1 : Conc), Inv key N s reqs c →
      OllamaGateway.run key reqs c sched = some c1 → Inv key N s reqs c1 := by
  intro sched
  induction sched with
  | nil =>
    intro c c1 hinv h
    simp only [OllamaGateway.run, Option.some.injEq] at h
    subst h
    exact hinv
  | cons i rest ih =>
    intro c c1 hinv h
    simp only [OllamaGateway.run] at h
    cases hs : stepGoroutine key reqs c i with
    | none => simp [hs] at h
    | some c2 =>
      simp only [hs] at h
      exact ih c2 c1 (inv_step hsim hinv i hs) h

/-- After every schedule every goroutine has done what its position says. -/
theorem logInv_run {key : String} {reqs : List Entrant} :
    ∀ (sched : List Nat) (c c1 : Conc), LogInv key c →
      OllamaGateway.run key reqs c sched = some c1 → LogInv key c1 := by
  intro sched
  induction sched with
  | nil =>
    intro c c1 hlog h
    simp only [OllamaGateway.run, Option.some.injEq] at h
    subst h
    exact hlog
  | cons i rest ih =>
    intro c c1 hlog h
    simp only [OllamaGateway.run] at h
    cases hs : stepGoroutine key reqs c i with
    | none => simp [hs] at h
    | some c2 =>
      simp only [hs] at h
      exact ih c2 c1 (logInv_step hlog i hs) h

/-- Every step uses up at least one of the statements left. -/
theorem stepsLeft_step {key : String} {reqs : List Entrant} {c c1 : Conc} (i : Nat)
    (h : stepGoroutine key reqs c i = some c1) : c1.stepsLeft < c.stepsLeft := by
  unfold stepGoroutine at h
  cases hr : reqs[i]? with
  | none => simp [hr] at h
  | some r =>
    cases hx : c.pcs[i]? with
    | none => simp [hr, hx] at h
    | some pc =>
      simp only [hr, hx] at h
      have key1 : ∀ y : PC, y.stepsLeft < pc.stepsLeft →
          ((c.pcs.set i y).map PC.stepsLeft).sum < (c.pcs.map PC.stepsLeft).sum := by
        intro y hy
        have := sum_map_set_add PC.stepsLeft c.pcs i pc y hx
        omega
      cases pc with
      | atAuth =>
        cases hs : c.store with
        | none =>
          simp only [hs, Option.some.injEq] at h
          subst h
          exact key1 _ (by simp [PC.stepsLeft])
        | some a =>
          simp only [hs] at h
          by_cases ha : (!a.Active) = true
          · rw [if_pos ha] at h
            simp only [Option.some.injEq] at h
            subst h
            exact key1 _ (by simp [PC.stepsLeft])
          · rw [if_neg ha] at h
            simp only [Option.some.injEq] at h
            subst h
            exact key1 _ (by simp [PC.stepsLeft])
      | atDeny resp =>
        simp only [Option.some.injEq] at h
        subst h
        exact key1 _ (by simp [PC.stepsLeft])
      | atLock a =>
        cases hh : c.holder with
        | some j => simp [hh] at h
        | none =>
          simp only [hh, Option.some.injEq] at h
          subst h
          exact key1 _ (by simp [PC.stepsLeft])
      | atLookup a =>
        cases he : c.rateLimits key with
        | some e =>
          simp only [he, Option.some.injEq] at h
          subst h
          exact key1 _ (by simp [PC.stepsLeft])
        | none =>
          simp only [he, Option.some.injEq] at h
          subst h
          exact key1 _ (by simp [PC.stepsLeft])
      | atReset =>
        cases he : c.rateLimits key with
        | none => simp [he] at h
        | some e =>
          simp only [he, Option.some.injEq] at h
          subst h
          exact key1 _ (by decide)
      | atCheck =>
        cases he : c.rateLimits key with
        | none => simp [he] at h
        | some e =>
          simp only [he] at h
          by_cases hpos : e.Tokens > 0
          · rw [if_pos hpos] at h
            simp only [Option.some.injEq] at h
            subst h
            exact key1 _ (by simp [PC.stepsLeft])
          · rw [if_neg hpos] at h
            simp only [Option.some.injEq] at h
            subst h
            exact key1 _ (by decide)
      | atCharge v =>
        cases he : c.rateLimits key with
        | none => simp [he] at h
        | some e =>
          simp only [he, Option.some.injEq] at h
          subst h
          exact key1 _ (by simp [PC.stepsLeft])
      | atUnlockAllowed v =>
        simp only [Option.some.injEq] at h
        subst h
        exact key1 _ (by simp [PC.stepsLeft])
      | atUnlockRejected =>
        simp only [Option.some.injEq] at h
        subst h
        exact key1 _ (by decide)
      | atPersist v =>
        cases he : c.rateLimits key with
        | none => simp [he] at h
        | some e =>
          simp only [he, Option.some.injEq] at h
          subst h
          exact key1 _ (by simp [PC.stepsLeft])
      | atWrite v t =>
        simp only [Option.some.injEq] at h
        subst h
        exact key1 _ (by simp [PC.stepsLeft])
      | atNext v t =>
        simp only [Option.some.injEq] at h
        subst h
        exact key1 _ (by simp [PC.stepsLeft])
      | atError =>
        simp only [Option.some.injEq] at h
        subst h
        exact key1 _ (by decide)
      | denied resp => simp at h
      | allowed v t => simp at h
      | rejected => simp at h

/-- A schedule is no longer than the statements left at its start. -/
theorem run_length_le {key : String} {reqs : List Entrant} :
    ∀ (sched : List Nat) (c c1 : Conc), OllamaGateway.run key reqs c sched = some c1 →
      sched.length + c1.stepsLeft ≤ c.stepsLeft := by
  intro sched
  induction sched with
  | nil =>
    intro c c1 h
    simp only [OllamaGateway.run, Option.some.injEq] at h
    subst h
    simp
  | cons i rest ih =>
    intro c c1 h
    simp only [OllamaGateway.run] at h
    cases hs : stepGoroutine key reqs c i with
    | none => simp [hs] at h
    | some c2 =>
      simp only [hs] at h
      have h1 := ih c2 c1 h
      have h2 := stepsLeft_step i hs
      simp only [List.length_cons]
      omega

/-- At the start every goroutine has at most ten statements to execute. -/
theorem stepsLeft_startAll (s : RateLimits) (store : Option APIKey) (reqs : List Entrant) :
    (startAll s store reqs).stepsLeft = 10 * reqs.length := by
  simp only [Conc.stepsLeft, startAll, List.map_map]
  induction reqs with
  | nil => rfl
  | cons r rest ih =>
    simp only [List.map_cons, List.sum_cons, List.length_cons, Function.comp, PC.stepsLeft] at ih ⊢
    omega

/-- Every goroutine of the list comes with its request. -/
theorem inv_entrant {key : String} {N : Nat} {s : RateLimits} {reqs : List Entrant} {c : Conc}
    (hinv : Inv key N s reqs c) (j : Nat) (pc : PC) (hpc : c.pcs[j]? = some pc) :
    ∃ r, reqs[j]? = some r := by
  have hlt : j < c.pcs.length := by
    rcases Nat.lt_or_ge j c.pcs.length with h | h
    · exact h
    · rw [List.getElem?_eq_none h] at hpc
      exact Option.noConfusion hpc
  rw [hinv.len] at hlt
  exact ⟨reqs[j], List.getElem?_eq_getElem hlt⟩

/-- A goroutine that is neither finished nor waiting for the mutex can take
its next step. -/
theorem inv_enabled {key : String} {N : Nat} {s : RateLimits} {reqs : List Entrant} {c : Conc}
    (hinv : Inv key N s reqs c) (j : Nat) (pc : PC) (hpc : c.pcs[j]? = some pc)
    (hlock : ∀ a, pc ≠ PC.atLock a) (hdone : pc.done = false) :
    ∃ c1, stepGoroutine key reqs c j = some c1 := by
  obtain ⟨r, hr⟩ := inv_entrant hinv j pc hpc
  have hent : pc.early = false → ∃ e, c.rateLimits key = some e :=
    fun h => inv_entry_exists hinv j pc hpc h
  unfold stepGoroutine
  simp only [hr, hpc]
  cases pc with
  | atAuth =>
    cases c.store with
    | none => exact ⟨_, rfl⟩
    | some a =>
      dsimp only
      split_ifs <;> exact ⟨_, rfl⟩
  | atDeny resp => exact ⟨_, rfl⟩
  | atLock a => exact absurd rfl (hlock a)
  | atLookup a => cases c.rateLimits key <;> exact ⟨_, rfl⟩
  | atReset =>
    obtain ⟨e, he⟩ := hent rfl
    simp only [he]
    exact ⟨_, rfl⟩
  | atCheck =>
    obtain ⟨e, he⟩ := hent rfl
    simp only [he]
    split_ifs <;> exact ⟨_, rfl⟩
  | atCharge v =>
    obtain ⟨e, he⟩ := hent rfl
    simp only [he]
    exact ⟨_, rfl⟩
  | atUnlockAllowed v => exact ⟨_, rfl⟩
  | atUnlockRejected => exact ⟨_, rfl⟩
  | atPersist v =>
    obtain ⟨e, he⟩ := hent rfl
    simp only [he]
    exact ⟨_, rfl⟩
  | atWrite v t => exact ⟨_, rfl⟩
  | atNext v t => exact ⟨_, rfl⟩
  | atError => exact ⟨_, rfl⟩
  | denied resp => exact Bool.noConfusion hdone
  | allowed v t => exact Bool.noConfusion hdone
  | rejected => exact Bool.noConfusion hdone

/-- No deadlock: when no goroutine can move, all of them have finished. -/
theorem inv_progress {key : String} {N : Nat} {s : RateLimits} {reqs : List Entrant}
    {c : Conc} (hinv : Inv key N s reqs c) (hhalt : c.halted key reqs) :
    ∀ pc ∈ c.pcs, pc.done = true := by
  intro pc hmem
  obtain ⟨j, hj⟩ := exists_getElem?_of_mem c.pcs pc hmem
  cases hd : pc.done with
  | true => rfl
  | false =>
    exfalso
    by_cases hlock : ∃ a, pc = PC.atLock a
    · obtain ⟨a, hlock⟩ := hlock
      subst hlock
      obtain ⟨r, hr⟩ := inv_entrant hinv j _ hj
      cases hh : c.holder with
      | none =>
        have := hhalt j
        simp [stepGoroutine, hr, hj, hh] at this
      | some h =>
        obtain ⟨q, hq, hcs⟩ := hinv.held h hh
        have hq1 : ∀ a1, q ≠ PC.atLock a1 := by
          intro a1 e
          rw [e] at hcs
          exact Bool.noConfusion hcs
        have hq2 : q.done = false := by
          cases q <;> first | rfl | exact Bool.noConfusion hcs
        obtain ⟨c1, hc1⟩ := inv_enabled hinv h q hq hq1 hq2
        rw [hhalt h] at hc1
        exact Option.noConfusion hc1
    · push_neg at hlock
      obtain ⟨c1, hc1⟩ := inv_enabled hinv j pc hj hlock hd
      rw [hhalt j] at hc1
      exact Option.noConfusion hc1

/-- Every configuration has a schedule that runs it until no goroutine can
move. -/
theorem exists_halted_run (key : String) (reqs : List Entrant) :
    ∀ (n : Nat) (c : Conc), c.stepsLeft ≤ n →
      ∃ sched c1, OllamaGateway.run key reqs c sched = some c1 ∧ c1.halted key reqs := by
  intro n
  induction n with
  | zero =>
    intro c hc
    refine ⟨[], c, rfl, ?_⟩
    intro i
    cases hs : stepGoroutine key reqs c i with
    | none => rfl
    | some c2 =>
      have := stepsLeft_step i hs
      omega
  | succ n ih =>
    intro c hc
    by_cases hh : c.halted key reqs
    · exact ⟨[], c, rfl, hh⟩
    · unfold Conc.halted at hh
      push_neg at hh
      obtain ⟨i, hi⟩ := hh
      cases hs : stepGoroutine key reqs c i with
      | none => exact absurd hs hi
      | some c2 =>
        have hlt := stepsLeft_step i hs
        obtain ⟨sched, c1, hrun, hhalt⟩ := ih c2 (by omega)
        refine ⟨i :: sched, c1, ?_, hhalt⟩
        simp only [OllamaGateway.run, hs]
        exact hrun

/-- Among finished goroutines none of which was denied, the charged are the
allowed, the turned away are the rejected, and together they are all. -/
theorem count_done : ∀ (l : List PC), (∀ pc ∈ l, pc.done = true) →
    (∀ pc ∈ l, pc.denying = false) →
    l.countP PC.charged = l.countP PC.isAllowed ∧
    l.countP PC.turnedAway = l.countP PC.isRejected ∧
    l.countP PC.isAllowed + l.countP PC.isRejected = l.length := by
  intro l
  induction l with
  | nil => intro _ _; exact ⟨rfl, rfl, rfl⟩
  | cons pc rest ih =>
    intro h hn
    obtain ⟨h1, h2, h3⟩ := ih (fun q hq => h q (List.mem_cons_of_mem _ hq))
      (fun q hq => hn q (List.mem_cons_of_mem _ hq))
    have hd := h pc (List.mem_cons_self _ _)
    have hy := hn pc (List.mem_cons_self _ _)
    simp only [List.countP_cons, List.length_cons, h1, h2]
    cases pc <;> first | exact Bool.noConfusion hd | exact Bool.noConfusion hy | (simp [PC.charged, PC.turnedAway, PC.isAllowed, PC.isRejected]; omega)

/-- What the goroutines have done, one after the other, is what their
positions say. -/
theorem actionsOf_range {key : String} {c : Conc} (hlog : LogInv key c) :
    (List.range c.pcs.length).map c.actionsOf = c.pcs.map (PC.actions key) := by
  apply List.ext_getElem?
  intro n
  rw [List.getElem?_map, List.getElem?_map]
  by_cases hn : n < c.pcs.length
  · rw [List.getElem?_range hn, List.getElem?_eq_getElem hn]
    simp only [Option.map_some']
    rw [hlog.mine n c.pcs[n] (List.getElem?_eq_getElem hn)]
  · rw [List.getElem?_eq_none (by simpa using hn), List.getElem?_eq_none (by simpa using hn)]
    rfl

/-- A schedule that starts with an enabled step goes on from its result. -/
theorem run_cons_of_step {key : String} {reqs : List Entrant} {d d1 : Conc} {i : Nat}
    (rest : List Nat) (h : stepGoroutine key reqs d i = some d1) :
    run key reqs d (i :: rest) = run key reqs d1 rest := by
  simp only [run, h]

/-- The proxy makes none of the middleware's calls. -/
theorem generateHandler_no_actions (db : DBInterface) (cfg : Config) (w : World) (r : Request)
    (s : RateLimits) : (generateHandler db cfg w r s).trace.filterMap Event.toAction = [] := by
  simp only [generateHandler, OllamaReq.marshal]
  cases w.json.decodeGenerateRequest r.Body with
  | none => rfl
  | some req =>
    dsimp only
    cases w.post _ _ _ <;> rfl

/-- One goroutine running alone from line 50 to its end, on an active record:
the configuration it reaches when its check of line 97 passes, and when it
fails. -/
theorem goroutine_alone (key : String) (reqs : List Entrant) (c : Conc) (i : Nat) (r : Entrant)
    (apiKey : APIKey) (hr : reqs[i]? = some r) (hx : c.pcs[i]? = some PC.atAuth)
    (hh : c.holder = none) (hs : c.store = some apiKey) (ha : apiKey.Active = true) :
    run key reqs c (List.replicate
        (if (refill r.now (entryFor c.rateLimits key apiKey)).Tokens > 0 then 10 else 7) i) =
      some (if (refill r.now (entryFor c.rateLimits key apiKey)).Tokens > 0 then
        { rateLimits := Function.update c.rateLimits key (some
            { (refill r.now (entryFor c.rateLimits key apiKey)) with
              Tokens := (refill r.now (entryFor c.rateLimits key apiKey)).Tokens - 1,
              LastUsed := r.now })
          holder := none
          store := if r.writeFails then c.store
            else updateUsage c.store
              ((refill r.now (entryFor c.rateLimits key apiKey)).Tokens - 1) r.writeTime
          log := c.log ++ [(i, Action.GetAPIKey key),
            (i, Action.UpdateAPIKeyUsage key
              ((refill r.now (entryFor c.rateLimits key apiKey)).Tokens - 1)),
            (i, Action.ServeNext)]
          pcs := c.pcs.set i
            (PC.allowed (refill r.now (entryFor c.rateLimits key apiKey)).Tokens
              ((refill r.now (entryFor c.rateLimits key apiKey)).Tokens - 1)) }
      else
        { rateLimits := Function.update c.rateLimits key (some
            (refill r.now (entryFor c.rateLimits key apiKey)))
          holder := none
          store := c.store
          log := c.log ++ [(i, Action.GetAPIKey key), (i, Action.Reply tooManyRequests)]
          pcs := c.pcs.set i PC.rejected }) := by
  have hq : ∀ y : PC, (c.pcs.set i y)[i]? = some y :=
    fun y => getElem?_set_self_of_some c.pcs i _ y hx
  -- lines 50-66
  have h1 : stepGoroutine key reqs
      c i =
      some { c with
        log := c.log ++ [(i, Action.GetAPIKey key)]
        pcs := c.pcs.set i (PC.atLock apiKey) } := by
    simp [stepGoroutine, hr, hx, hs, ha]
  -- line 81
  have h2 : stepGoroutine key reqs
      { c with
        log := c.log ++ [(i, Action.GetAPIKey key)]
        pcs := c.pcs.set i (PC.atLock apiKey) } i =
      some { c with
        holder := some i
        log := c.log ++ [(i, Action.GetAPIKey key)]
        pcs := c.pcs.set i (PC.atLookup apiKey) } := by
    simp [stepGoroutine, hr, hq, hh]
  -- lines 82-90
  have h3 : stepGoroutine key reqs
      { c with
        holder := some i
        log := c.log ++ [(i, Action.GetAPIKey key)]
        pcs := c.pcs.set i (PC.atLookup apiKey) } i =
      some { c with
        rateLimits := Function.update c.rateLimits key (some
        (entryFor c.rateLimits key apiKey))
        holder := some i
        log := c.log ++ [(i, Action.GetAPIKey key)]
        pcs := c.pcs.set i PC.atReset } := by
    cases he : c.rateLimits key with
    | none => simp [stepGoroutine, hr, hq, he, entryFor]
    | some e =>
      have : Function.update c.rateLimits key (some e) = c.rateLimits := by
        rw [← he]; exact Function.update_eq_self key c.rateLimits
      simp [stepGoroutine, hr, hq, he, entryFor, this]
  -- lines 92-95
  have h4 : stepGoroutine key reqs
      { c with
        rateLimits := Function.update c.rateLimits key (some
        (entryFor c.rateLimits key apiKey))
        holder := some i
        log := c.log ++ [(i, Action.GetAPIKey key)]
        pcs := c.pcs.set i PC.atReset } i =
      some { c with
        rateLimits := Function.update c.rateLimits key (some
        (refill r.now (entryFor c.rateLimits key apiKey)))
        holder := some i
        log := c.log ++ [(i, Action.GetAPIKey key)]
        pcs := c.pcs.set i PC.atCheck } := by
    simp [stepGoroutine, hr, hq, refill]
  by_cases ht : (refill r.now (entryFor c.rateLimits key apiKey)).Tokens > 0
  · simp only [ht, if_true, List.replicate]
    -- line 97
    have h5 : stepGoroutine key reqs
        { c with
          rateLimits := Function.update c.rateLimits key (some
          (refill r.now (entryFor c.rateLimits key apiKey)))
          holder := some i
          log := c.log ++ [(i, Action.GetAPIKey key)]
          pcs := c.pcs.set i PC.atCheck } i =
        some { c with
          rateLimits := Function.update c.rateLimits key (some
          (refill r.now (entryFor c.rateLimits key apiKey)))
          holder := some i
          log := c.log ++ [(i, Action.GetAPIKey key)]
          pcs := c.pcs.set i (PC.atCharge (refill r.now (entryFor c.rateLimits key apiKey)).Tokens) } := by
      simp [stepGoroutine, hr, hq, ht]
    -- lines 98-99
    have h6 : stepGoroutine key reqs
        { c with
          rateLimits := Function.update c.rateLimits key (some
          (refill r.now (entryFor c.rateLimits key apiKey)))
          holder := some i
          log := c.log ++ [(i, Action.GetAPIKey key)]
          pcs := c.pcs.set i (PC.atCharge (refill r.now (entryFor c.rateLimits key apiKey)).Tokens) } i =
        some { c with
          rateLimits := Function.update c.rateLimits key (some
          { (refill r.now (entryFor c.rateLimits key apiKey)) with
            Tokens := (refill r.now (entryFor c.rateLimits key apiKey)).Tokens - 1, LastUsed := r.now })
          holder := some i
          log := c.log ++ [(i, Action.GetAPIKey key)]
          pcs := c.pcs.set i (PC.atUnlockAllowed (refill r.now (entryFor c.rateLimits key apiKey)).Tokens) } := by
      simp [stepGoroutine, hr, hq]
    -- line 100
    have h7 : stepGoroutine key reqs
        { c with
          rateLimits := Function.update c.rateLimits key (some
          { (refill r.now (entryFor c.rateLimits key apiKey)) with
            Tokens := (refill r.now (entryFor c.rateLimits key apiKey)).Tokens - 1, LastUsed := r.now })
          holder := some i
          log := c.log ++ [(i, Action.GetAPIKey key)]
          pcs := c.pcs.set i (PC.atUnlockAllowed (refill r.now (entryFor c.rateLimits key apiKey)).Tokens) } i =
        some { c with
          rateLimits := Function.update c.rateLimits key (some
          { (refill r.now (entryFor c.rateLimits key apiKey)) with
            Tokens := (refill r.now (entryFor c.rateLimits key apiKey)).Tokens - 1, LastUsed := r.now })
          holder := none
          log := c.log ++ [(i, Action.GetAPIKey key)]
          pcs := c.pcs.set i (PC.atPersist (refill r.now (entryFor c.rateLimits key apiKey)).Tokens) } := by
      simp [stepGoroutine, hr, hq]
    -- line 102, the argument
    have h8 : stepGoroutine key reqs
        { c with
          rateLimits := Function.update c.rateLimits key (some
          { (refill r.now (entryFor c.rateLimits key apiKey)) with
            Tokens := (refill r.now (entryFor c.rateLimits key apiKey)).Tokens - 1, LastUsed := r.now })
          holder := none
          log := c.log ++ [(i, Action.GetAPIKey key)]
          pcs := c.pcs.set i (PC.atPersist (refill r.now (entryFor c.rateLimits key apiKey)).Tokens) } i =
        some { c with
          rateLimits := Function.update c.rateLimits key (some
          { (refill r.now (entryFor c.rateLimits key apiKey)) with
            Tokens := (refill r.now (entryFor c.rateLimits key apiKey)).Tokens - 1, LastUsed := r.now })
          holder := none
          log := c.log ++ [(i, Action.GetAPIKey key)]
          pcs := c.pcs.set i (PC.atWrite (refill r.now (entryFor c.rateLimits key apiKey)).Tokens
            ((refill r.now (entryFor c.rateLimits key apiKey)).Tokens - 1)) } := by
      simp [stepGoroutine, hr, hq]
    -- line 102, the statement
    have h9 : stepGoroutine key reqs
        { c with
          rateLimits := Function.update c.rateLimits key (some
          { (refill r.now (entryFor c.rateLimits key apiKey)) with
            Tokens := (refill r.now (entryFor c.rateLimits key apiKey)).Tokens - 1, LastUsed := r.now })
          holder := none
          log := c.log ++ [(i, Action.GetAPIKey key)]
          pcs := c.pcs.set i (PC.atWrite (refill r.now (entryFor c.rateLimits key apiKey)).Tokens
            ((refill r.now (entryFor c.rateLimits key apiKey)).Tokens - 1)) } i =
        some { c with
          rateLimits := Function.update c.rateLimits key (some
          { (refill r.now (entryFor c.rateLimits key apiKey)) with
            Tokens := (refill r.now (entryFor c.rateLimits key apiKey)).Tokens - 1, LastUsed := r.now })
          holder := none
          store := (if r.writeFails then c.store
            else updateUsage c.store ((refill r.now (entryFor c.rateLimits key apiKey)).Tokens - 1) r.writeTime)
          log := (c.log ++ [(i, Action.GetAPIKey key)]) ++
            [(i, Action.UpdateAPIKeyUsage key ((refill r.now (entryFor c.rateLimits key apiKey)).Tokens - 1))]
          pcs := c.pcs.set i (PC.atNext (refill r.now (entryFor c.rateLimits key apiKey)).Tokens
            ((refill r.now (entryFor c.rateLimits key apiKey)).Tokens - 1)) } := by
      simp [stepGoroutine, hr, hq]
    -- line 106
    have h10 : stepGoroutine key reqs
        { c with
          rateLimits := Function.update c.rateLimits key (some
          { (refill r.now (entryFor c.rateLimits key apiKey)) with
            Tokens := (refill r.now (entryFor c.rateLimits key apiKey)).Tokens - 1, LastUsed := r.now })
          holder := none
          store := (if r.writeFails then c.store
            else updateUsage c.store ((refill r.now (entryFor c.rateLimits key apiKey)).Tokens - 1) r.writeTime)
          log := (c.log ++ [(i, Action.GetAPIKey key)]) ++
            [(i, Action.UpdateAPIKeyUsage key ((refill r.now (entryFor c.rateLimits key apiKey)).Tokens - 1))]
          pcs := c.pcs.set i (PC.atNext (refill r.now (entryFor c.rateLimits key apiKey)).Tokens
            ((refill r.now (entryFor c.rateLimits key apiKey)).Tokens - 1)) } i =
        some { c with
          rateLimits := Function.update c.rateLimits key (some
          { (refill r.now (entryFor c.rateLimits key apiKey)) with
            Tokens := (refill r.now (entryFor c.rateLimits key apiKey)).Tokens - 1, LastUsed := r.now })
          holder := none
          store := (if r.writeFails then c.store
            else updateUsage c.store ((refill r.now (entryFor c.rateLimits key apiKey)).Tokens - 1) r.writeTime)
          log := ((c.log ++ [(i, Action.GetAPIKey key)]) ++
            [(i, Action.UpdateAPIKeyUsage key ((refill r.now (entryFor c.rateLimits key apiKey)).Tokens - 1))]) ++
            [(i, Action.ServeNext)]
          pcs := c.pcs.set i (PC.allowed (refill r.now (entryFor c.rateLimits key apiKey)).Tokens
            ((refill r.now (entryFor c.rateLimits key apiKey)).Tokens - 1)) } := by
      simp [stepGoroutine, hr, hq]
    rw [run_cons_of_step _ h1,
      run_cons_of_step _ h2,
      run_cons_of_step _ h3,
      run_cons_of_step _ h4,
      run_cons_of_step _ h5,
      run_cons_of_step _ h6,
      run_cons_of_step _ h7,
      run_cons_of_step _ h8,
      run_cons_of_step _ h9,
      run_cons_of_step _ h10]
    simp only [run, List.append_assoc, List.singleton_append, List.cons_append,
      List.nil_append]
  · simp only [ht, if_false, List.replicate]
    -- line 97
    have h5 : stepGoroutine key reqs
        { c with
          rateLimits := Function.update c.rateLimits key (some
          (refill r.now (entryFor c.rateLimits key apiKey)))
          holder := some i
          log := c.log ++ [(i, Action.GetAPIKey key)]
          pcs := c.pcs.set i PC.atCheck } i =
        some { c with
          rateLimits := Function.update c.rateLimits key (some
          (refill r.now (entryFor c.rateLimits key apiKey)))
          holder := some i
          log := c.log ++ [(i, Action.GetAPIKey key)]
          pcs := c.pcs.set i PC.atUnlockRejected } := by
      simp [stepGoroutine, hr, hq, ht]
    -- line 108
    have h6 : stepGoroutine key reqs
        { c with
          rateLimits := Function.update c.rateLimits key (some
          (refill r.now (entryFor c.rateLimits key apiKey)))
          holder := some i
          log := c.log ++ [(i, Action.GetAPIKey key)]
          pcs := c.pcs.set i PC.atUnlockRejected } i =
        some { c with
          rateLimits := Function.update c.rateLimits key (some
          (refill r.now (entryFor c.rateLimits key apiKey)))
          holder := none
          log := c.log ++ [(i, Action.GetAPIKey key)]
          pcs := c.pcs.set i PC.atError } := by
      simp [stepGoroutine, hr, hq]
    -- line 109
    have h7 : stepGoroutine key reqs
        { c with
          rateLimits := Function.update c.rateLimits key (some
          (refill r.now (entryFor c.rateLimits key apiKey)))
          holder := none
          log := c.log ++ [(i, Action.GetAPIKey key)]
          pcs := c.pcs.set i PC.atError } i =
        some { c with
          rateLimits := Function.update c.rateLimits key (some
          (refill r.now (entryFor c.rateLimits key apiKey)))
          holder := none
          log := (c.log ++ [(i, Action.GetAPIKey key)]) ++ [(i, Action.Reply tooManyRequests)]
          pcs := c.pcs.set i PC.rejected } := by
      simp [stepGoroutine, hr, hq]
    rw [run_cons_of_step _ h1,
      run_cons_of_step _ h2,
      run_cons_of_step _ h3,
      run_cons_of_step _ h4,
      run_cons_of_step _ h5,
      run_cons_of_step _ h6,
      run_cons_of_step _ h7]
    simp only [run, List.append_assoc, List.singleton_append, List.cons_append,
      List.nil_append]

/-- One goroutine running alone does to the quota map and to the mutex what
`rateLimitMiddleware` does for the same request in the sequential reading,
makes the same calls in the same order, writes the reply the middleware
writes when it turns the request away, and is allowed exactly when the
middleware calls `next`. -/
theorem goroutine_alone_refines_middleware (key : String) (reqs : List Entrant) (c : Conc)
    (i : Nat) (r : Entrant) (apiKey : APIKey) (db : DBInterface) (cfg : Config) (w : World)
    (rq : Request) (hr : reqs[i]? = some r) (hx : c.pcs[i]? = some PC.atAuth)
    (hh : c.holder = none) (hs : c.store = some apiKey)
    (hp : rq.Path ≠ "/health") (hd : w.json.decodeAPIKey rq.Body = some key) (hk : key ≠ "")
    (hl : db.GetAPIKey key = .ok (some apiKey)) (ha : apiKey.Active = true)
    (hnow : w.now = r.now) :
    ∃ n c1, run key reqs c (List.replicate n i) = some c1 ∧
      c1.rateLimits = (generateRoute db cfg w rq c.rateLimits).rateLimits ∧
      c1.holder = none ∧
      c1.log = c.log ++
        ((generateRoute db cfg w rq c.rateLimits).trace.filterMap Event.toAction).map
          (fun a => (i, a)) ++
        (if (generateRoute db cfg w rq c.rateLimits).allowed = true then []
         else [(i, Action.Reply (generateRoute db cfg w rq c.rateLimits).resp)]) ∧
      ∃ pc, c1.pcs = c.pcs.set i pc ∧ pc.done = true ∧
        pc.isAllowed = (generateRoute db cfg w rq c.rateLimits).allowed := by
  have halone := goroutine_alone key reqs c i r apiKey hr hx hh hs ha
  refine ⟨_, _, halone, ?_⟩
  have hmw := rateLimitMiddleware_authenticated (generateHandler db cfg) db w rq c.rateLimits
    key apiKey hp hd hk hl ha
  unfold generateRoute
  rw [hmw, hnow]
  by_cases ht : (refill r.now (entryFor c.rateLimits key apiKey)).Tokens > 0
  · rw [if_pos ht, if_pos ht]
    refine ⟨?_, rfl, ?_, _, rfl, rfl, ?_⟩
    · simp only [generateHandler_rateLimits]
    · simp [Result.allowed, Event.isServeNext, Event.toAction, generateHandler_no_actions]
    · simp [Result.allowed, Event.isServeNext, PC.isAllowed]
  · rw [if_neg ht, if_neg ht]
    refine ⟨rfl, rfl, ?_, _, rfl, rfl, ?_⟩
    · simp [Result.allowed, Event.isServeNext, Event.toAction, tooManyRequests]
    · simp [Result.allowed, Event.isServeNext, PC.isAllowed]

/-- A goroutine inside the locked section has not finished. -/
theorem not_done_of_inCS (pc : PC) (h : pc.inCS = true) : pc.done = false := by
  cases pc <;> first | rfl | exact Bool.noConfusion h

/-- Every balance a goroutine remembers is at least one. -/
theorem inv_seen_pos {key : String} {N : Nat} {s : RateLimits} {reqs : List Entrant}
    {c : Conc} (hinv : Inv key N s reqs c) (pc : PC) (hmem : pc ∈ c.pcs) (v : Int)
    (hv : pc.seen? = some v) : 1 ≤ v := by
  obtain ⟨j, hj⟩ := exists_getElem?_of_mem c.pcs pc hmem
  have hearly : pc.early = false := by
    cases pc <;> first | rfl | exact Option.noConfusion hv
  obtain ⟨e, he⟩ := inv_entry_exists hinv j pc hj hearly
  rcases seen_cases pc v hv with h | h
  · subst h
    have := (hinv.seenCharge e v he hmem).2
    omega
  · have h1 := hinv.seenAbove e pc v he hmem h hv
    have h2 := (hinv.entry e he).2.1
    omega

/-- Only a goroutine between `Lock()` and `Unlock()` writes to the quota
map. -/
theorem step_rateLimits_of_not_inCS {key : String} {reqs : List Entrant} {c c1 : Conc}
    (j : Nat) (pc : PC) (hpc : c.pcs[j]? = some pc) (hcs : pc.inCS = false)
    (h : stepGoroutine key reqs c j = some c1) : c1.rateLimits = c.rateLimits := by
  unfold stepGoroutine at h
  cases hr : reqs[j]? with
  | none => simp [hr] at h
  | some r =>
    simp only [hr, hpc] at h
    cases pc with
    | atAuth =>
      cases hs : c.store with
      | none =>
        simp only [hs, Option.some.injEq] at h
        subst h
        rfl
      | some a =>
        simp only [hs] at h
        by_cases ha : (!a.Active) = true
        · rw [if_pos ha] at h
          simp only [Option.some.injEq] at h
          subst h
          rfl
        · rw [if_neg ha] at h
          simp only [Option.some.injEq] at h
          subst h
          rfl
    | atDeny resp =>
      simp only [Option.some.injEq] at h
      subst h
      rfl
    | atLock a =>
      cases hh : c.holder with
      | some j => simp [hh] at h
      | none =>
        simp only [hh, Option.some.injEq] at h
        subst h
        rfl
    | atLookup a => exact Bool.noConfusion hcs
    | atReset => exact Bool.noConfusion hcs
    | atCheck => exact Bool.noConfusion hcs
    | atCharge v => exact Bool.noConfusion hcs
    | atUnlockAllowed v => exact Bool.noConfusion hcs
    | atUnlockRejected => exact Bool.noConfusion hcs
    | atPersist v =>
      cases he : c.rateLimits key with
      | none => simp [he] at h
      | some e =>
        simp only [he, Option.some.injEq] at h
        subst h
        rfl
    | atWrite v t =>
      simp only [Option.some.injEq] at h
      subst h
      rfl
    | atNext v t =>
      simp only [Option.some.injEq] at h
      subst h
      rfl
    | atError =>
      simp only [Option.some.injEq] at h
      subst h
      rfl
    | denied resp => simp at h
    | allowed v t => simp at h
    | rejected => simp at h

/-- While a goroutine is between `Lock()` and `Unlock()`, no step of another
goroutine changes the quota map. -/
theorem inv_atomic {key : String} {N : Nat} {s : RateLimits} {reqs : List Entrant}
    {c c1 : Conc} (hinv : Inv key N s reqs c) (i j : Nat) (p : PC)
    (hp : c.pcs[i]? = some p) (hcs : p.inCS = true) (hne : j ≠ i)
    (h : stepGoroutine key reqs c j = some c1) : c1.rateLimits = c.rateLimits := by
  cases hq : c.pcs[j]? with
  | none => simp [stepGoroutine, hq] at h
  | some q =>
    refine step_rateLimits_of_not_inCS j q hq ?_ h
    cases hqc : q.inCS with
    | false => rfl
    | true =>
      exfalso
      have h1 := hinv.excl i p hp hcs
      have h2 := hinv.excl j q hq hqc
      rw [h1] at h2
      exact hne (Option.some.inj h2).symm

/-- When no goroutine can move, exactly `N` of the `N + k` have been allowed
and `k` rejected, and the balance is spent. -/
theorem inv_halted_counts {key : String} {N k : Nat} {s : RateLimits} {reqs : List Entrant}
    {c : Conc} (hinv : Inv key N s reqs c) (hlen : reqs.length = N + k)
    (hhalt : c.halted key reqs) :
    c.pcs.countP PC.isAllowed = N ∧ c.pcs.countP PC.isRejected = k ∧
    (0 < N + k → ∃ e, c.rateLimits key = some e ∧ e.Tokens = 0 ∧ e.RateLimit = N) := by
  have hdone := inv_progress hinv hhalt
  obtain ⟨hA, hT, hsum⟩ := count_done c.pcs hdone hinv.noDeny
  have hl : c.pcs.length = N + k := by rw [hinv.len, hlen]
  cases he : c.rateLimits key with
  | none =>
    have hnil : c.pcs = [] := by
      cases hp : c.pcs with
      | nil => rfl
      | cons pc rest =>
        exfalso
        have hm : pc ∈ c.pcs := by rw [hp]; exact List.mem_cons_self _ _
        have hd := hdone pc hm
        have hearly := (hinv.fresh he).1 pc hm
        cases pc <;> first | exact Bool.noConfusion hd | exact Bool.noConfusion hearly
    rw [hnil] at hl hsum ⊢
    simp only [List.length_nil, List.countP_nil] at hl hsum ⊢
    refine ⟨by omega, by omega, fun h => ?_⟩
    omega
  | some e =>
    obtain ⟨h1, h2, h3, h4, _⟩ := hinv.entry e he
    rw [hA] at h3
    rw [hT] at h4
    rw [hl] at hsum
    have hcount : c.pcs.countP PC.isAllowed = N ∧ c.pcs.countP PC.isRejected = k := by
      by_cases hb : 0 < c.pcs.countP PC.isRejected
      · have := h4 hb
        omega
      · omega
    refine ⟨hcount.1, hcount.2, fun _ => ⟨e, rfl, ?_, h1⟩⟩
    have := hcount.1
    omega

/-- C11: under rateLimit + k simultaneous `POST /generate` requests for one
active credential with a full balance, every schedule of the goroutines lets
exactly rateLimit of them through to `next` and answers the other k with 429,
and leaves the balance of the credential at zero. The statements between
`rateMutex.Lock()` and `rateMutex.Unlock()` are executed only by the goroutine
that holds the mutex, and while it holds it no step of another goroutine
changes the quota map; every decrement is counted in the balance, and no two
requests see the same balance before their decrement: the balances seen are
exactly rateLimit, ..., 1. The schedules are finite and never deadlock. The
lookups read the row of the credential that the calls of `UpdateAPIKeyUsage`
of the other requests write. -/
theorem concurrent_requests_exactly_rateLimit (key : String) (N k : Nat) (s : RateLimits)
    (record : APIKey) (reqs : List Entrant) (hlen : reqs.length = N + k)
    (hact : record.Active = true)
    (hrec : s key = none → record.Tokens = N ∧ record.RateLimit = N)
    (hent : ∀ e, s key = some e → e.Tokens = N ∧ e.RateLimit = N)
    (hsim : ∀ r ∈ reqs, ∀ r2 ∈ reqs, r2.now - r.now < Minute) :
    (∃ sched c, run key reqs (startAll s (some record) reqs) sched = some c ∧
      c.halted key reqs) ∧
    ∀ sched c, run key reqs (startAll s (some record) reqs) sched = some c →
      sched.length ≤ 10 * (N + k) ∧
      (∀ (i : Nat) (p : PC), c.pcs[i]? = some p → p.inCS = true → c.holder = some i) ∧
      (∀ i : Nat, c.holder = some i → ∃ p, c.pcs[i]? = some p ∧ p.inCS = true) ∧
      (∀ (i j : Nat) (p : PC) (c1 : Conc), c.pcs[i]? = some p → p.inCS = true → j ≠ i →
        stepGoroutine key reqs c j = some c1 → c1.rateLimits = c.rateLimits) ∧
      (∀ key2, key2 ≠ key → c.rateLimits key2 = s key2) ∧
      (∀ e, c.rateLimits key = some e →
        e.RateLimit = N ∧ 0 ≤ e.Tokens ∧ e.Tokens + c.pcs.countP PC.charged = N) ∧
      (∀ (i j : Nat) (p q : PC) (v : Int), i ≠ j → c.pcs[i]? = some p → c.pcs[j]? = some q →
        p.seen? = some v → q.seen? ≠ some v) ∧
      (∀ p ∈ c.pcs, ∀ v : Int, p.seen? = some v → 1 ≤ v ∧ v ≤ N) ∧
      (∀ (i : Nat) (p : PC), c.pcs[i]? = some p → c.actionsOf i = p.actions key) ∧
      (∀ a ∈ c.log, a.1 < N + k) ∧
      (c.halted key reqs →
        c.holder = none ∧
        (0 < N + k → ∃ e, c.rateLimits key = some e ∧ e.Tokens = 0 ∧ e.RateLimit = N) ∧
        ((List.range (N + k)).map c.actionsOf).countP
          (fun l => l.contains Action.ServeNext) = N ∧
        ((List.range (N + k)).map c.actionsOf).countP
          (fun l => l.contains (Action.Reply tooManyRequests)) = k ∧
        (∀ i : Nat, i < N + k →
          c.actionsOf i = [Action.GetAPIKey key, Action.Reply tooManyRequests] ∨
          ∃ t : Int, 0 ≤ t ∧ t < N ∧
            c.actionsOf i =
              [Action.GetAPIKey key, Action.UpdateAPIKeyUsage key t, Action.ServeNext]) ∧
        (∀ v : Int, 1 ≤ v → v ≤ N → ∃ (i : Nat) (t : Int), c.pcs[i]? = some (PC.allowed v t)) ∧
        c.pcs.length = N + k ∧
        c.pcs.countP PC.isAllowed = N ∧ c.pcs.countP PC.isRejected = k) := by
  have hinit := inv_init key N s record reqs hact hrec hent
  refine ⟨exists_halted_run key reqs _ (startAll s (some record) reqs) (le_refl _), ?_⟩
  intro sched c hrun
  have hinv := inv_run hsim sched _ c hinit hrun
  have hlog := logInv_run sched _ c (logInv_init key s (some record) reqs) hrun
  have hl : c.pcs.length = N + k := by rw [hinv.len, hlen]
  refine ⟨?_, hinv.excl, hinv.held,
    fun i j p c1 hp hcs hne h => inv_atomic hinv i j p hp hcs hne h,
    hinv.frame, ?_, ?_, ?_, hlog.mine, ?_, ?_⟩
  · have h := run_length_le sched _ c hrun
    rw [stepsLeft_startAll, hlen] at h
    omega
  · intro e he
    obtain ⟨h1, h2, h3, _, _⟩ := hinv.entry e he
    exact ⟨h1, h2, h3⟩
  · intro i j p q v hij hp hq hpv hqv
    exact hinv.distinct i j p q v hij hp hq hpv hqv
  · intro p hp v hv
    exact ⟨inv_seen_pos hinv p hp v hv, hinv.seenLe p hp v hv⟩
  · intro a ha
    rw [← hl]
    exact hlog.owned a ha
  · intro hhalt
    have hdone := inv_progress hinv hhalt
    obtain ⟨hcA, hcR, hbal⟩ := inv_halted_counts hinv hlen hhalt
    have hfinal : ∀ pc ∈ c.pcs, (∃ v t, pc = PC.allowed v t) ∨ pc = PC.rejected := by
      intro pc hm
      have hd := hdone pc hm
      have hy := hinv.noDeny pc hm
      cases pc <;>
        first
        | exact Bool.noConfusion hd
        | exact Bool.noConfusion hy
        | exact Or.inl ⟨_, _, rfl⟩
        | exact Or.inr rfl
    refine ⟨?_, hbal, ?_, ?_, ?_, ?_, hl, hcA, hcR⟩
    · cases hh : c.holder with
      | none => rfl
      | some j =>
        exfalso
        obtain ⟨pc, hpc, hcs⟩ := hinv.held j hh
        have h1 := hdone pc (mem_of_getElem?_eq c.pcs j pc hpc)
        rw [not_done_of_inCS pc hcs] at h1
        exact Bool.noConfusion h1
    · rw [← hl, actionsOf_range hlog, List.countP_map, ← hcA]
      apply List.countP_congr
      intro pc hm
      rcases hfinal pc hm with ⟨v, t, rfl⟩ | rfl
      · simp [PC.actions, PC.isAllowed]
      · simp [PC.actions, PC.isAllowed]
    · rw [← hl, actionsOf_range hlog, List.countP_map, ← hcR]
      apply List.countP_congr
      intro pc hm
      rcases hfinal pc hm with ⟨v, t, rfl⟩ | rfl
      · simp [PC.actions, PC.isRejected]
      · simp [PC.actions, PC.isRejected]
    · intro i hi
      have hi1 : i < c.pcs.length := by rw [hl]; exact hi
      have hpc : c.pcs[i]? = some c.pcs[i] := List.getElem?_eq_getElem hi1
      have hm := mem_of_getElem?_eq c.pcs i _ hpc
      have hact := hlog.mine i _ hpc
      rcases hfinal _ hm with ⟨v, t, hvt⟩ | hrej
      · rw [hvt] at hact
        have hb := hinv.tokens _ hm t (by rw [hvt]; rfl)
        exact Or.inr ⟨t, hb.1, hb.2, hact⟩
      · rw [hrej] at hact
        exact Or.inl hact
    · intro v h1 h2
      have hpos : 0 < N + k := by omega
      obtain ⟨e, he, he0, _⟩ := hbal hpos
      obtain ⟨pc, hm, hc, hs⟩ := hinv.covered e v he (by omega) h2
      obtain ⟨j, hj⟩ := exists_getElem?_of_mem c.pcs pc hm
      rcases hfinal pc hm with ⟨v1, t, rfl⟩ | rfl
      · simp only [PC.seen?, Option.some.injEq] at hs
        subst hs
        exact ⟨j, t, hj⟩
      · exact Bool.noConfusion hc

/-- An interleaved schedule of the three test requests: all look the record
up, goroutine 1 takes the mutex first and goroutine 0 second, and both read
`info.Tokens` for `UpdateAPIKeyUsage` only after the second decrement, so both
persist 0. Two requests are allowed, the third gets 429. -/
theorem interleaved_schedule_example :
    (run "valid-key" testEntrants (startAll noRateLimits (some (validKey 0)) testEntrants)
      [0, 1, 2, 1, 1, 1, 1, 1, 1, 0, 0, 0, 0, 0, 0, 1, 1, 1, 0, 0, 0, 2, 2, 2, 2, 2, 2]).map
        (fun c => (c.pcs, c.holder, c.log, c.rateLimits "valid-key", c.store)) =
      some ([PC.allowed 1 0, PC.allowed 2 0, PC.rejected], none,
        [(0, Action.GetAPIKey "valid-key"), (1, Action.GetAPIKey "valid-key"),
         (2, Action.GetAPIKey "valid-key"),
         (1, Action.UpdateAPIKeyUsage "valid-key" 0), (1, Action.ServeNext),
         (0, Action.UpdateAPIKeyUsage "valid-key" 0), (0, Action.ServeNext),
         (2, Action.Reply tooManyRequests)],
        some ⟨0, 1000000000, 2⟩,
        some { validKey 0 with Tokens := 0, LastUsed := 1000000010 }) := by
  rfl

/-- Three simultaneous requests for `valid-key`, which has 2 of 2 tokens and
no entry yet: rateLimit = 2, k = 1. -/
theorem concurrent_requests_exactly_rateLimit_witness :
    (∃ sched c, run "valid-key" testEntrants
        (startAll noRateLimits (some (validKey 0)) testEntrants) sched = some c ∧
      c.halted "valid-key" testEntrants) ∧
    ∀ sched c, run "valid-key" testEntrants
        (startAll noRateLimits (some (validKey 0)) testEntrants) sched = some c →
      sched.length ≤ 10 * (2 + 1) ∧
      (∀ (i : Nat) (p : PC), c.pcs[i]? = some p → p.inCS = true → c.holder = some i) ∧
      (∀ i : Nat, c.holder = some i → ∃ p, c.pcs[i]? = some p ∧ p.inCS = true) ∧
      (∀ (i j : Nat) (p : PC) (c1 : Conc), c.pcs[i]? = some p → p.inCS = true → j ≠ i →
        stepGoroutine "valid-key" testEntrants c j = some c1 →
        c1.rateLimits = c.rateLimits) ∧
      (∀ key2, key2 ≠ "valid-key" → c.rateLimits key2 = noRateLimits key2) ∧
      (∀ e, c.rateLimits "valid-key" = some e →
        e.RateLimit = (2 : Nat) ∧ 0 ≤ e.Tokens ∧
        e.Tokens + c.pcs.countP PC.charged = (2 : Nat)) ∧
      (∀ (i j : Nat) (p q : PC) (v : Int), i ≠ j → c.pcs[i]? = some p → c.pcs[j]? = some q →
        p.seen? = some v → q.seen? ≠ some v) ∧
      (∀ p ∈ c.pcs, ∀ v : Int, p.seen? = some v → 1 ≤ v ∧ v ≤ (2 : Nat)) ∧
      (∀ (i : Nat) (p : PC), c.pcs[i]? = some p → c.actionsOf i = p.actions "valid-key") ∧
      (∀ a ∈ c.log, a.1 < 2 + 1) ∧
      (c.halted "valid-key" testEntrants →
        c.holder = none ∧
        (0 < 2 + 1 → ∃ e, c.rateLimits "valid-key" = some e ∧ e.Tokens = 0 ∧
          e.RateLimit = (2 : Nat)) ∧
        ((List.range (2 + 1)).map c.actionsOf).countP
          (fun l => l.contains Action.ServeNext) = 2 ∧
        ((List.range (2 + 1)).map c.actionsOf).countP
          (fun l => l.contains (Action.Reply tooManyRequests)) = 1 ∧
        (∀ i : Nat, i < 2 + 1 →
          c.actionsOf i = [Action.GetAPIKey "valid-key", Action.Reply tooManyRequests] ∨
          ∃ t : Int, 0 ≤ t ∧ t < (2 : Nat) ∧
            c.actionsOf i =
              [Action.GetAPIKey "valid-key", Action.UpdateAPIKeyUsage "valid-key" t,
               Action.ServeNext]) ∧
        (∀ v : Int, 1 ≤ v → v ≤ (2 : Nat) →
          ∃ (i : Nat) (t : Int), c.pcs[i]? = some (PC.allowed v t)) ∧
        c.pcs.length = 2 + 1 ∧
        c.pcs.countP PC.isAllowed = 2 ∧ c.pcs.countP PC.isRejected = 1) :=
  concurrent_requests_exactly_rateLimit "valid-key" 2 1 noRateLimits (validKey 0) testEntrants
    rfl rfl (fun _ => ⟨rfl, rfl⟩)
    (by
      intro e he
      exact Option.noConfusion he)
    (by
      intro r hr r2 hr2
      simp only [testEntrants, List.mem_cons, List.mem_singleton, List.not_mem_nil,
        or_false] at hr hr2
      rcases hr with rfl | rfl | rfl <;> rcases hr2 with rfl | rfl | rfl <;>
        simp [Minute])

end OllamaGateway
